import Mathlib

/-!
Verification of the real-time file streaming engine
(`src/FileIoReadStream.cpp`, `src/FileIoServer.cpp`).

The development shallowly embeds the read-stream state machine and the
relevant server request handlers.  Machine integers (`size_t`) are modelled
as `Nat` with explicit wrap-around at `2 ^ 64` where the source can
underflow; request nodes are named by abstract ids drawn from a counter, and
the node pool is a remaining-capacity counter.

Code of the repository that is not under `src/` (the request/stream headers
and the `QwSPSCUnorderedResultQueue` primitive) is modelled from the spec
where its behaviour matters; each such place is marked `Modelled from the
spec:` in its doc comment.
-/

/-! ### size_t arithmetic -/

/-- Modulus of `size_t` arithmetic (the sources build for a 64-bit target). -/
def M64 : Nat := 18446744073709551616

/-- `size_t` subtraction `a - b` (wraps modulo `2 ^ 64`); faithful to the
unsigned underflow in `copyBlockData` and `--waitingForBlocksCount_()`. -/
def sub64 (a b : Nat) : Nat := if b ≤ a then a - b else M64 - (b - a)

/-- The sentinel `(size_t)-1` stored in the bytes-copied cursor by
`BlockRequestBehavior::setDiscarded` (FileIoReadStream.cpp line 62). -/
def DISCARDED : Nat := M64 - 1

/-! ### Error codes used by the server (errno values) -/

def NOERROR : Nat := 0
def EIOcode : Nat := 5
def EBADF : Nat := 9
def ENOMEM : Nat := 12

/-- The `(errno==NOERROR) ? EIO : errno` pattern of FileIoServer.cpp. -/
def errnoOr (errnoVal : Nat) : Nat := if errnoVal = NOERROR then EIOcode else errnoVal

/-! ### Data blocks -/

/-- Modelled from the spec: `DataBlock.h` is not under `src/`.  A data block
is a fixed-capacity byte buffer with a `validCountBytes` count; `data` holds
the full capacity's bytes (bytes past `validCountBytes` are uninitialised
memory, represented as zeros). -/
structure DataBlock where
  validCountBytes : Nat
  data : List Nat
deriving DecidableEq

/-- Client-side state of a block request (`BlockRequestBehavior::BlockState`,
FileIoReadStream.cpp lines 41-46).  `pending` is the in-flight acquire type
`READ_BLOCK`; `BLOCK_STATE_MODIFIED` is unused for read streams and omitted. -/
inductive BlockState
  | pending
  | ready
  | error
deriving DecidableEq

/-- The fields of a `FileIoRequest` used in its block-request role:
`requestType` (as `state`), `resultStatus`, `clientInt` (as `bytesCopied`,
a `size_t` whose value `2^64 - 1` is the discarded sentinel), and the
`readBlock` payload (`filePosition`, `dataBlock`, `isAtEof`). -/
structure FileIoRequest where
  state : BlockState
  resultStatus : Nat
  bytesCopied : Nat
  filePosition : Nat
  dataBlock : Option DataBlock
  isAtEof : Bool
deriving DecidableEq

/-- `BlockRequestBehavior::isDiscarded` (line 61). -/
def isDiscarded (r : FileIoRequest) : Bool := r.bytesCopied = DISCARDED

/-- `BlockRequestBehavior::hasDataBlock` (line 57). -/
def hasDataBlock (r : FileIoRequest) : Bool := r.dataBlock.isSome

/-- `ReadBlockRequestBehavior::initAcquire` (lines 75-86): a fresh pending
`READ_BLOCK` request at file position `pos`. -/
def initAcquire (pos : Nat) : FileIoRequest :=
  { state := BlockState.pending, resultStatus := 0, bytesCopied := 0,
    filePosition := pos, dataBlock := none, isAtEof := false }

/-! ### copyBlockData -/

inductive CopyStatus
  | canContinue
  | atBlockEnd
  | atFinalBlockEnd
deriving DecidableEq

/-- The `memcpy(dst, data + off, n)` read of `n` bytes starting at offset
`off`; bytes outside the buffer read as junk (represented as 0). -/
def memcpyBytes (src : List Nat) (off n : Nat) : List Nat :=
  (List.range n).map fun k => src.getD (off + k) 0

/-- `ReadBlockRequestBehavior::copyBlockData` (lines 117-142).  Returns the
copied bytes, the updated request (bytes-copied cursor advanced) and the
copy status.  `bytesRemainingInBlock` is `size_t` arithmetic: when the
cursor exceeds `validCountBytes` (reachable by seeking past end of file)
the subtraction wraps, exactly as in the source. -/
def copyBlockData (blockReq : FileIoRequest) (maxBytesToCopy : Nat) :
    List Nat × FileIoRequest × CopyStatus :=
  let db := blockReq.dataBlock.getD { validCountBytes := 0, data := [] }
  let blockBytesCopiedSoFar := blockReq.bytesCopied
  let bytesRemainingInBlock := sub64 db.validCountBytes blockBytesCopiedSoFar
  let n := min bytesRemainingInBlock maxBytesToCopy
  let out := memcpyBytes db.data blockBytesCopiedSoFar n
  let blockReq' := { blockReq with bytesCopied := (blockBytesCopiedSoFar + n) % M64 }
  let status :=
    if bytesRemainingInBlock - n = 0 then
      if blockReq.isAtEof then CopyStatus.atFinalBlockEnd else CopyStatus.atBlockEnd
    else CopyStatus.canContinue
  (out, blockReq', status)

/-! ### The server: handleReadBlockRequest (FileIoServer.cpp lines 159-215) -/

/-- Outcomes of the OS calls made while handling a `READ_BLOCK` request:
whether the file record pointer is non-null, whether `allocDataBlock`
succeeded, whether `fseek` succeeded, the bytes `fread` produced, the
`feof` indicator consulted after a short read, and `errno`. -/
structure ReadOutcome where
  fileRecordPresent : Bool
  allocOk : Bool
  seekOk : Bool
  readBytes : List Nat
  atEofFlag : Bool
  errnoVal : Nat
deriving DecidableEq

/-- `handleReadBlockRequest` (lines 159-215).  Returns the reply request,
the increment applied to the file record's `dependentClientCount`
(the `if (r->readBlock.dataBlock) ++fileRecord->dependentClientCount` at
line 211-212), and whether the freshly allocated data block was freed on an
error path. -/
def handleReadBlockRequest (cap : Nat) (oc : ReadOutcome) (r : FileIoRequest) :
    FileIoRequest × Nat × Bool :=
  let finish : FileIoRequest → Bool → FileIoRequest × Nat × Bool := fun reply freed =>
    (reply, if reply.dataBlock.isSome then 1 else 0, freed)
  if oc.fileRecordPresent then
    if oc.allocOk then
      if oc.seekOk then
        let validCount := oc.readBytes.length
        if validCount = cap then
          -- normal case: read a whole block
          finish { r with resultStatus := NOERROR,
                          dataBlock := some { validCountBytes := validCount,
                                              data := oc.readBytes ++ List.replicate (cap - validCount) 0 },
                          isAtEof := false } false
        else if oc.atEofFlag then
          -- partial block at EOF (may have zero valid bytes)
          finish { r with resultStatus := NOERROR,
                          dataBlock := some { validCountBytes := validCount,
                                              data := oc.readBytes ++ List.replicate (cap - validCount) 0 },
                          isAtEof := true } false
        else
          -- short read without EOF: error, free the block
          finish { r with resultStatus := errnoOr oc.errnoVal,
                          dataBlock := none, isAtEof := false } true
      else
        -- seek failed
        finish { r with resultStatus := errnoOr oc.errnoVal,
                        dataBlock := none, isAtEof := false } true
    else
      finish { r with resultStatus := ENOMEM } false
  else
    finish { r with resultStatus := EBADF } false

/-- The outcome of the OS calls for a request at position `pos` against an
in-memory file: `fseek` succeeds, `fread` returns the file's bytes from
`pos` capped at the block capacity, and a short read always carries the
end-of-file indicator. -/
def pureOutcome (file : List Nat) (cap pos : Nat) : ReadOutcome :=
  { fileRecordPresent := true, allocOk := true, seekOk := true,
    readBytes := (file.drop pos).take cap, atEofFlag := true, errnoVal := NOERROR }

/-! ### The server: cleanup protocol (FileIoServer.cpp lines 59-87, 280-365) -/

/-- A completed request sitting in (or destined for) a client result queue,
as far as `cleanupOneRequestResult` distinguishes them. -/
inductive CleanupItem
  | openFileResult (fileHandleValid : Bool)
  | readBlockResult (hasBlock : Bool)
  | allocWriteBlockResult (hasBlock : Bool)
deriving DecidableEq

/-- What `cleanupOneRequestResult` (lines 280-340) does with one result. -/
inductive CleanupAction
  | becameCloseFile
  | becameReleaseReadBlock
  | becameReleaseUnmodified
  | freedDirectly
deriving DecidableEq

/-- `cleanupOneRequestResult` (lines 280-340): per-kind disposal of a
queued result. -/
def cleanupOneRequestResult : CleanupItem → CleanupAction
  | CleanupItem.openFileResult true => CleanupAction.becameCloseFile
  | CleanupItem.openFileResult false => CleanupAction.freedDirectly
  | CleanupItem.readBlockResult true => CleanupAction.becameReleaseReadBlock
  | CleanupItem.readBlockResult false => CleanupAction.freedDirectly
  | CleanupItem.allocWriteBlockResult true => CleanupAction.becameReleaseUnmodified
  | CleanupItem.allocWriteBlockResult false => CleanupAction.freedDirectly

inductive ContainerKind
  | cleanupResultQueue
  | awaitingCleanup
deriving DecidableEq

/-- A stream root node held by the server for cleanup: its `requestType`
(`kind`), its embedded result queue's expected-result count and its queued
results.  Modelled from the spec: `QwSPSCUnorderedResultQueue.h` is not
under `src/`; per spec section 4.3 the expected-result count is the number
of requests sent minus results popped, and `pop` decrements it. -/
structure Container where
  kind : ContainerKind
  expected : Nat
  queue : List CleanupItem
deriving DecidableEq

/-- The `while (r = resultQueue.pop()) cleanupOneRequestResult(r);` drain in
`handleCleanupResultQueueRequest`: each pop decrements the expected-result
count (spec section 4.3). -/
def drainCleanup : List CleanupItem → Nat → List CleanupAction × Nat
  | [], e => ([], e)
  | item :: rest, e =>
    let (acts, e') := drainCleanup rest (e - 1)
    (cleanupOneRequestResult item :: acts, e')

/-- `handleCleanupResultQueueRequest` (lines 342-365).  Returns the cleanup
actions performed on drained results, and the container afterwards
(`none` means it was freed). -/
def handleCleanupResultQueueRequest (c : Container) :
    List CleanupAction × Option Container :=
  if 0 < c.expected then
    let (acts, e') := drainCleanup c.queue c.expected
    if e' = 0 then (acts, none)
    else (acts, some { kind := ContainerKind.awaitingCleanup, expected := e', queue := [] })
  else ([], none)

/-- `completeRequestToClientResultQueue` (lines 59-87).  If the container is
awaiting cleanup the reply is run through the cleanup handler instead of
being pushed; the reply leaving flight decrements the expected-result count
(Modelled from the spec: section 4.4, "if `expected_result_count` hits
zero, free the container node").  Otherwise the reply is pushed. -/
def completeRequestToClientResultQueue (c : Container) (item : CleanupItem) :
    Option CleanupAction × Option Container :=
  if c.kind = ContainerKind.awaitingCleanup then
    let e' := c.expected - 1
    if e' = 0 then (some (cleanupOneRequestResult item), none)
    else (some (cleanupOneRequestResult item), some { c with expected := e' })
  else
    (none, some { c with queue := c.queue ++ [item] })

/-! ### The stream system state

A whole-system state for one read stream: the client-side stream structure
(FileIoStreamWrapper), the in-flight requests and the result queue.  Block
request nodes are named by ids from the `nextId` counter; `nodes` maps an
id to the node's current contents (newest binding first).  The request pool
(`QwNodePool`, fixed capacity) is the `freeNodes` counter.

The `instant` flag selects the schedule used to compose client and server:
when true, the server handles each sent `READ_BLOCK` (and each release)
immediately; when false, sent requests queue in `inFlight` until an
explicit `serverStepBlock`.  `sentLog`, `released` and `freed` record the
send/release/free events for the theorems. -/

inductive StreamState
  | opening
  | openIdle
  | openBuffering
  | openStreaming
  | openEof
  | error
deriving DecidableEq

/-- A reply in the stream's SPSC result queue: the `OPEN_FILE` reply or a
`READ_BLOCK` reply (named by node id).  Modelled from the spec (section
4.3): the queue holds completed requests; `pop` decrements the
expected-result count. -/
inductive RQItem
  | openReply (resultStatus : Nat)
  | blockReply (id : Nat)
deriving DecidableEq

/-- The client-visible stream fields (aliases of root-node fields,
FileIoReadStream.cpp lines 174-181): state, last error status, the
waiting-for-blocks count and the prefetch FIFO (list of node ids, head
first; the tail pointer is the last element). -/
structure StreamSt where
  state : StreamState
  error : Nat
  waiting : Nat
  prefetch : List Nat
deriving DecidableEq

structure Sys where
  blockBytes : Nat
  file : List Nat
  instant : Bool
  freeNodes : Nat
  nextId : Nat
  nodes : List (Nat × FileIoRequest)
  stream : StreamSt
  openInFlight : Bool
  inFlight : List Nat
  resultQ : List RQItem
  expected : Nat
  sentLog : List (Nat × Nat × Nat)
  released : List Nat
  freed : List Nat
deriving DecidableEq

/-- Association-list lookup for the node map (newest binding wins). -/
def assocFind (i : Nat) : List (Nat × FileIoRequest) → Option FileIoRequest
  | [] => none
  | (j, r) :: rest => if j = i then some r else assocFind i rest

def getNode (s : Sys) (i : Nat) : Option FileIoRequest := assocFind i s.nodes

def setNode (s : Sys) (i : Nat) (r : FileIoRequest) : Sys :=
  { s with nodes := (i, r) :: s.nodes }

def setStreamState (s : Sys) (st : StreamState) : Sys :=
  { s with stream := { s.stream with state := st } }

/-- `allocFileIoRequest` (FileIoServer.cpp lines 44-47): pool exhaustion
returns null; otherwise a fresh node (named with a fresh id). -/
def allocReq (s : Sys) : Option (Nat × Sys) :=
  if s.freeNodes = 0 then none
  else some (s.nextId, { s with freeNodes := s.freeNodes - 1, nextId := s.nextId + 1 })

/-- `freeFileIoRequest` (lines 49-52): the node returns to the pool. -/
def freeReq (s : Sys) (i : Nat) : Sys :=
  { s with freeNodes := s.freeNodes + 1, freed := s.freed ++ [i] }

/-- `transformToReleaseUnmodified` followed by `sendFileIoRequestToServer`:
the node becomes a `RELEASE_READ_BLOCK` and leaves the client.  Under the
`instant` schedule the server handles the release at once
(`handleReleaseReadBlockRequest` frees the node back to the pool). -/
def releaseNode (s : Sys) (i : Nat) : Sys :=
  let s1 := { s with released := s.released ++ [i] }
  if s1.instant then { s1 with freeNodes := s1.freeNodes + 1 } else s1

/-- The server's handling of one `READ_BLOCK` request node `i`
(`handleReadBlockRequest` against the in-memory file): the reply is written
into the node and the node is pushed onto the stream's result queue. -/
def serveBlock (s : Sys) (i : Nat) : Sys :=
  match getNode s i with
  | none => s
  | some r =>
    let reply := (handleReadBlockRequest s.blockBytes (pureOutcome s.file s.blockBytes r.filePosition) r).1
    let s1 := setNode s i reply
    { s1 with resultQ := s1.resultQ ++ [RQItem.blockReply i] }

/-- `FileIoStreamWrapper::sendBlockRequestToServer` (lines 205-210): send
the request, increment the expected result count, increment
`waitingForBlocksCount_`. -/
def sendBlockRequestToServer (s : Sys) (i : Nat) : Sys :=
  let r := (getNode s i).getD (initAcquire 0)
  let s1 := { s with sentLog := s.sentLog ++ [(i, r.filePosition, r.bytesCopied)] }
  let s2 := if s1.instant then serveBlock s1 i else { s1 with inFlight := s1.inFlight ++ [i] }
  { s2 with expected := s2.expected + 1,
            stream := { s2.stream with waiting := s2.stream.waiting + 1 } }

/-- `initLinkAndSendSequentialBlockRequest` (lines 213-228): init a request
whose file position directly follows the prefetch-queue tail, link it onto
the back of the queue, send it. -/
def initLinkAndSendSequentialBlockRequest (s : Sys) (i : Nat) : Sys :=
  let tailPos :=
    match s.stream.prefetch.getLast? with
    | some t => ((getNode s t).getD (initAcquire 0)).filePosition
    | none => 0
  let s1 := setNode s i (initAcquire (tailPos + s.blockBytes))
  let s2 := { s1 with stream := { s1.stream with prefetch := s1.stream.prefetch ++ [i] } }
  sendBlockRequestToServer s2 i

/-- `flushBlock` (lines 230-262): pending blocks are marked discarded and
stop counting against `waitingForBlocksCount_`; ready blocks are released
back to the server; error blocks are freed.  (`BLOCK_STATE_MODIFIED` never
occurs for read streams.) -/
def flushBlock (s : Sys) (i : Nat) : Sys :=
  match getNode s i with
  | none => s
  | some r =>
    match r.state with
    | BlockState.pending =>
      let s1 := setNode s i { r with bytesCopied := DISCARDED }
      { s1 with stream := { s1.stream with waiting := sub64 s1.stream.waiting 1 } }
    | BlockState.ready => releaseNode s i
    | BlockState.error => freeReq s i

/-- The `while (prefetchQueueHead_())` loop of `flushPrefetchQueue`
(lines 264-276): pop the head, flush it. -/
def flushLoop : Nat → Sys → Sys
  | 0, s => s
  | n + 1, s =>
    match s.stream.prefetch with
    | [] => s
    | i :: rest =>
      flushLoop n (flushBlock { s with stream := { s.stream with prefetch := rest } } i)

/-- `flushPrefetchQueue` (lines 264-276). -/
def flushPrefetchQueue (s : Sys) : Sys :=
  flushLoop s.stream.prefetch.length s

/-- `roundDownToBlockSizeAlignedPosition` (lines 278-282). -/
def roundDownToBlockSizeAlignedPosition (blockBytes pos : Nat) : Nat :=
  (pos / blockBytes) * blockBytes

/-- `receiveOneBlock` (lines 286-321).  Pops one reply (a pop decrements
the expected-result count, spec section 4.3).  A discarded reply is
released on success or freed on failure, without touching
`waitingForBlocksCount_` or the stream state.  Otherwise the count is
decremented (`size_t` arithmetic), the state becomes `OPEN_STREAMING`
exactly when it reaches zero, and the node is marked ready or error. -/
def receiveOneBlock (s : Sys) : Bool × Sys :=
  match s.resultQ with
  | [] => (false, s)
  | item :: rest =>
    let s1 := { s with resultQ := rest, expected := s.expected - 1 }
    match item with
    | RQItem.openReply _ => (true, s1)
    | RQItem.blockReply i =>
      match getNode s1 i with
      | none => (true, s1)
      | some r =>
        if isDiscarded r then
          if r.resultStatus = NOERROR then (true, releaseNode s1 i)
          else (true, freeReq s1 i)
        else
          let w := sub64 s1.stream.waiting 1
          let s2 := { s1 with stream := { s1.stream with
              waiting := w,
              state := if w = 0 then StreamState.openStreaming else s1.stream.state } }
          if r.resultStatus = NOERROR then (true, setNode s2 i { r with state := BlockState.ready })
          else (true, setNode s2 i { r with state := BlockState.error })

/-- The condition asserted on the discarded-failure path of
`receiveOneBlock` (line 298): `assert( BlockReq::hasDataBlock(r) )`. -/
def discardedErrorAssert (r : FileIoRequest) : Prop := hasDataBlock r = true

/-- `pollState` (lines 605-639).  With results expected: in `OPENING` pop
the open-file reply and transition to `OPEN_IDLE` or to `ERROR` (recording
the status in the stream's error slot); otherwise `receiveOneBlock`. -/
def pollState (s : Sys) : StreamState × Sys :=
  if 0 < s.expected then
    if s.stream.state = StreamState.opening then
      match s.resultQ with
      | [] => (s.stream.state, s)
      | item :: rest =>
        let s1 := { s with resultQ := rest, expected := s.expected - 1 }
        match item with
        | RQItem.openReply stat =>
          if stat = NOERROR then
            (StreamState.openIdle, setStreamState s1 StreamState.openIdle)
          else
            (StreamState.error,
             { s1 with stream := { s1.stream with
                 state := StreamState.error,
                 error := stat } })
        | RQItem.blockReply _ => (s1.stream.state, s1)
    else
      let s1 := (receiveOneBlock s).2
      (s1.stream.state, s1)
  else (s.stream.state, s)

/-- `FileIoStreamWrapper::getError` (lines 641-644). -/
def getError (s : Sys) : Nat := s.stream.error

/-- `seek`'s hard-coded prefetch queue length (line 437). -/
def prefetchQueueBlockCount : Nat := 20

/-- The `for (int i=1; i < prefetchQueueBlockCount; ++i)` loop of `seek`
(lines 463-472), followed by the success epilogue (lines 474-476). -/
def seekLoop : Nat → Sys → Int × Sys
  | 0, s => (0, setStreamState s StreamState.openBuffering)
  | k + 1, s =>
    match allocReq s with
    | none => (-1, setStreamState s StreamState.error)
    | some (i, s1) => seekLoop k (initLinkAndSendSequentialBlockRequest s1 i)

/-- `seek` (lines 420-477). -/
def seek (s : Sys) (pos : Nat) : Int × Sys :=
  if s.stream.state = StreamState.opening ∨ s.stream.state = StreamState.error then (-1, s)
  else
    let s1 := flushPrefetchQueue s
    let blockFilePositionBytes := roundDownToBlockSizeAlignedPosition s1.blockBytes pos
    match allocReq s1 with
    | none => (-1, setStreamState s1 StreamState.error)
    | some (i, s2) =>
      let s3 := setNode s2 i
        { initAcquire blockFilePositionBytes with bytesCopied := pos - blockFilePositionBytes }
      let s4 := { s3 with stream := { s3.stream with prefetch := [i] } }
      let s5 := sendBlockRequestToServer s4 i
      seekLoop (prefetchQueueBlockCount - 1) s5

/-- The `while (receiveOneBlock())` drain of the `OPEN_BUFFERING` branch of
`read_or_write` (lines 504-505), fuelled by the result-queue length (each
successful receive pops exactly one reply). -/
def drainResultQueue : Nat → Sys → Sys
  | 0, s => s
  | n + 1, s =>
    match receiveOneBlock s with
    | (false, s1) => s1
    | (true, s1) => drainResultQueue n s1

/-- The `while (state_(front) == PENDING) if (!receiveOneBlock()) break;`
drain of lines 534-537, fuelled by the result-queue length. -/
def drainWhileHeadPending (frontId : Nat) : Nat → Sys → Sys
  | 0, s => s
  | n + 1, s =>
    match getNode s frontId with
    | none => s
    | some r =>
      if r.state = BlockState.pending then
        match receiveOneBlock s with
        | (false, s1) => s1
        | (true, s1) => drainWhileHeadPending frontId n s1
      else s

/-- `prefetchQueue_pop_front` (lines 191-196). -/
def popFront (s : Sys) : Sys :=
  { s with stream := { s.stream with prefetch := s.stream.prefetch.tail } }

/-- The `while (bytesCopiedSoFar < totalBytesToCopy)` streaming loop of
`read_or_write` (lines 521-595), carried by fuel (each iteration consumes
one unit; the fuel supplied by `read_or_write` is enough that exhaustion is
unreachable in the runs analysed below).  Early returns yield
`bytesCopiedSoFar / itemSize`; the loop-condition exit yields `itemCount`
(line 597).  The copied bytes are also returned. -/
def readLoop (itemSize itemCount : Nat) : Nat → Nat → List Nat → Sys → Nat × List Nat × Sys
  | 0, bytesCopiedSoFar, acc, s => (bytesCopiedSoFar / itemSize, acc, s)
  | fuel + 1, bytesCopiedSoFar, acc, s =>
    if bytesCopiedSoFar < itemSize * itemCount then
      match s.stream.prefetch with
      | [] => (bytesCopiedSoFar / itemSize, acc, s)
      | frontId :: _ =>
        let s1 := drainWhileHeadPending frontId s.resultQ.length s
        match getNode s1 frontId with
        | none => (bytesCopiedSoFar / itemSize, acc, s1)
        | some front =>
          if front.state = BlockState.ready then
            match copyBlockData front (itemSize * itemCount - bytesCopiedSoFar) with
            | (out, front', copyStatus) =>
              let s2 := setNode s1 frontId front'
              let soFar2 := bytesCopiedSoFar + out.length
              let acc2 := acc ++ out
              match copyStatus with
              | CopyStatus.atBlockEnd =>
                match allocReq s2 with
                | none => (soFar2 / itemSize, acc2, setStreamState s2 StreamState.error)
                | some (i, s3) =>
                  let s4 := initLinkAndSendSequentialBlockRequest s3 i
                  let s5 := popFront s4
                  let s6 := flushBlock s5 frontId
                  let s7 := (receiveOneBlock s6).2
                  readLoop itemSize itemCount fuel soFar2 acc2 s7
              | CopyStatus.atFinalBlockEnd =>
                (soFar2 / itemSize, acc2, setStreamState s2 StreamState.openEof)
              | CopyStatus.canContinue =>
                readLoop itemSize itemCount fuel soFar2 acc2 s2
          else if front.state = BlockState.error then
            (bytesCopiedSoFar / itemSize, acc, setStreamState s1 StreamState.error)
          else
            (bytesCopiedSoFar / itemSize, acc, setStreamState s1 StreamState.openBuffering)
    else (itemCount, acc, s)

/-- Fuel supplied to the streaming loop: every iteration either copies at
least one byte, pops one reply from the result queue, or returns. -/
def readFuel (s : Sys) (total : Nat) : Nat :=
  total + 2 * s.resultQ.length + s.stream.prefetch.length + 2

/-- `read_or_write` (lines 481-603): poll once, then dispatch on the
stream state; in `OPEN_BUFFERING` drain the result queue and fall through
to the streaming loop when the state reached `OPEN_STREAMING`. -/
def read_or_write (s0 : Sys) (itemSize itemCount : Nat) : Nat × List Nat × Sys :=
  let s := (pollState s0).2
  match s.stream.state with
  | StreamState.opening => (0, [], s)
  | StreamState.openIdle => (0, [], s)
  | StreamState.openEof => (0, [], s)
  | StreamState.error => (0, [], s)
  | StreamState.openBuffering =>
    let s1 := drainResultQueue s.resultQ.length s
    if s1.stream.state = StreamState.openStreaming then
      readLoop itemSize itemCount (readFuel s1 (itemSize * itemCount)) 0 [] s1
    else (0, [], s1)
  | StreamState.openStreaming =>
    readLoop itemSize itemCount (readFuel s (itemSize * itemCount)) 0 [] s

/-! ### System construction and server steps -/

/-- The system right after a successful `FileIoReadStream_open`
(lines 327-368): two nodes taken from the pool (the root and the
`OPEN_FILE` node), state `OPENING`, error 0, empty prefetch queue, the
`OPEN_FILE` request in flight, expected-result count 1. -/
def mkSys (blockBytes : Nat) (file : List Nat) (capacity : Nat) (instant : Bool) : Sys :=
  { blockBytes := blockBytes, file := file, instant := instant,
    freeNodes := capacity - 2, nextId := 0, nodes := [],
    stream := { state := StreamState.opening, error := 0, waiting := 0, prefetch := [] },
    openInFlight := true, inFlight := [], resultQ := [], expected := 1,
    sentLog := [], released := [], freed := [] }

/-- The server handles the `OPEN_FILE` request with result status `stat`
(`handleOpenFileRequest`, FileIoServer.cpp lines 115-141) and pushes the
reply. -/
def serverStepOpen (stat : Nat) (s : Sys) : Sys :=
  if s.openInFlight then
    { s with openInFlight := false, resultQ := s.resultQ ++ [RQItem.openReply stat] }
  else s

/-- The server handles the oldest in-flight `READ_BLOCK` request (the
mailbox is FIFO for a single producer). -/
def serverStepBlock (s : Sys) : Sys :=
  match s.inFlight with
  | [] => s
  | i :: rest => serveBlock { s with inFlight := rest } i

def serverStepN : Nat → Sys → Sys
  | 0, s => s
  | n + 1, s => serverStepN n (serverStepBlock s)

/-- Open, let the server answer, poll to `OPEN_IDLE`. -/
def openedIdle (blockBytes : Nat) (file : List Nat) (capacity : Nat) (instant : Bool) : Sys :=
  (pollState (serverStepOpen NOERROR (mkSys blockBytes file capacity instant))).2

/-- Open, poll to idle, seek to `pos`, under the instant-server schedule. -/
def startStream (blockBytes : Nat) (file : List Nat) (capacity pos : Nat) : Sys :=
  (seek (openedIdle blockBytes file capacity true) pos).2

/-- Run a sequence of byte-reads (`itemSize = 1`), collecting the bytes
delivered by each call. -/
def runReads (s : Sys) : List Nat → List (List Nat) × Sys
  | [] => ([], s)
  | n :: rest =>
    let (_, out, s1) := read_or_write s 1 n
    let (outs, s2) := runReads s1 rest
    (out :: outs, s2)

/-! ### Derived notions used by the theorems -/

/-- File position of the node named `i` (0 if the id is unbound). -/
def posOf (s : Sys) (i : Nat) : Nat := ((getNode s i).getD (initAcquire 0)).filePosition

/-- Adjacent prefetch-FIFO entries advance by exactly one block
(spec section 8, property 4). -/
def consecutivePrefetch (s : Sys) : Prop :=
  List.Chain' (fun i j => posOf s j = posOf s i + s.blockBytes) s.stream.prefetch

/-- Every prefetch-FIFO id was produced by the id counter. -/
def prefetchIdsBound (s : Sys) : Prop :=
  ∀ i ∈ s.stream.prefetch, i < s.nextId

/-- File position behind the prefetch-queue tail pointer (0 when the queue
is empty, matching the `match` in `initLinkAndSendSequentialBlockRequest`). -/
def tailPos (s : Sys) : Nat :=
  match s.stream.prefetch.getLast? with
  | some t => posOf s t
  | none => 0

/-- Number of prefetch-FIFO entries whose node is pending. -/
def pendingCount (s : Sys) : Nat :=
  (s.stream.prefetch.filter fun i =>
    match getNode s i with
    | some r => r.state = BlockState.pending
    | none => false).length

/-- Block-reply ids in a result queue. -/
def blockIds (q : List RQItem) : List Nat :=
  q.filterMap fun item =>
    match item with
    | RQItem.blockReply i => some i
    | RQItem.openReply _ => none

/-- No open-file reply sits in the queue. -/
def noOpenReplies (q : List RQItem) : Prop :=
  ∀ item ∈ q, ∀ stat : Nat, item ≠ RQItem.openReply stat

/-- `READ_BLOCK` ids still travelling: replies queued for the client plus
requests still in the server's mailbox. -/
def outstanding (s : Sys) : List Nat := blockIds s.resultQ ++ s.inFlight

/-- Every outstanding `READ_BLOCK` id names a node still in the pending
acquire state (its reply fields may already be filled in). -/
def queuedPending (s : Sys) : Prop :=
  ∀ i ∈ outstanding s, (getNode s i).map FileIoRequest.state = some BlockState.pending

/-- A node the stream is still waiting for: pending and not discarded. -/
def pendingLive (o : Option FileIoRequest) : Bool :=
  o.elim false fun r => r.state == BlockState.pending && !(isDiscarded r)

/-- Every live pending node is linked in the list `l` (instantiated with the
prefetch FIFO, or with `[]` right after a flush). -/
def pendingInList (s : Sys) (l : List Nat) : Prop :=
  ∀ i ∈ s.nodes.map Prod.fst, pendingLive (getNode s i) = true → i ∈ l

/-- The system invariant of the corrected claim C4: the prefetch FIFO is
empty in `OPENING`/`OPEN_IDLE` (where moreover no `READ_BLOCK` request or
reply is travelling at all), non-empty in `OPEN_BUFFERING`,
`OPEN_STREAMING` *and* `OPEN_EOF`, and unconstrained in `ERROR`.  The
bookkeeping conjuncts (outstanding ids name pending nodes, live pending
nodes sit in the FIFO, outstanding and FIFO ids are duplicate-free and
below the id counter) make the shape clauses inductive. -/
def fifoInv (s : Sys) : Prop :=
  ((s.stream.state = StreamState.opening ∨ s.stream.state = StreamState.openIdle) →
    s.stream.prefetch = [] ∧ blockIds s.resultQ = [] ∧ s.inFlight = []) ∧
  ((s.stream.state = StreamState.openBuffering ∨
      s.stream.state = StreamState.openStreaming ∨
      s.stream.state = StreamState.openEof) → s.stream.prefetch ≠ []) ∧
  queuedPending s ∧
  pendingInList s s.stream.prefetch ∧
  (outstanding s).Nodup ∧
  (∀ i ∈ outstanding s, i < s.nextId) ∧
  prefetchIdsBound s

/-- The bookkeeping part of `fifoInv`, relative to an explicit linked list
`l` and id bound `bound`: used while `seek` rebuilds the FIFO (when the
shape clauses of `fifoInv` are temporarily broken). -/
def invPack (s : Sys) (l : List Nat) (bound : Nat) : Prop :=
  queuedPending s ∧ pendingInList s l ∧ (outstanding s).Nodup ∧
  (∀ j ∈ outstanding s, j < bound)

/-! ### Concrete execution traces -/

/-- A concrete five-byte file used in the execution traces below. -/
def traceFile : List Nat := [1, 2, 3, 4, 5]

/-- A small concrete system with one non-discarded block reply queued,
used to witness the `receiveOneBlock` theorem. -/
def c5Sys : Sys :=
  { mkSys 4 traceFile 10 false with
      resultQ := [RQItem.blockReply 0],
      expected := 2,
      nodes := [(0, initAcquire 8)],
      stream := { state := StreamState.openBuffering, error := 0, waiting := 2, prefetch := [0] } }

/-- A reachable state whose stream state is `OPEN_EOF` while one
non-discarded block reply is still pending: open a five-byte file
(block size 4), poll to idle, seek to 0, let the server answer all twenty
prefetch requests, read one byte, then read four bytes — the second read
crosses a block boundary (sending one refill request) and then reaches the
final block's end, entering `OPEN_EOF` with the refill still in flight —
and finally let the server answer the refill. -/
def eofPendingState : Sys :=
  serverStepBlock
    (read_or_write
      (read_or_write (serverStepN 20 (seek (openedIdle 4 traceFile 30 false) 0).2) 1 1).2.2
      1 4).2.2

/-- A reachable state demonstrating seek failing on request-pool
exhaustion *after* sending its first block request: the pool has capacity
3, `open` takes two nodes, `seek` allocates and sends the first block
request and then fails to allocate the second. -/
def seekExhaustedState : Sys := (seek (openedIdle 4 traceFile 3 false) 0).2

/-- A concrete six-byte file used for the beyond-end-of-file seek trace. -/
def traceFile6 : List Nat := [10, 20, 30, 40, 50, 60]

/-- An `OPEN_EOF` stream with no reply pending in the result queue
(expected-result count zero): the quiescent situation in which `OPEN_EOF`
really is absorbing. -/
def eofQuiescentState : Sys :=
  { mkSys 4 traceFile 10 false with
      expected := 0, openInFlight := false,
      stream := { state := StreamState.openEof, error := 0, waiting := 0, prefetch := [0] } }

/-- The discarded request node of the C10 trace: a pending `READ_BLOCK`
request that was flushed from the prefetch queue (discarded sentinel set). -/
def discardedRequest : FileIoRequest := { initAcquire 0 with bytesCopied := DISCARDED }

/-- The server's reply to `discardedRequest` when the read fails (short
read without the end-of-file indicator): the error path of
`handleReadBlockRequest`. -/
def discardedErrorReply : FileIoRequest :=
  (handleReadBlockRequest 4
    { fileRecordPresent := true, allocOk := true, seekOk := true,
      readBytes := [9], atEofFlag := false, errnoVal := NOERROR }
    discardedRequest).1


/-! ### The streaming-delivery configuration (claim C1) -/

/-- Number of valid bytes the server's `fread` returns for the block at
file position `p` (the length of `pureOutcome`'s `readBytes`). -/
def mkValid (file : List Nat) (B p : Nat) : Nat := ((file.drop p).take B).length

/-- The data block `handleReadBlockRequest` builds for the block at
position `p`: the file's bytes from `p` (at most `B` of them) padded with
zeros up to the block capacity. -/
def mkBlock (file : List Nat) (B p : Nat) : DataBlock :=
  { validCountBytes := mkValid file B p,
    data := (file.drop p).take B ++ List.replicate (B - mkValid file B p) 0 }

/-- A prefetch-queue node after its reply has been received and marked:
ready, served from position `p`, bytes-copied cursor at `c`, the
end-of-file flag set exactly when the block is partial. -/
def readyNode (file : List Nat) (B p c : Nat) : FileIoRequest :=
  { state := BlockState.ready, resultStatus := NOERROR, bytesCopied := c,
    filePosition := p, dataBlock := some (mkBlock file B p),
    isAtEof := if mkValid file B p = B then false else true }

/-- The quiescent streaming configuration reached under the instant-server
schedule: the prefetch FIFO is `l` (non-empty, duplicate-free, ids below
the counter), its nodes are ready with consecutive block positions
starting at `p`, the head's bytes-copied cursor is `c` and stays within
the head block's valid bytes, and no request or reply is travelling. -/
def streamReady (s : Sys) (file : List Nat) (B : Nat) (l : List Nat) (p c : Nat) : Prop :=
  s.stream.prefetch = l ∧ l ≠ [] ∧ l.Nodup ∧ prefetchIdsBound s ∧
  c < B ∧ c ≤ mkValid file B p ∧
  (∀ k, k < l.length →
    getNode s (l.getD k 0) = some (readyNode file B (p + k * B) (if k = 0 then c else 0))) ∧
  s.resultQ = [] ∧ s.expected = 0 ∧ s.inFlight = [] ∧ s.instant = true ∧
  s.blockBytes = B ∧ s.file = file ∧
  s.stream.state = StreamState.openStreaming ∧ 1 ≤ s.freeNodes


/-! ## Theorems -/

/-! ### Claim C6: the server's READ_BLOCK handler -/

/-- The refcount increment of `handleReadBlockRequest` is applied exactly
when the reply carries a data block (FileIoServer.cpp lines 211-212). -/
theorem handleReadBlockRequest_refDelta (cap : Nat) (oc : ReadOutcome) (r : FileIoRequest) :
    (handleReadBlockRequest cap oc r).2.1 =
      if (handleReadBlockRequest cap oc r).1.dataBlock.isSome then 1 else 0 := by
  simp only [handleReadBlockRequest]
  repeat' split
  all_goals rfl

/-- Claim C6: for every `READ_BLOCK` request the server handles (with a
valid file record and a successful block allocation and seek): a read that
fills the whole block replies success with `at_eof = false`; a short read
with the end-of-file indicator replies success with `at_eof = true` and
returns the partial block; a short read without end-of-file replies with a
nonzero status, returns no block and frees the allocated block; and the
dependent-client refcount is incremented exactly when a data block is
returned. -/
theorem c6_read_block_spec (cap : Nat) (oc : ReadOutcome) (r : FileIoRequest)
    (hfr : oc.fileRecordPresent = true) (halloc : oc.allocOk = true)
    (hseek : oc.seekOk = true) :
    (oc.readBytes.length = cap →
      (handleReadBlockRequest cap oc r).1.resultStatus = NOERROR ∧
      (handleReadBlockRequest cap oc r).1.isAtEof = false ∧
      (handleReadBlockRequest cap oc r).1.dataBlock =
        some { validCountBytes := oc.readBytes.length,
               data := oc.readBytes ++ List.replicate (cap - oc.readBytes.length) 0 }) ∧
    (oc.readBytes.length ≠ cap → oc.atEofFlag = true →
      (handleReadBlockRequest cap oc r).1.resultStatus = NOERROR ∧
      (handleReadBlockRequest cap oc r).1.isAtEof = true ∧
      (handleReadBlockRequest cap oc r).1.dataBlock =
        some { validCountBytes := oc.readBytes.length,
               data := oc.readBytes ++ List.replicate (cap - oc.readBytes.length) 0 }) ∧
    (oc.readBytes.length ≠ cap → oc.atEofFlag = false →
      (handleReadBlockRequest cap oc r).1.resultStatus ≠ NOERROR ∧
      (handleReadBlockRequest cap oc r).1.dataBlock = none ∧
      (handleReadBlockRequest cap oc r).2.2 = true) ∧
    ((handleReadBlockRequest cap oc r).2.1 =
      if (handleReadBlockRequest cap oc r).1.dataBlock.isSome then 1 else 0) := by
  refine ⟨fun hlen => ?_, fun hlen heof => ?_, fun hlen heof => ?_,
    handleReadBlockRequest_refDelta cap oc r⟩
  · simp [handleReadBlockRequest, hfr, halloc, hseek, hlen]
  · simp [handleReadBlockRequest, hfr, halloc, hseek, hlen, heof]
  · refine ⟨?_, ?_, ?_⟩
    · simp only [handleReadBlockRequest, hfr, halloc, hseek, heof, eq_self_iff_true, if_true,
        Bool.false_eq_true, if_false, if_neg hlen]
      unfold errnoOr NOERROR EIOcode
      split
      · omega
      · rename_i h
        exact fun hc => h hc
    · simp [handleReadBlockRequest, hfr, halloc, hseek, hlen, heof]
    · simp [handleReadBlockRequest, hfr, halloc, hseek, hlen, heof]

/-- Claim C6 witness: a concrete full-block read. -/
theorem c6_read_block_spec_witness :
    (([7, 8] : List Nat).length = 2 →
      (handleReadBlockRequest 2 ⟨true, true, true, [7, 8], true, 0⟩ (initAcquire 0)).1.resultStatus = NOERROR ∧
      (handleReadBlockRequest 2 ⟨true, true, true, [7, 8], true, 0⟩ (initAcquire 0)).1.isAtEof = false ∧
      (handleReadBlockRequest 2 ⟨true, true, true, [7, 8], true, 0⟩ (initAcquire 0)).1.dataBlock =
        some { validCountBytes := ([7, 8] : List Nat).length,
               data := [7, 8] ++ List.replicate (2 - ([7, 8] : List Nat).length) 0 }) ∧
    ((handleReadBlockRequest 2 ⟨true, true, true, [7, 8], true, 0⟩ (initAcquire 0)).2.1 =
      if (handleReadBlockRequest 2 ⟨true, true, true, [7, 8], true, 0⟩ (initAcquire 0)).1.dataBlock.isSome
      then 1 else 0) := by
  have h := c6_read_block_spec 2 ⟨true, true, true, [7, 8], true, 0⟩ (initAcquire 0) rfl rfl rfl
  exact ⟨h.1, h.2.2.2⟩

/-! ### Claim C7: the cleanup protocol -/

/-- The result-queue drain of the cleanup handler maps each queued result
through the per-kind cleanup and decrements the expected count per pop. -/
theorem drainCleanup_spec (l : List CleanupItem) (e : Nat) :
    drainCleanup l e = (l.map cleanupOneRequestResult, e - l.length) := by
  induction l generalizing e with
  | nil => simp [drainCleanup]
  | cons item rest ih =>
    simp only [drainCleanup, ih, List.map_cons, List.length_cons]
    refine Prod.ext rfl ?_
    simp only
    omega

/-- Closed form of `handleCleanupResultQueueRequest`. -/
theorem handleCleanupResultQueueRequest_eq (c : Container) :
    handleCleanupResultQueueRequest c =
      if 0 < c.expected then
        if c.expected - c.queue.length = 0 then (c.queue.map cleanupOneRequestResult, none)
        else (c.queue.map cleanupOneRequestResult,
              some { kind := ContainerKind.awaitingCleanup,
                     expected := c.expected - c.queue.length, queue := [] })
      else ([], none) := by
  unfold handleCleanupResultQueueRequest
  rw [drainCleanup_spec]

/-- Closed form of `completeRequestToClientResultQueue` on an
awaiting-cleanup container. -/
theorem completeRequest_awaiting_eq (c2 : Container) (item : CleanupItem)
    (hk : c2.kind = ContainerKind.awaitingCleanup) :
    completeRequestToClientResultQueue c2 item =
      if c2.expected - 1 = 0 then (some (cleanupOneRequestResult item), none)
      else (some (cleanupOneRequestResult item), some { c2 with expected := c2.expected - 1 }) := by
  unfold completeRequestToClientResultQueue
  rw [if_pos hk]

/-- Claim C7: the cleanup protocol frees the stream's root node exactly
when its expected-result count reaches zero.  `CLEANUP_RESULT_QUEUE`
drains every queued result through the per-kind cleanup (a successful
`OPEN_FILE` becomes a `CLOSE_FILE`, a `READ_BLOCK` that returned a block
becomes a `RELEASE_READ_BLOCK`, otherwise the node is freed), then frees
the container when `expected_result_count` is zero and otherwise re-tags it
awaiting-cleanup; a later reply destined for a container so tagged is run
through the cleanup handler instead of being pushed, freeing the container
once the count hits zero. -/
theorem c7_cleanup_spec (c : Container) (item : CleanupItem)
    (hlen : c.queue.length ≤ c.expected) :
    (cleanupOneRequestResult (CleanupItem.openFileResult true) = CleanupAction.becameCloseFile ∧
     cleanupOneRequestResult (CleanupItem.openFileResult false) = CleanupAction.freedDirectly ∧
     cleanupOneRequestResult (CleanupItem.readBlockResult true) = CleanupAction.becameReleaseReadBlock ∧
     cleanupOneRequestResult (CleanupItem.readBlockResult false) = CleanupAction.freedDirectly) ∧
    ((handleCleanupResultQueueRequest c).1 = c.queue.map cleanupOneRequestResult) ∧
    ((handleCleanupResultQueueRequest c).2 = none ↔ c.expected = c.queue.length) ∧
    (c.expected ≠ c.queue.length →
      (handleCleanupResultQueueRequest c).2 =
        some { kind := ContainerKind.awaitingCleanup,
               expected := c.expected - c.queue.length, queue := [] }) ∧
    (∀ c2 : Container, c2.kind = ContainerKind.awaitingCleanup →
      (completeRequestToClientResultQueue c2 item).1 = some (cleanupOneRequestResult item) ∧
      ((completeRequestToClientResultQueue c2 item).2 = none ↔ c2.expected - 1 = 0) ∧
      (1 < c2.expected →
        (completeRequestToClientResultQueue c2 item).2 = some { c2 with expected := c2.expected - 1 })) ∧
    (∀ c2 : Container, c2.kind ≠ ContainerKind.awaitingCleanup →
      completeRequestToClientResultQueue c2 item = (none, some { c2 with queue := c2.queue ++ [item] })) := by
  refine ⟨⟨rfl, rfl, rfl, rfl⟩, ?_, ?_, ?_, ?_, ?_⟩
  · rw [handleCleanupResultQueueRequest_eq]
    split
    · split <;> rfl
    · rename_i h
      have : c.queue.length = 0 := by omega
      rw [List.length_eq_zero.mp this]
      rfl
  · rw [handleCleanupResultQueueRequest_eq]
    split
    · split
      · rename_i h1 h2
        constructor
        · intro _
          omega
        · intro _
          rfl
      · rename_i h1 h2
        constructor
        · intro hx
          exact absurd hx (by simp)
        · intro hx
          omega
    · rename_i h1
      constructor
      · intro _
        omega
      · intro _
        rfl
  · intro hne
    rw [handleCleanupResultQueueRequest_eq]
    split
    · split
      · omega
      · rfl
    · omega
  · intro c2 hk
    rw [completeRequest_awaiting_eq c2 item hk]
    refine ⟨?_, ?_, ?_⟩
    · split <;> rfl
    · split
      · rename_i h
        simp [h]
      · rename_i h
        simp [h]
    · intro h1
      rw [if_neg (by omega)]
  · intro c2 hk
    unfold completeRequestToClientResultQueue
    rw [if_neg hk]

/-- Claim C7 witness: a concrete container with two queued results and
expected count three, then one late reply to the awaiting-cleanup
container. -/
theorem c7_cleanup_spec_witness :
    (({ kind := ContainerKind.cleanupResultQueue, expected := 3,
        queue := [CleanupItem.openFileResult true, CleanupItem.readBlockResult true] } : Container).queue.length ≤ 3) ∧
    ((handleCleanupResultQueueRequest
        { kind := ContainerKind.cleanupResultQueue, expected := 3,
          queue := [CleanupItem.openFileResult true, CleanupItem.readBlockResult true] }).1 =
      [CleanupAction.becameCloseFile, CleanupAction.becameReleaseReadBlock]) ∧
    ((handleCleanupResultQueueRequest
        { kind := ContainerKind.cleanupResultQueue, expected := 3,
          queue := [CleanupItem.openFileResult true, CleanupItem.readBlockResult true] }).2 =
      some { kind := ContainerKind.awaitingCleanup, expected := 1, queue := [] }) ∧
    ((completeRequestToClientResultQueue
        { kind := ContainerKind.awaitingCleanup, expected := 1, queue := [] }
        (CleanupItem.readBlockResult false)).2 = none) := by
  have h := c7_cleanup_spec
    { kind := ContainerKind.cleanupResultQueue, expected := 3,
      queue := [CleanupItem.openFileResult true, CleanupItem.readBlockResult true] }
    (CleanupItem.readBlockResult false) (by decide)
  refine ⟨by decide, ?_, ?_, ?_⟩
  · rw [h.2.1]
    rfl
  · rw [h.2.2.2.1 (by decide)]
    rfl
  · exact ((h.2.2.2.2.1 { kind := ContainerKind.awaitingCleanup, expected := 1, queue := [] }
      rfl).2.1).mpr (by decide)

/-! ### Claim C10: the assertion on the discarded-failure path -/

/-- Claim C10 counterexample: a reachable discarded `READ_BLOCK` reply
produced by the server's error path (short read without end-of-file)
carries a nonzero status and *no* data block, so the assertion
`assert( BlockReq::hasDataBlock(r) )` executed on the discarded-failure
path of `receiveOneBlock` is violated, refuting the claim that every such
reply holds a data block. -/
theorem c10_counterexample :
    isDiscarded discardedErrorReply = true ∧
    discardedErrorReply.resultStatus ≠ NOERROR ∧
    ¬ discardedErrorAssert discardedErrorReply := by
  refine ⟨by decide, by decide, fun h => ?_⟩
  have hfalse : hasDataBlock discardedErrorReply = false := by decide
  have htrue : hasDataBlock discardedErrorReply = true := h
  rw [hfalse] at htrue
  exact Bool.false_ne_true htrue

/-- The read-block handler never touches the client-owned bytes-copied
cursor (`clientInt`), so the discarded mark survives the round trip. -/
theorem handleReadBlockRequest_bytesCopied (cap : Nat) (oc : ReadOutcome) (r : FileIoRequest) :
    (handleReadBlockRequest cap oc r).1.bytesCopied = r.bytesCopied := by
  simp only [handleReadBlockRequest]
  repeat' split
  all_goals rfl

/-- Every branch of the read-block handler either reports success or
returns a reply without a data block (the client sends requests whose
`dataBlock` field is null). -/
theorem handleReadBlockRequest_error_no_block (cap : Nat) (oc : ReadOutcome) (r : FileIoRequest)
    (hr : r.dataBlock = none) :
    (handleReadBlockRequest cap oc r).1.resultStatus = NOERROR ∨
      (handleReadBlockRequest cap oc r).1.dataBlock = none := by
  simp only [handleReadBlockRequest]
  repeat' split
  all_goals first
    | exact Or.inl rfl
    | exact Or.inr rfl
    | exact Or.inr hr

/-- Claim C10 (amended): every reply the server's `READ_BLOCK` handler
produces with a nonzero result status holds *no* data block (and the
bytes-copied cursor — hence the discarded mark — is preserved), so the
assertion on the discarded-failure path of `receiveOneBlock` asserts the
opposite of what actually holds for such replies. -/
theorem c10_discarded_error_reply_has_no_block (cap : Nat) (oc : ReadOutcome) (r : FileIoRequest)
    (hr : r.dataBlock = none)
    (hst : (handleReadBlockRequest cap oc r).1.resultStatus ≠ NOERROR) :
    hasDataBlock (handleReadBlockRequest cap oc r).1 = false ∧
    (handleReadBlockRequest cap oc r).1.bytesCopied = r.bytesCopied := by
  rcases handleReadBlockRequest_error_no_block cap oc r hr with h | h
  · exact absurd h hst
  · exact ⟨by simp [hasDataBlock, h], handleReadBlockRequest_bytesCopied cap oc r⟩

/-- Claim C10 amended-theorem witness: the concrete reply of the
counterexample trace. -/
theorem c10_discarded_error_reply_has_no_block_witness :
    hasDataBlock discardedErrorReply = false ∧
    discardedErrorReply.bytesCopied = discardedRequest.bytesCopied := by
  exact c10_discarded_error_reply_has_no_block 4
    { fileRecordPresent := true, allocOk := true, seekOk := true,
      readBytes := [9], atEofFlag := false, errnoVal := NOERROR }
    discardedRequest rfl (by decide)

/-! ### Claim C5: receiveOneBlock -/

/-- Looking a node up right after writing it. -/
theorem getNode_setNode (s : Sys) (i : Nat) (r : FileIoRequest) :
    getNode (setNode s i r) i = some r := by
  simp [getNode, setNode, assocFind]

/-- Claim C5: when `receiveOneBlock` pops a reply from the result queue:
a discarded reply is transformed into a `RELEASE_READ_BLOCK` and sent on
success, freed on failure, and in neither case is `waiting_for_blocks_count`
decremented or the stream state changed; a non-discarded reply decrements
`waiting_for_blocks_count`, transitions the stream to `OPEN_STREAMING`
exactly when the counter reaches zero, and marks the node `BLOCK_READY` on
success or `BLOCK_ERROR` on failure, never newly setting the stream state
to `ERROR` at that point. -/
theorem c5_receiveOneBlock_spec (s : Sys) (i : Nat) (rest : List RQItem) (r : FileIoRequest)
    (hq : s.resultQ = RQItem.blockReply i :: rest)
    (hr : getNode s i = some r) :
    (isDiscarded r = true →
      (receiveOneBlock s).2.stream.waiting = s.stream.waiting ∧
      (receiveOneBlock s).2.stream.state = s.stream.state ∧
      (r.resultStatus = NOERROR →
        (receiveOneBlock s).2.released = s.released ++ [i] ∧
        (receiveOneBlock s).2.freed = s.freed) ∧
      (r.resultStatus ≠ NOERROR →
        (receiveOneBlock s).2.freed = s.freed ++ [i] ∧
        (receiveOneBlock s).2.released = s.released)) ∧
    (isDiscarded r = false →
      (receiveOneBlock s).2.stream.waiting = sub64 s.stream.waiting 1 ∧
      (receiveOneBlock s).2.stream.state =
        (if sub64 s.stream.waiting 1 = 0 then StreamState.openStreaming
         else s.stream.state) ∧
      getNode (receiveOneBlock s).2 i =
        some { r with state := if r.resultStatus = NOERROR then BlockState.ready
                               else BlockState.error } ∧
      ((receiveOneBlock s).2.stream.state = StreamState.error →
        s.stream.state = StreamState.error)) := by
  have hr' : getNode { s with resultQ := rest, expected := s.expected - 1 } i = some r := hr
  constructor
  · intro hd
    simp only [receiveOneBlock, hq, hr', hd, if_true]
    refine ⟨?_, ?_, fun h0 => ?_, fun h0 => ?_⟩
    · split
      · simp [releaseNode]
        split <;> rfl
      · rfl
    · split
      · simp [releaseNode]
        split <;> rfl
      · rfl
    · rw [if_pos h0]
      simp only [releaseNode]
      constructor
      · split <;> rfl
      · split <;> rfl
    · rw [if_neg h0]
      exact ⟨rfl, rfl⟩
  · intro hd
    simp only [receiveOneBlock, hq, hr', hd, Bool.false_eq_true, if_false]
    refine ⟨?_, ?_, ?_, ?_⟩
    · split <;> rfl
    · split <;> rfl
    · by_cases h0 : r.resultStatus = NOERROR
      · rw [if_pos h0, if_pos h0]
        exact getNode_setNode _ i _
      · rw [if_neg h0, if_neg h0]
        exact getNode_setNode _ i _
    · split
      · rename_i h0
        intro hcontra
        by_cases hw : sub64 s.stream.waiting 1 = 0
        · simp only [setNode, hw, if_pos hw] at hcontra
          exact absurd hcontra (by intro hh; cases hh)
        · simpa only [setNode, if_neg hw] using hcontra
      · rename_i h0
        intro hcontra
        by_cases hw : sub64 s.stream.waiting 1 = 0
        · simp only [setNode, hw, if_pos hw] at hcontra
          exact absurd hcontra (by intro hh; cases hh)
        · simpa only [setNode, if_neg hw] using hcontra

/-- Claim C5 witness: a concrete non-discarded reply with waiting count 2
(so the stream does not yet transition to streaming). -/
theorem c5_receiveOneBlock_spec_witness :
    (receiveOneBlock c5Sys).2.stream.waiting = sub64 c5Sys.stream.waiting 1 ∧
    getNode (receiveOneBlock c5Sys).2 0 =
      some { initAcquire 8 with
               state := if (initAcquire 8).resultStatus = NOERROR then BlockState.ready
                        else BlockState.error } := by
  have h := (c5_receiveOneBlock_spec c5Sys 0 [] (initAcquire 8) rfl rfl).2 (by decide)
  exact ⟨h.1, h.2.2.1⟩

/-! ### Claim C2: seek -/

/-- `flushBlock` never touches the send log, the id counter, the block
size, the schedule flag, the stream state, the error slot or the queue
links. -/
theorem flushBlock_effect (s : Sys) (i : Nat) :
    (flushBlock s i).sentLog = s.sentLog ∧ (flushBlock s i).nextId = s.nextId ∧
    (flushBlock s i).blockBytes = s.blockBytes ∧ (flushBlock s i).instant = s.instant ∧
    (flushBlock s i).stream.state = s.stream.state ∧
    (flushBlock s i).stream.error = s.stream.error ∧
    (flushBlock s i).stream.prefetch = s.stream.prefetch := by
  simp only [flushBlock]
  split
  · exact ⟨rfl, rfl, rfl, rfl, rfl, rfl, rfl⟩
  · split
    · exact ⟨rfl, rfl, rfl, rfl, rfl, rfl, rfl⟩
    · simp only [releaseNode]
      split <;> exact ⟨rfl, rfl, rfl, rfl, rfl, rfl, rfl⟩
    · exact ⟨rfl, rfl, rfl, rfl, rfl, rfl, rfl⟩

/-- `flushPrefetchQueue` leaves the send log, the id counter, the block
size, the schedule flag, the stream state and the error slot untouched. -/
theorem flushPrefetchQueue_effect (s : Sys) :
    (flushPrefetchQueue s).sentLog = s.sentLog ∧
    (flushPrefetchQueue s).nextId = s.nextId ∧
    (flushPrefetchQueue s).blockBytes = s.blockBytes ∧
    (flushPrefetchQueue s).instant = s.instant ∧
    (flushPrefetchQueue s).stream.state = s.stream.state ∧
    (flushPrefetchQueue s).stream.error = s.stream.error := by
  suffices h : ∀ (n : Nat) (t : Sys),
      (flushLoop n t).sentLog = t.sentLog ∧ (flushLoop n t).nextId = t.nextId ∧
      (flushLoop n t).blockBytes = t.blockBytes ∧ (flushLoop n t).instant = t.instant ∧
      (flushLoop n t).stream.state = t.stream.state ∧
      (flushLoop n t).stream.error = t.stream.error by
    exact h s.stream.prefetch.length s
  intro n
  induction n with
  | zero => exact fun t => ⟨rfl, rfl, rfl, rfl, rfl, rfl⟩
  | succ m ih =>
    intro t
    simp only [flushLoop]
    match hpf : t.stream.prefetch with
    | [] => exact ⟨rfl, rfl, rfl, rfl, rfl, rfl⟩
    | j :: rest =>
      have h1 := ih (flushBlock { t with stream := { t.stream with prefetch := rest } } j)
      have h2 := flushBlock_effect { t with stream := { t.stream with prefetch := rest } } j
      refine ⟨?_, ?_, ?_, ?_, ?_, ?_⟩
      · rw [h1.1, h2.1]
      · rw [h1.2.1, h2.2.1]
      · rw [h1.2.2.1, h2.2.2.1]
      · rw [h1.2.2.2.1, h2.2.2.2.1]
      · rw [h1.2.2.2.2.1, h2.2.2.2.2.1]
      · rw [h1.2.2.2.2.2, h2.2.2.2.2.2.1]

/-- The read-block handler never changes the request's file position. -/
theorem handleReadBlockRequest_filePosition (cap : Nat) (oc : ReadOutcome) (r : FileIoRequest) :
    (handleReadBlockRequest cap oc r).1.filePosition = r.filePosition := by
  simp only [handleReadBlockRequest]
  repeat' split
  all_goals rfl

/-- `serveBlock` only fills the node's reply fields and pushes the reply:
the stream structure, counters and every node's file position survive. -/
theorem serveBlock_effect (s : Sys) (i : Nat) :
    (serveBlock s i).sentLog = s.sentLog ∧
    (serveBlock s i).stream = s.stream ∧
    (serveBlock s i).freeNodes = s.freeNodes ∧
    (serveBlock s i).nextId = s.nextId ∧
    (serveBlock s i).blockBytes = s.blockBytes ∧
    (serveBlock s i).instant = s.instant ∧
    (serveBlock s i).expected = s.expected ∧
    (∀ j, posOf (serveBlock s i) j = posOf s j) := by
  simp only [serveBlock]
  split
  · exact ⟨rfl, rfl, rfl, rfl, rfl, rfl, rfl, fun _ => rfl⟩
  · rename_i r hr
    refine ⟨rfl, rfl, rfl, rfl, rfl, rfl, rfl, fun j => ?_⟩
    simp only [posOf, getNode, setNode, assocFind]
    by_cases hij : i = j
    · rw [if_pos hij]
      subst hij
      simp only [getNode] at hr
      simp [hr, handleReadBlockRequest_filePosition]
    · rw [if_neg hij]

/-- Effect of `sendBlockRequestToServer` on the fields the seek theorems
track: one send-log entry describing the node, waiting and expected counts
up by one, everything else untouched. -/
theorem sendBlock_effect (s : Sys) (i : Nat) :
    (sendBlockRequestToServer s i).sentLog =
      s.sentLog ++ [(i, ((getNode s i).getD (initAcquire 0)).filePosition,
                     ((getNode s i).getD (initAcquire 0)).bytesCopied)] ∧
    (sendBlockRequestToServer s i).stream.prefetch = s.stream.prefetch ∧
    (sendBlockRequestToServer s i).freeNodes = s.freeNodes ∧
    (sendBlockRequestToServer s i).nextId = s.nextId ∧
    (sendBlockRequestToServer s i).blockBytes = s.blockBytes ∧
    (sendBlockRequestToServer s i).stream.state = s.stream.state ∧
    (sendBlockRequestToServer s i).stream.error = s.stream.error ∧
    (sendBlockRequestToServer s i).stream.waiting = s.stream.waiting + 1 ∧
    (sendBlockRequestToServer s i).expected = s.expected + 1 ∧
    (∀ j, posOf (sendBlockRequestToServer s i) j = posOf s j) := by
  simp only [sendBlockRequestToServer]
  by_cases hi : s.instant = true
  · rw [if_pos hi]
    have h := serveBlock_effect
      { s with sentLog := s.sentLog ++ [(i, ((getNode s i).getD (initAcquire 0)).filePosition,
          ((getNode s i).getD (initAcquire 0)).bytesCopied)] } i
    refine ⟨?_, ?_, ?_, ?_, ?_, ?_, ?_, ?_, ?_, fun j => ?_⟩
    · rw [h.1]
    · rw [h.2.1]
    · rw [h.2.2.1]
    · rw [h.2.2.2.1]
    · rw [h.2.2.2.2.1]
    · rw [h.2.1]
    · rw [h.2.1]
    · rw [h.2.1]
    · rw [h.2.2.2.2.2.2.1]
    · exact h.2.2.2.2.2.2.2 j
  · rw [if_neg hi]
    exact ⟨rfl, rfl, rfl, rfl, rfl, rfl, rfl, rfl, rfl, fun _ => rfl⟩

/-- The tail pointer of a queue ending in `i` is node `i`'s position. -/
theorem tailPos_concat (t : Sys) (l : List Nat) (i : Nat)
    (h : t.stream.prefetch = l ++ [i]) : tailPos t = posOf t i := by
  simp only [tailPos, h, List.getLast?_concat]

/-- Effect of `initLinkAndSendSequentialBlockRequest`: the new request is
logged at the position one block past the old tail with cursor zero, linked
at the back of the prefetch queue, and becomes the new tail. -/
theorem initLink_effect (s : Sys) (i : Nat) :
    (initLinkAndSendSequentialBlockRequest s i).sentLog
        = s.sentLog ++ [(i, tailPos s + s.blockBytes, 0)] ∧
    (initLinkAndSendSequentialBlockRequest s i).stream.prefetch = s.stream.prefetch ++ [i] ∧
    (initLinkAndSendSequentialBlockRequest s i).freeNodes = s.freeNodes ∧
    (initLinkAndSendSequentialBlockRequest s i).nextId = s.nextId ∧
    (initLinkAndSendSequentialBlockRequest s i).blockBytes = s.blockBytes ∧
    (initLinkAndSendSequentialBlockRequest s i).stream.state = s.stream.state ∧
    tailPos (initLinkAndSendSequentialBlockRequest s i) = tailPos s + s.blockBytes := by
  have heq : initLinkAndSendSequentialBlockRequest s i =
      sendBlockRequestToServer
        { setNode s i (initAcquire (tailPos s + s.blockBytes)) with
            stream := { s.stream with prefetch := s.stream.prefetch ++ [i] } } i := rfl
  have hsend := sendBlock_effect
    { setNode s i (initAcquire (tailPos s + s.blockBytes)) with
        stream := { s.stream with prefetch := s.stream.prefetch ++ [i] } } i
  have hnode : getNode
      { setNode s i (initAcquire (tailPos s + s.blockBytes)) with
          stream := { s.stream with prefetch := s.stream.prefetch ++ [i] } } i =
      some (initAcquire (tailPos s + s.blockBytes)) := by
    simp [getNode, setNode, assocFind]
  rw [heq]
  refine ⟨?_, ?_, ?_, ?_, ?_, ?_, ?_⟩
  · rw [hsend.1, hnode]
    try rfl
  · rw [hsend.2.1]
    try rfl
  · rw [hsend.2.2.1]
    try rfl
  · rw [hsend.2.2.2.1]
    try rfl
  · rw [hsend.2.2.2.2.1]
    try rfl
  · rw [hsend.2.2.2.2.2.1]
    try rfl
  · have hpf : (sendBlockRequestToServer
        { setNode s i (initAcquire (tailPos s + s.blockBytes)) with
            stream := { s.stream with prefetch := s.stream.prefetch ++ [i] } } i).stream.prefetch =
        s.stream.prefetch ++ [i] := (hsend.2.1).trans rfl
    rw [tailPos_concat _ s.stream.prefetch i hpf]
    rw [hsend.2.2.2.2.2.2.2.2.2 i]
    simp [posOf, getNode, setNode, assocFind, initAcquire, tailPos]

/-- Unfolding a mapped range at the front. -/
theorem range_map_succ {α : Type} (n : Nat) (f : Nat → α) :
    (List.range (n + 1)).map f = f 0 :: (List.range n).map (fun j => f (j + 1)) := by
  rw [List.range_succ_eq_map, List.map_cons, List.map_map]
  rfl

/-- Splitting one element off a mapped range appended after a prefix. -/
theorem log_cons_shift {α : Type} (pre : List α) (x : α) (m : Nat) (f g : Nat → α)
    (hx : f 0 = x) (hfg : ∀ j, f (j + 1) = g j) :
    pre ++ (List.range (m + 1)).map f = (pre ++ [x]) ++ (List.range m).map g := by
  rw [range_map_succ, hx, List.append_assoc, List.singleton_append]
  congr 2
  exact List.map_congr_left (fun j _ => hfg j)

/-- Behaviour of `seek`'s request loop: it sends one sequential block
request per iteration at consecutive positions past the current tail; it
succeeds (returning 0 and state `OPEN_BUFFERING`) when the pool holds
enough nodes, and otherwise returns -1 with state `ERROR` having sent one
request per node that was still available. -/
theorem seekLoop_spec (k : Nat) : ∀ (s : Sys),
    (k ≤ s.freeNodes →
      (seekLoop k s).1 = 0 ∧
      (seekLoop k s).2.stream.state = StreamState.openBuffering ∧
      (seekLoop k s).2.sentLog =
        s.sentLog ++ (List.range k).map (fun j => (s.nextId + j, tailPos s + (j + 1) * s.blockBytes, 0)) ∧
      (seekLoop k s).2.stream.prefetch =
        s.stream.prefetch ++ (List.range k).map (fun j => s.nextId + j)) ∧
    (s.freeNodes < k →
      (seekLoop k s).1 = -1 ∧
      (seekLoop k s).2.stream.state = StreamState.error ∧
      (seekLoop k s).2.sentLog =
        s.sentLog ++ (List.range s.freeNodes).map (fun j => (s.nextId + j, tailPos s + (j + 1) * s.blockBytes, 0))) := by
  induction k with
  | zero =>
    intro s
    refine ⟨fun _ => ⟨rfl, rfl, by simp [seekLoop, setStreamState], by simp [seekLoop, setStreamState]⟩,
      fun h => absurd h (by omega)⟩
  | succ m ih =>
    intro s
    by_cases hz : s.freeNodes = 0
    · simp only [seekLoop, allocReq, hz, if_pos rfl]
      refine ⟨fun h => absurd h (by omega), fun _ => ⟨rfl, rfl, ?_⟩⟩
      simp [hz, setStreamState]
    · simp only [seekLoop, allocReq, if_neg hz]
      have hil := initLink_effect { s with freeNodes := s.freeNodes - 1, nextId := s.nextId + 1 } s.nextId
      have e1 : (initLinkAndSendSequentialBlockRequest
            { s with freeNodes := s.freeNodes - 1, nextId := s.nextId + 1 } s.nextId).sentLog =
          s.sentLog ++ [(s.nextId, tailPos s + s.blockBytes, 0)] := hil.1.trans rfl
      have e2 : (initLinkAndSendSequentialBlockRequest
            { s with freeNodes := s.freeNodes - 1, nextId := s.nextId + 1 } s.nextId).stream.prefetch =
          s.stream.prefetch ++ [s.nextId] := hil.2.1.trans rfl
      have e3 : (initLinkAndSendSequentialBlockRequest
            { s with freeNodes := s.freeNodes - 1, nextId := s.nextId + 1 } s.nextId).freeNodes =
          s.freeNodes - 1 := hil.2.2.1.trans rfl
      have e4 : (initLinkAndSendSequentialBlockRequest
            { s with freeNodes := s.freeNodes - 1, nextId := s.nextId + 1 } s.nextId).nextId =
          s.nextId + 1 := hil.2.2.2.1.trans rfl
      have e5 : (initLinkAndSendSequentialBlockRequest
            { s with freeNodes := s.freeNodes - 1, nextId := s.nextId + 1 } s.nextId).blockBytes =
          s.blockBytes := hil.2.2.2.2.1.trans rfl
      have e6 : tailPos (initLinkAndSendSequentialBlockRequest
            { s with freeNodes := s.freeNodes - 1, nextId := s.nextId + 1 } s.nextId) =
          tailPos s + s.blockBytes := hil.2.2.2.2.2.2.trans rfl
      have hrec := ih (initLinkAndSendSequentialBlockRequest
        { s with freeNodes := s.freeNodes - 1, nextId := s.nextId + 1 } s.nextId)
      constructor
      · intro hk
        have hk2 : m ≤ (initLinkAndSendSequentialBlockRequest
            { s with freeNodes := s.freeNodes - 1, nextId := s.nextId + 1 } s.nextId).freeNodes := by
          rw [e3]
          omega
        obtain ⟨hr1, hr2, hr3, hr4⟩ := hrec.1 hk2
        simp only [e1, e2, e4, e5, e6] at hr3 hr4
        refine ⟨hr1, hr2, ?_, ?_⟩
        · rw [hr3]
          refine (log_cons_shift s.sentLog (s.nextId, tailPos s + s.blockBytes, 0) m
            (fun j => (s.nextId + j, tailPos s + (j + 1) * s.blockBytes, 0))
            (fun j => (s.nextId + 1 + j, tailPos s + s.blockBytes + (j + 1) * s.blockBytes, 0))
            (by simp) ?_).symm
          intro j
          simp only [Prod.mk.injEq]
          refine ⟨by omega, by ring, trivial⟩
        · rw [hr4]
          refine (log_cons_shift s.stream.prefetch s.nextId m (fun j => s.nextId + j)
            (fun j => s.nextId + 1 + j) (by simp) ?_).symm
          intro j
          show s.nextId + (j + 1) = s.nextId + 1 + j
          omega
      · intro hk
        have hk2 : (initLinkAndSendSequentialBlockRequest
            { s with freeNodes := s.freeNodes - 1, nextId := s.nextId + 1 } s.nextId).freeNodes < m := by
          rw [e3]
          omega
        obtain ⟨hr1, hr2, hr3⟩ := hrec.2 hk2
        simp only [e1, e3, e4, e5, e6] at hr3
        refine ⟨hr1, hr2, ?_⟩
        rw [hr3]
        obtain ⟨f1, hf1⟩ : ∃ f1, s.freeNodes = f1 + 1 := ⟨s.freeNodes - 1, by omega⟩
        rw [hf1]
        have hsub : f1 + 1 - 1 = f1 := by omega
        rw [hsub]
        refine (log_cons_shift s.sentLog (s.nextId, tailPos s + s.blockBytes, 0) f1
          (fun j => (s.nextId + j, tailPos s + (j + 1) * s.blockBytes, 0))
          (fun j => (s.nextId + 1 + j, tailPos s + s.blockBytes + (j + 1) * s.blockBytes, 0))
          (by simp) ?_).symm
        intro j
        simp only [Prod.mk.injEq]
        refine ⟨by omega, by ring, trivial⟩

/-- Claim C2: for every stream and position, `seek` returns -1 without
sending requests when the state is `OPENING` or `ERROR`; otherwise it
flushes the prefetch FIFO and sends exactly `PREFETCH_DEPTH = 20` block
requests at the block-aligned offsets `aligned_pos + k * BLOCK_BYTES`
(`k = 0 .. 19`), with the first request's bytes-copied cursor set to
`pos - aligned_pos`, and either sets state `ERROR` and returns -1 when a
request-node allocation fails or sets state `OPEN_BUFFERING` and
returns 0. -/
theorem c2_seek_spec (s : Sys) (pos : Nat) :
    ((s.stream.state = StreamState.opening ∨ s.stream.state = StreamState.error) →
      seek s pos = (-1, s)) ∧
    (s.stream.state ≠ StreamState.opening → s.stream.state ≠ StreamState.error →
      (prefetchQueueBlockCount ≤ (flushPrefetchQueue s).freeNodes →
        (seek s pos).1 = 0 ∧
        (seek s pos).2.stream.state = StreamState.openBuffering ∧
        (seek s pos).2.sentLog =
          s.sentLog ++ (List.range prefetchQueueBlockCount).map (fun k =>
            (s.nextId + k,
             roundDownToBlockSizeAlignedPosition s.blockBytes pos + k * s.blockBytes,
             if k = 0 then pos - roundDownToBlockSizeAlignedPosition s.blockBytes pos else 0)) ∧
        (seek s pos).2.stream.prefetch =
          (List.range prefetchQueueBlockCount).map (fun k => s.nextId + k)) ∧
      ((flushPrefetchQueue s).freeNodes < prefetchQueueBlockCount →
        (seek s pos).1 = -1 ∧
        (seek s pos).2.stream.state = StreamState.error)) := by
  constructor
  · intro h
    simp only [seek, if_pos h]
  · intro h1 h2
    have hcond : ¬ (s.stream.state = StreamState.opening ∨ s.stream.state = StreamState.error) := by
      rintro (h | h)
      · exact h1 h
      · exact h2 h
    have hfl := flushPrefetchQueue_effect s
    by_cases hz : (flushPrefetchQueue s).freeNodes = 0
    · refine ⟨fun hge => absurd hge (by rw [hz]; decide), fun _ => ?_⟩
      simp only [seek, if_neg hcond, allocReq, hz, if_pos rfl]
      exact ⟨rfl, rfl⟩
    · have heq : seek s pos = seekLoop (prefetchQueueBlockCount - 1)
          (sendBlockRequestToServer
            { setNode { flushPrefetchQueue s with
                          freeNodes := (flushPrefetchQueue s).freeNodes - 1,
                          nextId := (flushPrefetchQueue s).nextId + 1 }
                (flushPrefetchQueue s).nextId
                { initAcquire (roundDownToBlockSizeAlignedPosition (flushPrefetchQueue s).blockBytes pos) with
                    bytesCopied := pos - roundDownToBlockSizeAlignedPosition (flushPrefetchQueue s).blockBytes pos } with
                stream := { (flushPrefetchQueue s).stream with
                              prefetch := [(flushPrefetchQueue s).nextId] } }
            (flushPrefetchQueue s).nextId) := by
        simp only [seek, if_neg hcond, allocReq, if_neg hz]
        rfl
      rw [heq]
      have hnodeS4 : getNode
          { setNode { flushPrefetchQueue s with
                        freeNodes := (flushPrefetchQueue s).freeNodes - 1,
                        nextId := (flushPrefetchQueue s).nextId + 1 }
              (flushPrefetchQueue s).nextId
              { initAcquire (roundDownToBlockSizeAlignedPosition (flushPrefetchQueue s).blockBytes pos) with
                  bytesCopied := pos - roundDownToBlockSizeAlignedPosition (flushPrefetchQueue s).blockBytes pos } with
              stream := { (flushPrefetchQueue s).stream with
                            prefetch := [(flushPrefetchQueue s).nextId] } }
          (flushPrefetchQueue s).nextId =
          some { initAcquire (roundDownToBlockSizeAlignedPosition (flushPrefetchQueue s).blockBytes pos) with
                   bytesCopied := pos - roundDownToBlockSizeAlignedPosition (flushPrefetchQueue s).blockBytes pos } := by
        simp [getNode, setNode, assocFind]
      have hsend := sendBlock_effect
        { setNode { flushPrefetchQueue s with
                      freeNodes := (flushPrefetchQueue s).freeNodes - 1,
                      nextId := (flushPrefetchQueue s).nextId + 1 }
            (flushPrefetchQueue s).nextId
            { initAcquire (roundDownToBlockSizeAlignedPosition (flushPrefetchQueue s).blockBytes pos) with
                bytesCopied := pos - roundDownToBlockSizeAlignedPosition (flushPrefetchQueue s).blockBytes pos } with
            stream := { (flushPrefetchQueue s).stream with
                          prefetch := [(flushPrefetchQueue s).nextId] } }
        (flushPrefetchQueue s).nextId
      generalize hS5 : sendBlockRequestToServer
          { setNode { flushPrefetchQueue s with
                        freeNodes := (flushPrefetchQueue s).freeNodes - 1,
                        nextId := (flushPrefetchQueue s).nextId + 1 }
              (flushPrefetchQueue s).nextId
              { initAcquire (roundDownToBlockSizeAlignedPosition (flushPrefetchQueue s).blockBytes pos) with
                  bytesCopied := pos - roundDownToBlockSizeAlignedPosition (flushPrefetchQueue s).blockBytes pos } with
              stream := { (flushPrefetchQueue s).stream with
                            prefetch := [(flushPrefetchQueue s).nextId] } }
          (flushPrefetchQueue s).nextId = s5 at hsend ⊢
      have e1 : s5.sentLog = s.sentLog ++
          [((flushPrefetchQueue s).nextId,
            roundDownToBlockSizeAlignedPosition (flushPrefetchQueue s).blockBytes pos,
            pos - roundDownToBlockSizeAlignedPosition (flushPrefetchQueue s).blockBytes pos)] := by
        rw [hsend.1, hnodeS4]
        rw [show ({ setNode { flushPrefetchQueue s with
                      freeNodes := (flushPrefetchQueue s).freeNodes - 1,
                      nextId := (flushPrefetchQueue s).nextId + 1 }
            (flushPrefetchQueue s).nextId
            { initAcquire (roundDownToBlockSizeAlignedPosition (flushPrefetchQueue s).blockBytes pos) with
                bytesCopied := pos - roundDownToBlockSizeAlignedPosition (flushPrefetchQueue s).blockBytes pos } with
            stream := { (flushPrefetchQueue s).stream with
                          prefetch := [(flushPrefetchQueue s).nextId] } } : Sys).sentLog =
          (flushPrefetchQueue s).sentLog from rfl]
        rw [hfl.1]
        rfl
      have e2 : s5.stream.prefetch = [(flushPrefetchQueue s).nextId] := hsend.2.1.trans rfl
      have e3 : s5.freeNodes = (flushPrefetchQueue s).freeNodes - 1 := hsend.2.2.1.trans rfl
      have e4 : s5.nextId = (flushPrefetchQueue s).nextId + 1 := hsend.2.2.2.1.trans rfl
      have e5 : s5.blockBytes = (flushPrefetchQueue s).blockBytes := hsend.2.2.2.2.1.trans rfl
      have e6 : tailPos s5 =
          roundDownToBlockSizeAlignedPosition (flushPrefetchQueue s).blockBytes pos := by
        rw [tailPos_concat s5 [] (flushPrefetchQueue s).nextId (e2.trans (List.nil_append _).symm)]
        rw [hsend.2.2.2.2.2.2.2.2.2]
        simp [posOf, hnodeS4, getNode, setNode, assocFind, initAcquire]
      have hrec := seekLoop_spec (prefetchQueueBlockCount - 1) s5
      constructor
      · intro hge
        have hk2 : prefetchQueueBlockCount - 1 ≤ s5.freeNodes := by
          rw [e3]
          have : (20 : Nat) ≤ (flushPrefetchQueue s).freeNodes := hge
          show 20 - 1 ≤ (flushPrefetchQueue s).freeNodes - 1
          omega
        obtain ⟨hr1, hr2, hr3, hr4⟩ := hrec.1 hk2
        simp only [e1, e2, e4, e5, e6, hfl.2.1, hfl.2.2.1] at hr3 hr4
        refine ⟨hr1, hr2, ?_, ?_⟩
        · rw [hr3]
          show (s.sentLog ++ [(s.nextId, roundDownToBlockSizeAlignedPosition s.blockBytes pos,
              pos - roundDownToBlockSizeAlignedPosition s.blockBytes pos)]) ++
            (List.range 19).map (fun j => (s.nextId + 1 + j,
              roundDownToBlockSizeAlignedPosition s.blockBytes pos + (j + 1) * s.blockBytes, 0)) = _
          refine (log_cons_shift s.sentLog
            (s.nextId, roundDownToBlockSizeAlignedPosition s.blockBytes pos,
             pos - roundDownToBlockSizeAlignedPosition s.blockBytes pos) 19
            (fun k => (s.nextId + k,
              roundDownToBlockSizeAlignedPosition s.blockBytes pos + k * s.blockBytes,
              if k = 0 then pos - roundDownToBlockSizeAlignedPosition s.blockBytes pos else 0))
            (fun j => (s.nextId + 1 + j,
              roundDownToBlockSizeAlignedPosition s.blockBytes pos + (j + 1) * s.blockBytes, 0))
            (by simp) ?_).symm
          intro j
          simp only [Prod.mk.injEq]
          refine ⟨by omega, trivial, by simp⟩
        · rw [hr4]
          show [s.nextId] ++ (List.range 19).map (fun j => s.nextId + 1 + j) = _
          have := (log_cons_shift ([] : List Nat) s.nextId 19 (fun k => s.nextId + k)
            (fun j => s.nextId + 1 + j) (by simp) (fun j => by
              show s.nextId + (j + 1) = s.nextId + 1 + j
              omega)).symm
          simpa using this
      · intro hlt
        have hk2 : s5.freeNodes < prefetchQueueBlockCount - 1 := by
          rw [e3]
          have : (flushPrefetchQueue s).freeNodes < 20 := hlt
          show (flushPrefetchQueue s).freeNodes - 1 < 20 - 1
          omega
        obtain ⟨hr1, hr2, _⟩ := hrec.2 hk2
        exact ⟨hr1, hr2⟩

/-- Claim C2 witness: seeking to byte 5 on a freshly opened idle stream. -/
theorem c2_seek_spec_witness :
    (seek (openedIdle 4 traceFile 30 false) 5).1 = 0 ∧
    (seek (openedIdle 4 traceFile 30 false) 5).2.stream.state = StreamState.openBuffering ∧
    (seek (openedIdle 4 traceFile 30 false) 5).2.stream.prefetch =
      (List.range prefetchQueueBlockCount).map (fun k => (openedIdle 4 traceFile 30 false).nextId + k) := by
  have h := ((c2_seek_spec (openedIdle 4 traceFile 30 false) 5).2
    (by decide) (by decide)).1 (by decide)
  exact ⟨h.1, h.2.1, h.2.2.2⟩

/-! ### Claim C9: the stored error status -/

theorem releaseNode_stream (s : Sys) (i : Nat) : (releaseNode s i).stream = s.stream := by
  simp only [releaseNode]
  split <;> rfl

/-- `receiveOneBlock` never writes the stream's error slot. -/
theorem receiveOneBlock_error (s : Sys) :
    (receiveOneBlock s).2.stream.error = s.stream.error := by
  simp only [receiveOneBlock]
  repeat' split
  all_goals first
    | rfl
    | (rw [releaseNode_stream])

theorem drainResultQueue_error (n : Nat) : ∀ s : Sys,
    (drainResultQueue n s).stream.error = s.stream.error := by
  induction n with
  | zero => intro s; rfl
  | succ m ih =>
    intro s
    simp only [drainResultQueue]
    split
    · rename_i s1 heq
      have : (receiveOneBlock s).2 = s1 := by rw [heq]
      rw [← this, receiveOneBlock_error]
    · rename_i s1 heq
      have : (receiveOneBlock s).2 = s1 := by rw [heq]
      rw [ih, ← this, receiveOneBlock_error]

theorem drainWhileHeadPending_error (frontId : Nat) (n : Nat) : ∀ s : Sys,
    (drainWhileHeadPending frontId n s).stream.error = s.stream.error := by
  induction n with
  | zero => intro s; rfl
  | succ m ih =>
    intro s
    simp only [drainWhileHeadPending]
    repeat' split
    all_goals first
      | rfl
      | (rename_i s1 heq
         have h1 : (receiveOneBlock s).2 = s1 := by rw [heq]
         rw [← h1, receiveOneBlock_error])
      | (rename_i s1 heq
         have h1 : (receiveOneBlock s).2 = s1 := by rw [heq]
         rw [ih, ← h1, receiveOneBlock_error])

theorem sendBlock_error (s : Sys) (i : Nat) :
    (sendBlockRequestToServer s i).stream.error = s.stream.error :=
  (sendBlock_effect s i).2.2.2.2.2.2.1

theorem initLink_error (s : Sys) (i : Nat) :
    (initLinkAndSendSequentialBlockRequest s i).stream.error = s.stream.error :=
  (sendBlock_error
    { setNode s i (initAcquire (tailPos s + s.blockBytes)) with
        stream := { s.stream with prefetch := s.stream.prefetch ++ [i] } } i).trans rfl

theorem flushBlock_error (s : Sys) (i : Nat) :
    (flushBlock s i).stream.error = s.stream.error :=
  (flushBlock_effect s i).2.2.2.2.2.1

theorem popFront_error (s : Sys) : (popFront s).stream.error = s.stream.error := rfl

/-- The streaming loop never writes the stream's error slot. -/
theorem readLoop_error (itemSize itemCount fuel : Nat) : ∀ (soFar : Nat) (acc : List Nat) (s : Sys),
    (readLoop itemSize itemCount fuel soFar acc s).2.2.stream.error = s.stream.error := by
  induction fuel with
  | zero => intro soFar acc s; rfl
  | succ n ih =>
    intro soFar acc s
    rcases hpf : s.stream.prefetch with _ | ⟨frontId, rest⟩
    · simp only [readLoop, hpf]
      split <;> rfl
    · simp only [readLoop, hpf]
      split
      · split
        · exact drainWhileHeadPending_error frontId s.resultQ.length s
        · split
          · split
            · split
              · exact drainWhileHeadPending_error frontId s.resultQ.length s
              · rename_i i s3 heqalloc
                rw [ih, receiveOneBlock_error, flushBlock_error, popFront_error, initLink_error]
                simp only [allocReq] at heqalloc
                split at heqalloc
                · cases heqalloc
                · cases heqalloc
                  exact drainWhileHeadPending_error frontId s.resultQ.length s
            · exact drainWhileHeadPending_error frontId s.resultQ.length s
            · rw [ih]
              exact drainWhileHeadPending_error frontId s.resultQ.length s
          · split
            · exact drainWhileHeadPending_error frontId s.resultQ.length s
            · exact drainWhileHeadPending_error frontId s.resultQ.length s
      · rfl

theorem seekLoop_error (k : Nat) : ∀ s : Sys,
    (seekLoop k s).2.stream.error = s.stream.error := by
  induction k with
  | zero => intro s; rfl
  | succ m ih =>
    intro s
    simp only [seekLoop]
    split
    · rfl
    · rename_i i s1 heq
      rw [ih, initLink_error]
      simp only [allocReq] at heq
      split at heq
      · cases heq
      · cases heq
        rfl

theorem seek_error (s : Sys) (pos : Nat) :
    (seek s pos).2.stream.error = s.stream.error := by
  simp only [seek]
  split
  · rfl
  · split
    · show (setStreamState (flushPrefetchQueue s) StreamState.error).stream.error = s.stream.error
      exact (flushPrefetchQueue_effect s).2.2.2.2.2
    · rename_i i s2 heq
      rw [seekLoop_error, sendBlock_error]
      have h2 : s2.stream.error = (flushPrefetchQueue s).stream.error := by
        simp only [allocReq] at heq
        split at heq
        · cases heq
        · cases heq
          rfl
      show s2.stream.error = s.stream.error
      rw [h2]
      exact (flushPrefetchQueue_effect s).2.2.2.2.2

theorem pollState_error (s : Sys) (h : s.stream.state ≠ StreamState.opening) :
    (pollState s).2.stream.error = s.stream.error := by
  simp only [pollState]
  rw [if_neg h]
  split
  · exact receiveOneBlock_error s
  · rfl

/-- Claim C9: `get_error` reports a nonzero status only for a failed
`OPEN_FILE`: the stream's stored error slot is written solely on the
open-failure branch of `poll_state`, so `seek` (including its
pool-exhaustion failure), `read` outside `OPENING` (including block-error
and pool-exhaustion transitions to `ERROR`), `poll_state` outside
`OPENING` and `receiveOneBlock` (including a failed `READ_BLOCK` consumed
from the queue) all leave `get_error`'s value unchanged. -/
theorem c9_error_written_only_on_open_failure (s : Sys) (pos itemSize itemCount : Nat) :
    getError (seek s pos).2 = getError s ∧
    getError (receiveOneBlock s).2 = getError s ∧
    (s.stream.state ≠ StreamState.opening →
      getError (pollState s).2 = getError s ∧
      getError (read_or_write s itemSize itemCount).2.2 = getError s) := by
  refine ⟨seek_error s pos, receiveOneBlock_error s, fun h => ⟨pollState_error s h, ?_⟩⟩
  show (read_or_write s itemSize itemCount).2.2.stream.error = s.stream.error
  simp only [read_or_write]
  have hp := pollState_error s h
  split
  · exact hp
  · exact hp
  · exact hp
  · exact hp
  · split
    · rw [readLoop_error, drainResultQueue_error]
      exact hp
    · rw [drainResultQueue_error]
      exact hp
  · rw [readLoop_error]
    exact hp

/-- Claim C9 witness: a stream in the `ERROR` state reached through seek
pool exhaustion still reports error status 0. -/
theorem c9_error_witness :
    getError (seek seekExhaustedState 0).2 = getError seekExhaustedState ∧
    getError (receiveOneBlock seekExhaustedState).2 = getError seekExhaustedState ∧
    (getError (pollState seekExhaustedState).2 = getError seekExhaustedState ∧
     getError (read_or_write seekExhaustedState 1 1).2.2 = getError seekExhaustedState) := by
  have h := c9_error_written_only_on_open_failure seekExhaustedState 0 1 1
  exact ⟨h.1, h.2.1, h.2.2 (by decide)⟩

/-! ### Claim C3: stability of OPEN_EOF and ERROR -/

/-- Claim C3 counterexample: `poll_state` is not stable in `OPEN_EOF` when a
block reply is still pending.  In the reachable state `eofPendingState`
(file `[1,2,3,4,5]`, block size 4: seek 0, serve the prefetch burst, read 1
byte then 4 bytes — the second read sends a refill request and then hits the
final block's end — and let the server answer the refill) the stream state
is `OPEN_EOF`, yet `poll_state` consumes the refill reply, the
waiting-for-blocks count hits zero, and the state is rewritten to
`OPEN_STREAMING`. -/
theorem c3_poll_state_escapes_open_eof :
    eofPendingState.stream.state = StreamState.openEof ∧
    (pollState eofPendingState).1 = StreamState.openStreaming ∧
    StreamState.openStreaming ≠ StreamState.openEof := by
  refine ⟨by decide, by decide, by decide⟩

/-- Claim C3 (amended): `OPEN_EOF` and `ERROR` are stable for a quiescent
stream — one with no reply pending in its result queue (expected-result
count zero).  There `read` returns 0 items and leaves the system untouched,
and `poll_state` reports the current state and leaves the system untouched.
(The unamended claim is refuted by `c3_poll_state_escapes_open_eof`: a
pending non-discarded block reply re-enters `OPEN_STREAMING`.) -/
theorem c3_eof_error_quiescent_stable (s : Sys) (itemSize itemCount : Nat)
    (h : s.stream.state = StreamState.openEof ∨ s.stream.state = StreamState.error)
    (he : s.expected = 0) :
    pollState s = (s.stream.state, s) ∧
    read_or_write s itemSize itemCount = (0, [], s) := by
  have hp : pollState s = (s.stream.state, s) := by
    simp only [pollState, he]
    rfl
  refine ⟨hp, ?_⟩
  simp only [read_or_write, hp]
  rcases h with h | h <;> rw [h]

/-- Claim C3 witness: a quiescent `OPEN_EOF` stream is left untouched by
`poll_state` and by a one-byte `read`. -/
theorem c3_eof_error_quiescent_stable_witness :
    pollState eofQuiescentState = (eofQuiescentState.stream.state, eofQuiescentState) ∧
    read_or_write eofQuiescentState 1 1 = (0, [], eofQuiescentState) :=
  c3_eof_error_quiescent_stable eofQuiescentState 1 1 (Or.inl (by decide)) (by decide)

/-! ### Claim C4: prefetch-FIFO emptiness versus stream state -/

/-- Claim C4 counterexample: a reachable `ERROR` state with a non-empty
prefetch FIFO.  With pool capacity 3, `open` consumes two nodes; `seek`
then allocates and sends its first block request (linking it into the
FIFO) and fails to allocate the second, so it stops in `ERROR` with the
first request still linked: the FIFO holds one node id. -/
theorem c4_error_state_with_nonempty_fifo :
    seekExhaustedState.stream.state = StreamState.error ∧
    seekExhaustedState.stream.prefetch ≠ [] := by
  refine ⟨by decide, by decide⟩

/-- The read-block handler never touches the client-owned request type
field. -/
theorem handleReadBlockRequest_state_eq (cap : Nat) (oc : ReadOutcome) (r : FileIoRequest) :
    (handleReadBlockRequest cap oc r).1.state = r.state := by
  simp only [handleReadBlockRequest]
  repeat' split
  all_goals rfl

theorem blockIds_cons_open (stat : Nat) (q : List RQItem) :
    blockIds (RQItem.openReply stat :: q) = blockIds q := rfl

theorem blockIds_cons_block (i : Nat) (q : List RQItem) :
    blockIds (RQItem.blockReply i :: q) = i :: blockIds q := rfl

theorem blockIds_append (q q' : List RQItem) :
    blockIds (q ++ q') = blockIds q ++ blockIds q' := by
  simp [blockIds, List.filterMap_append]

theorem assocFind_mem (i : Nat) (r : FileIoRequest) :
    ∀ l : List (Nat × FileIoRequest), assocFind i l = some r → i ∈ l.map Prod.fst
  | [], h => by simp [assocFind] at h
  | (j, r') :: rest, h => by
    simp only [assocFind] at h
    split at h
    · rename_i hj
      simp [hj]
    · simp only [List.map_cons, List.mem_cons]
      exact Or.inr (assocFind_mem i r rest h)

theorem getNode_mem_fst (s : Sys) (i : Nat) (r : FileIoRequest) (h : getNode s i = some r) :
    i ∈ s.nodes.map Prod.fst := assocFind_mem i r s.nodes h

theorem getNode_setNode_ne (s : Sys) (i j : Nat) (r : FileIoRequest) (h : j ≠ i) :
    getNode (setNode s i r) j = getNode s j := by
  simp only [getNode, setNode, assocFind]
  rw [if_neg fun hh => h hh.symm]

theorem pendingLive_some_iff (r : FileIoRequest) :
    pendingLive (some r) = true ↔ r.state = BlockState.pending ∧ isDiscarded r = false := by
  simp [pendingLive, Bool.and_eq_true, beq_iff_eq, Bool.not_eq_true']

/-- `receiveOneBlock` never touches the prefetch FIFO. -/
theorem receiveOneBlock_prefetch (s : Sys) :
    (receiveOneBlock s).2.stream.prefetch = s.stream.prefetch := by
  simp only [receiveOneBlock]
  repeat' split
  all_goals first
    | rfl
    | (rw [releaseNode_stream])

/-- `receiveOneBlock` either leaves the stream state alone or sets it to
`OPEN_STREAMING` (when the waiting count hits zero). -/
theorem receiveOneBlock_state_or (s : Sys) :
    (receiveOneBlock s).2.stream.state = s.stream.state ∨
    (receiveOneBlock s).2.stream.state = StreamState.openStreaming := by
  simp only [receiveOneBlock]
  repeat' split
  all_goals first
    | exact Or.inl rfl
    | exact Or.inr rfl
    | (rw [releaseNode_stream]; exact Or.inl rfl)

theorem releaseNode_effect (s : Sys) (i : Nat) :
    (releaseNode s i).stream = s.stream ∧ (releaseNode s i).nodes = s.nodes ∧
    (releaseNode s i).resultQ = s.resultQ ∧ (releaseNode s i).inFlight = s.inFlight ∧
    (releaseNode s i).nextId = s.nextId := by
  simp only [releaseNode]
  split <;> exact ⟨rfl, rfl, rfl, rfl, rfl⟩

/-- The C4 invariant transfers to any state with the same stream, nodes and
id counter whose outstanding ids form a sublist. -/
theorem fifoInv_shrink (s t : Sys) (h : fifoInv s)
    (hstream : t.stream = s.stream) (hnodes : t.nodes = s.nodes) (hnext : t.nextId = s.nextId)
    (hsub : (outstanding t).Sublist (outstanding s)) : fifoInv t := by
  obtain ⟨h1, h2, h3, h4, h5, h6, h7⟩ := h
  have hget : ∀ j, getNode t j = getNode s j := fun j => by
    simp only [getNode, hnodes]
  refine ⟨?_, ?_, ?_, ?_, ?_, ?_, ?_⟩
  · intro hst
    rw [hstream] at hst
    obtain ⟨hp, hb, hf⟩ := h1 hst
    have houts : outstanding s = [] := by
      simp [outstanding, hb, hf]
    have ht : outstanding t = [] := List.sublist_nil.mp (houts ▸ hsub)
    have ht2 := ht
    simp only [outstanding, List.append_eq_nil] at ht2
    exact ⟨by rw [hstream]; exact hp, ht2.1, ht2.2⟩
  · intro hst
    rw [hstream] at hst
    rw [hstream]
    exact h2 hst
  · intro j hj
    rw [hget j]
    exact h3 j (hsub.subset hj)
  · intro j hj hlive
    rw [hnodes] at hj
    rw [hget j] at hlive
    rw [hstream]
    exact h4 j hj hlive
  · exact List.Nodup.sublist hsub h5
  · intro j hj
    rw [hnext]
    exact h6 j (hsub.subset hj)
  · intro j hj
    rw [hstream] at hj
    rw [hnext]
    exact h7 j hj

/-- Marking the popped node (ready or error) and decrementing the waiting
count preserves the C4 invariant: the key steps are that a non-discarded
pending reply's node sits in the prefetch FIFO (so the FIFO is non-empty
whatever state the stream enters) and that outstanding ids are distinct
(so the remaining outstanding ids still name pending nodes). -/
theorem receive_mark_fifoInv (s s' : Sys) (i : Nat) (rest : List RQItem) (r r' : FileIoRequest)
    (h : fifoInv s) (hq : s.resultQ = RQItem.blockReply i :: rest)
    (hgs : getNode s i = some r) (hd : isDiscarded r = false)
    (hstate : ¬ r'.state = BlockState.pending)
    (hs'nodes : s'.nodes = s.nodes) (hs'q : s'.resultQ = rest)
    (hs'in : s'.inFlight = s.inFlight) (hs'next : s'.nextId = s.nextId)
    (hs'pf : s'.stream.prefetch = s.stream.prefetch)
    (hs'state : s'.stream.state = StreamState.openStreaming ∨
      s'.stream.state = s.stream.state) :
    fifoInv (setNode s' i r') := by
  obtain ⟨h1, h2, h3, h4, h5, h6, h7⟩ := h
  have himem : i ∈ outstanding s := by
    simp only [outstanding]
    rw [hq, blockIds_cons_block]
    exact List.mem_append_left _ (List.mem_cons_self _ _)
  have hr_pending : r.state = BlockState.pending := by
    have hh := h3 i himem
    rw [hgs] at hh
    simpa using hh
  have hlive : pendingLive (getNode s i) = true := by
    rw [hgs]
    exact (pendingLive_some_iff r).mpr ⟨hr_pending, hd⟩
  have hmem_pf : i ∈ s.stream.prefetch := h4 i (getNode_mem_fst s i r hgs) hlive
  have hpf_ne : s.stream.prefetch ≠ [] := List.ne_nil_of_mem hmem_pf
  have h5' : (i :: (blockIds rest ++ s.inFlight)).Nodup := by
    have hh := h5
    simp only [outstanding] at hh
    rw [hq, blockIds_cons_block, List.cons_append] at hh
    exact hh
  have hnotin : i ∉ blockIds rest ++ s.inFlight := (List.nodup_cons.mp h5').1
  refine ⟨?_, ?_, ?_, ?_, ?_, ?_, ?_⟩
  · intro hst
    exfalso
    have hts : (setNode s' i r').stream.state = s'.stream.state := rfl
    rw [hts] at hst
    rcases hs'state with hss | hss <;> rw [hss] at hst
    · rcases hst with hh | hh <;> exact absurd hh (by decide)
    · obtain ⟨hp, _, _⟩ := h1 hst
      exact hpf_ne hp
  · intro _
    show s'.stream.prefetch ≠ []
    rw [hs'pf]
    exact hpf_ne
  · intro j hj
    have hj' : j ∈ blockIds s'.resultQ ++ s'.inFlight := hj
    rw [hs'q, hs'in] at hj'
    have hne : j ≠ i := fun he => hnotin (he ▸ hj')
    rw [getNode_setNode_ne s' i j r' hne]
    have hgn : getNode s' j = getNode s j := by simp only [getNode, hs'nodes]
    rw [hgn]
    apply h3
    simp only [outstanding]
    rw [hq, blockIds_cons_block]
    rcases List.mem_append.mp hj' with hh | hh
    · exact List.mem_append_left _ (List.mem_cons_of_mem _ hh)
    · exact List.mem_append_right _ hh
  · intro j hj hlivej
    have hj' : j ∈ i :: s'.nodes.map Prod.fst := hj
    by_cases hji : j = i
    · exfalso
      rw [hji, getNode_setNode] at hlivej
      exact hstate ((pendingLive_some_iff r').mp hlivej).1
    · rw [getNode_setNode_ne s' i j r' hji] at hlivej
      have hgn : getNode s' j = getNode s j := by simp only [getNode, hs'nodes]
      rw [hgn] at hlivej
      rcases List.mem_cons.mp hj' with hh | hh
      · exact absurd hh hji
      · rw [hs'nodes] at hh
        show j ∈ s'.stream.prefetch
        rw [hs'pf]
        exact h4 j hh hlivej
  · show (blockIds s'.resultQ ++ s'.inFlight).Nodup
    rw [hs'q, hs'in]
    exact (List.nodup_cons.mp h5').2
  · intro j hj
    have hj' : j ∈ blockIds s'.resultQ ++ s'.inFlight := hj
    rw [hs'q, hs'in] at hj'
    show j < s'.nextId
    rw [hs'next]
    apply h6
    simp only [outstanding]
    rw [hq, blockIds_cons_block]
    rcases List.mem_append.mp hj' with hh | hh
    · exact List.mem_append_left _ (List.mem_cons_of_mem _ hh)
    · exact List.mem_append_right _ hh
  · intro j hj
    have hj' : j ∈ s'.stream.prefetch := hj
    rw [hs'pf] at hj'
    show j < s'.nextId
    rw [hs'next]
    exact h7 j hj'

/-- One receive preserves the C4 invariant. -/
theorem receiveOneBlock_fifoInv (s : Sys) (h : fifoInv s) :
    fifoInv (receiveOneBlock s).2 := by
  rcases hq : s.resultQ with _ | ⟨item, rest⟩
  · simp only [receiveOneBlock, hq]
    exact h
  rcases item with stat | i
  · simp only [receiveOneBlock, hq]
    refine fifoInv_shrink s _ h rfl rfl rfl ?_
    show (blockIds rest ++ s.inFlight).Sublist (outstanding s)
    simp only [outstanding]
    rw [hq, blockIds_cons_open]
  · simp only [receiveOneBlock, hq]
    split
    · -- getNode none: contradicts queuedPending
      rename_i heq
      exfalso
      have hgs : getNode s i = none := heq
      have himem : i ∈ outstanding s := by
        simp only [outstanding]
        rw [hq, blockIds_cons_block]
        exact List.mem_append_left _ (List.mem_cons_self _ _)
      have hh := h.2.2.1 i himem
      rw [hgs] at hh
      simp at hh
    · rename_i r heq
      have hgs : getNode s i = some r := heq
      split
      · -- discarded reply
        split
        · -- released
          refine fifoInv_shrink s _ h ((releaseNode_effect _ i).1.trans rfl) ?_ ?_ ?_
          · exact (releaseNode_effect _ i).2.1.trans rfl
          · exact (releaseNode_effect _ i).2.2.2.2.trans rfl
          · have ho : outstanding (releaseNode
                { s with resultQ := rest, expected := s.expected - 1 } i)
                = blockIds rest ++ s.inFlight := by
              simp only [outstanding]
              rw [(releaseNode_effect _ i).2.2.1, (releaseNode_effect _ i).2.2.2.1]
            rw [ho]
            simp only [outstanding]
            rw [hq, blockIds_cons_block]
            exact List.Sublist.append_right (List.sublist_cons_self _ _) _
        · -- freed
          refine fifoInv_shrink s _ h rfl rfl rfl ?_
          show (blockIds rest ++ s.inFlight).Sublist (outstanding s)
          simp only [outstanding]
          rw [hq, blockIds_cons_block]
          exact List.Sublist.append_right (List.sublist_cons_self _ _) _
      · -- non-discarded: mark ready / error
        rename_i hd
        have hd' : isDiscarded r = false := by
          revert hd
          cases isDiscarded r <;> simp
        split
        · exact receive_mark_fifoInv s _ i rest r _ h hq hgs hd' (by simp) rfl rfl rfl rfl rfl
            (by by_cases hw : sub64 s.stream.waiting 1 = 0
                · exact Or.inl (by
                    show (if sub64 s.stream.waiting 1 = 0 then StreamState.openStreaming
                          else s.stream.state) = StreamState.openStreaming
                    rw [if_pos hw])
                · exact Or.inr (by
                    show (if sub64 s.stream.waiting 1 = 0 then StreamState.openStreaming
                          else s.stream.state) = s.stream.state
                    rw [if_neg hw]))
        · exact receive_mark_fifoInv s _ i rest r _ h hq hgs hd' (by simp) rfl rfl rfl rfl rfl
            (by by_cases hw : sub64 s.stream.waiting 1 = 0
                · exact Or.inl (by
                    show (if sub64 s.stream.waiting 1 = 0 then StreamState.openStreaming
                          else s.stream.state) = StreamState.openStreaming
                    rw [if_pos hw])
                · exact Or.inr (by
                    show (if sub64 s.stream.waiting 1 = 0 then StreamState.openStreaming
                          else s.stream.state) = s.stream.state
                    rw [if_neg hw]))

theorem invPack_transfer (s t : Sys) (l : List Nat) (bound : Nat)
    (h : invPack s l bound) (hnodes : t.nodes = s.nodes)
    (hq : t.resultQ = s.resultQ) (hin : t.inFlight = s.inFlight) :
    invPack t l bound := by
  obtain ⟨h1, h2, h3, h4⟩ := h
  have ho : outstanding t = outstanding s := by simp only [outstanding, hq, hin]
  have hget : ∀ j, getNode t j = getNode s j := fun j => by simp only [getNode, hnodes]
  refine ⟨fun j hj => ?_, fun j hj hl => ?_, ?_, fun j hj => ?_⟩
  · rw [hget j]
    rw [ho] at hj
    exact h1 j hj
  · rw [hget j] at hl
    rw [hnodes] at hj
    exact h2 j hj hl
  · rw [ho]
    exact h3
  · rw [ho] at hj
    exact h4 j hj

/-- Generic `queuedPending` preservation under writing node `i`. -/
theorem queuedPending_mark (s t : Sys) (i : Nat) (r' : FileIoRequest)
    (hq : queuedPending s)
    (hnodes : t.nodes = (i, r') :: s.nodes) (htq : t.resultQ = s.resultQ)
    (htin : t.inFlight = s.inFlight)
    (hst : (getNode s i).map FileIoRequest.state = some r'.state ∨ i ∉ outstanding s) :
    queuedPending t := by
  intro j hj
  have ho : outstanding t = outstanding s := by simp only [outstanding, htq, htin]
  rw [ho] at hj
  have hget : getNode t j = if i = j then some r' else getNode s j := by
    simp only [getNode, hnodes, assocFind]
  by_cases hji : i = j
  · subst hji
    rw [hget, if_pos rfl]
    rcases hst with hs | hs
    · have hh := hq i hj
      rw [hs] at hh
      simpa using hh
    · exact absurd hj hs
  · rw [hget, if_neg hji]
    exact hq j hj

/-- Generic `pendingInList` preservation under writing node `i`. -/
theorem pendingInList_mark (s t : Sys) (i : Nat) (r' : FileIoRequest) (l l' : List Nat)
    (hp : pendingInList s l)
    (hnodes : t.nodes = (i, r') :: s.nodes)
    (hsub : ∀ j ∈ l, j ≠ i → j ∈ l')
    (hi : pendingLive (some r') = true → i ∈ l') :
    pendingInList t l' := by
  intro j hj hl
  have hget : getNode t j = if i = j then some r' else getNode s j := by
    simp only [getNode, hnodes, assocFind]
  have hjm : j ∈ i :: s.nodes.map Prod.fst := by
    rw [hnodes] at hj
    exact hj
  by_cases hji : i = j
  · subst hji
    rw [hget, if_pos rfl] at hl
    exact hi hl
  · rw [hget, if_neg hji] at hl
    rcases List.mem_cons.mp hjm with hh | hh
    · exact absurd hh.symm hji
    · exact hsub j (hp j hh hl) fun he => hji he.symm

/-- Overwriting a non-pending node with a non-pending record preserves the
C4 invariant. -/
theorem setNode_nonpending_fifoInv (s t : Sys) (i : Nat) (r0 r' : FileIoRequest) (h : fifoInv s)
    (hg : getNode s i = some r0) (h0 : ¬ r0.state = BlockState.pending)
    (hr' : ¬ r'.state = BlockState.pending)
    (hnodes : t.nodes = (i, r') :: s.nodes) (hstream : t.stream = s.stream)
    (htq : t.resultQ = s.resultQ) (htin : t.inFlight = s.inFlight) (htn : t.nextId = s.nextId) :
    fifoInv t := by
  obtain ⟨h1, h2, h3, h4, h5, h6, h7⟩ := h
  have ho : outstanding t = outstanding s := by simp only [outstanding, htq, htin]
  have hni : i ∉ outstanding s := fun hmem => by
    have hh := h3 i hmem
    rw [hg] at hh
    exact h0 (by simpa using hh)
  refine ⟨?_, ?_, ?_, ?_, ?_, ?_, ?_⟩
  · intro hst
    rw [hstream] at hst
    obtain ⟨hp, hb, hf⟩ := h1 hst
    exact ⟨by rw [hstream]; exact hp, by rw [htq]; exact hb, by rw [htin]; exact hf⟩
  · intro hst
    rw [hstream] at hst
    rw [hstream]
    exact h2 hst
  · exact queuedPending_mark s t i r' h3 hnodes htq htin (Or.inr hni)
  · have hpl := pendingInList_mark s t i r' s.stream.prefetch s.stream.prefetch h4 hnodes
      (fun j hj _ => hj)
      (fun hl => absurd ((pendingLive_some_iff r').mp hl).1 hr')
    intro j hj hl
    rw [hstream]
    exact hpl j hj hl
  · rw [ho]
    exact h5
  · intro j hj
    rw [ho] at hj
    rw [htn]
    exact h6 j hj
  · intro j hj
    rw [hstream] at hj
    rw [htn]
    exact h7 j hj

theorem releaseNode_fifoInv (s : Sys) (i : Nat) (h : fifoInv s) : fifoInv (releaseNode s i) := by
  refine fifoInv_shrink s _ h (releaseNode_effect s i).1 (releaseNode_effect s i).2.1
    (releaseNode_effect s i).2.2.2.2 ?_
  have ho : outstanding (releaseNode s i) = outstanding s := by
    simp only [outstanding]
    rw [(releaseNode_effect s i).2.2.1, (releaseNode_effect s i).2.2.2.1]
  rw [ho]

theorem freeReq_fifoInv (s : Sys) (i : Nat) (h : fifoInv s) : fifoInv (freeReq s i) := by
  refine fifoInv_shrink s _ h rfl rfl rfl ?_
  show (outstanding s).Sublist (outstanding s)
  exact List.Sublist.refl _

theorem setStreamState_error_fifoInv (s : Sys) (h : fifoInv s) :
    fifoInv (setStreamState s StreamState.error) := by
  obtain ⟨h1, h2, h3, h4, h5, h6, h7⟩ := h
  refine ⟨?_, ?_, h3, h4, h5, h6, h7⟩
  · intro hst
    rcases hst with hh | hh <;> simp [setStreamState] at hh
  · intro hst
    rcases hst with hh | hh | hh <;> simp [setStreamState] at hh

theorem setStreamState_nonempty_fifoInv (s : Sys) (st : StreamState) (h : fifoInv s)
    (hst1 : ¬ st = StreamState.opening) (hst2 : ¬ st = StreamState.openIdle)
    (hpf : s.stream.prefetch ≠ []) : fifoInv (setStreamState s st) := by
  obtain ⟨h1, h2, h3, h4, h5, h6, h7⟩ := h
  refine ⟨?_, ?_, h3, h4, h5, h6, h7⟩
  · intro hst
    rcases hst with hh | hh
    · exact absurd hh hst1
    · exact absurd hh hst2
  · intro _
    exact hpf

theorem fifoInv_nextId_mono (s t : Sys) (h : fifoInv s)
    (hstream : t.stream = s.stream) (hnodes : t.nodes = s.nodes)
    (hq : t.resultQ = s.resultQ) (hin : t.inFlight = s.inFlight)
    (hnext : s.nextId ≤ t.nextId) : fifoInv t := by
  obtain ⟨h1, h2, h3, h4, h5, h6, h7⟩ := h
  have ho : outstanding t = outstanding s := by simp only [outstanding, hq, hin]
  have hget : ∀ j, getNode t j = getNode s j := fun j => by simp only [getNode, hnodes]
  refine ⟨?_, ?_, ?_, ?_, ?_, ?_, ?_⟩
  · intro hst
    rw [hstream] at hst
    obtain ⟨hp, hb, hf⟩ := h1 hst
    exact ⟨by rw [hstream]; exact hp, by rw [hq]; exact hb, by rw [hin]; exact hf⟩
  · intro hst
    rw [hstream] at hst
    rw [hstream]
    exact h2 hst
  · intro j hj
    rw [hget j]
    rw [ho] at hj
    exact h3 j hj
  · intro j hj hl
    rw [hnodes] at hj
    rw [hget j] at hl
    rw [hstream]
    exact h4 j hj hl
  · rw [ho]
    exact h5
  · intro j hj
    rw [ho] at hj
    exact lt_of_lt_of_le (h6 j hj) hnext
  · intro j hj
    rw [hstream] at hj
    exact lt_of_lt_of_le (h7 j hj) hnext

/-- Generic `invPack` preservation when a fresh pending request `i` enters
the travelling set (either the result queue or the server mailbox). -/
theorem invPack_push (s t : Sys) (i : Nat) (r' : FileIoRequest) (l : List Nat)
    (hpk : invPack s l i) (hmem : i ∈ l)
    (hget : ∀ j, getNode t j = if i = j then some r' else getNode s j)
    (hfst : ∀ j, j ∈ t.nodes.map Prod.fst → j = i ∨ j ∈ s.nodes.map Prod.fst)
    (hrs : r'.state = BlockState.pending)
    (hperm : List.Perm (outstanding t) (i :: outstanding s)) :
    invPack t l (i + 1) := by
  obtain ⟨hq, hp, hnd, hb⟩ := hpk
  have hni : i ∉ outstanding s := fun hmem' => lt_irrefl i (hb i hmem')
  refine ⟨?_, ?_, ?_, ?_⟩
  · intro j hj
    have hj' : j = i ∨ j ∈ outstanding s := by
      have hh := hperm.mem_iff.mp hj
      simpa using hh
    rcases hj' with hh | hh
    · subst hh
      rw [hget j, if_pos rfl]
      simp [hrs]
    · have hji : ¬ i = j := fun he => hni (he ▸ hh)
      rw [hget j, if_neg hji]
      exact hq j hh
  · intro j hj hl
    by_cases hji : i = j
    · subst hji
      exact hmem
    · rw [hget j, if_neg hji] at hl
      rcases hfst j hj with hh | hh
      · exact absurd hh fun he => hji he.symm
      · exact hp j hh hl
  · exact hperm.nodup_iff.mpr (List.nodup_cons.mpr ⟨hni, hnd⟩)
  · intro j hj
    have hj' := hperm.mem_iff.mp hj
    rcases List.mem_cons.mp hj' with hh | hh
    · rw [hh]
      exact Nat.lt_succ_self i
    · exact Nat.lt_succ_of_lt (hb j hh)

theorem serveBlock_shape (s : Sys) (i : Nat) (r : FileIoRequest) (hg : getNode s i = some r) :
    serveBlock s i =
      { setNode s i
          (handleReadBlockRequest s.blockBytes (pureOutcome s.file s.blockBytes r.filePosition) r).1
        with resultQ := s.resultQ ++ [RQItem.blockReply i] } := by
  simp only [serveBlock, hg]
  rfl

/-- Serving a pending request preserves the bookkeeping pack (the node id
moves from the mailbox side to the reply side of the travelling set). -/
theorem serveBlock_invPack (s : Sys) (i : Nat) (r : FileIoRequest) (l : List Nat)
    (hg : getNode s i = some r) (hrp : r.state = BlockState.pending)
    (hpk : invPack s l i) (hmem : i ∈ l) :
    invPack (serveBlock s i) l (i + 1) := by
  rw [serveBlock_shape s i r hg]
  refine invPack_push s _ i
    (handleReadBlockRequest s.blockBytes (pureOutcome s.file s.blockBytes r.filePosition) r).1
    l hpk hmem ?_ ?_ ?_ ?_
  · intro j
    simp [getNode, setNode, assocFind]
  · intro j hj
    have hh : j ∈ i :: s.nodes.map Prod.fst := hj
    exact List.mem_cons.mp hh
  · rw [handleReadBlockRequest_state_eq]
    exact hrp
  · show List.Perm (blockIds (s.resultQ ++ [RQItem.blockReply i]) ++ s.inFlight) (i :: outstanding s)
    rw [blockIds_append]
    have hbi : blockIds [RQItem.blockReply i] = [i] := rfl
    rw [hbi, List.append_assoc]
    exact List.perm_middle

/-- Sending a pending request to the server preserves the bookkeeping pack,
raising the id bound past the sent id. -/
theorem sendBlock_inv (s : Sys) (i : Nat) (r : FileIoRequest) (l : List Nat)
    (hg : getNode s i = some r) (hrp : r.state = BlockState.pending)
    (hpk : invPack s l i) (hmem : i ∈ l) :
    invPack (sendBlockRequestToServer s i) l (i + 1) := by
  simp only [sendBlockRequestToServer]
  by_cases hi : s.instant = true
  · rw [if_pos hi]
    refine invPack_transfer (serveBlock _ i) _ l (i + 1) ?_ rfl rfl rfl
    exact serveBlock_invPack _ i r l hg hrp (invPack_transfer s _ l i hpk rfl rfl rfl) hmem
  · rw [if_neg hi]
    refine invPack_push s _ i r l hpk hmem ?_ ?_ hrp ?_
    · intro j
      by_cases hji : i = j
      · subst hji
        rw [if_pos rfl]
        exact hg
      · rw [if_neg hji]
        rfl
    · intro j hj
      exact Or.inr hj
    · show List.Perm (blockIds s.resultQ ++ (s.inFlight ++ [i])) (i :: outstanding s)
      rw [← List.append_assoc]
      exact List.perm_append_singleton _ _

/-- `initLinkAndSendSequentialBlockRequest` preserves the bookkeeping pack
relative to the extended FIFO. -/
theorem initLink_inv (s : Sys) (i : Nat)
    (hpk : invPack s s.stream.prefetch i) :
    invPack (initLinkAndSendSequentialBlockRequest s i) (s.stream.prefetch ++ [i]) (i + 1) := by
  show invPack (sendBlockRequestToServer
    { setNode s i (initAcquire (tailPos s + s.blockBytes)) with
        stream := { s.stream with prefetch := s.stream.prefetch ++ [i] } } i) _ _
  have hni : i ∉ outstanding s := fun hm => lt_irrefl i (hpk.2.2.2 i hm)
  refine sendBlock_inv _ i (initAcquire (tailPos s + s.blockBytes)) _
    (getNode_setNode s i _) rfl ⟨?_, ?_, ?_, ?_⟩ (by simp)
  · exact queuedPending_mark s _ i _ hpk.1 rfl rfl rfl (Or.inr hni)
  · exact pendingInList_mark s _ i _ s.stream.prefetch (s.stream.prefetch ++ [i]) hpk.2.1 rfl
      (fun j hj _ => List.mem_append_left _ hj) (fun _ => List.mem_append_right _ (by simp))
  · show (outstanding s).Nodup
    exact hpk.2.2.1
  · intro j hj
    exact hpk.2.2.2 j hj

theorem queuedPending_congr (s t : Sys) (hnodes : t.nodes = s.nodes)
    (htq : t.resultQ = s.resultQ) (htin : t.inFlight = s.inFlight)
    (h : queuedPending s) : queuedPending t := by
  intro j hj
  have ho : outstanding t = outstanding s := by simp only [outstanding, htq, htin]
  rw [ho] at hj
  have hg : getNode t j = getNode s j := by simp only [getNode, hnodes]
  rw [hg]
  exact h j hj

theorem pendingInList_congr (s t : Sys) (l : List Nat) (hnodes : t.nodes = s.nodes)
    (h : pendingInList s l) : pendingInList t l := by
  intro j hj hl
  rw [hnodes] at hj
  have hg : getNode t j = getNode s j := by simp only [getNode, hnodes]
  rw [hg] at hl
  exact h j hj hl

/-- One `flushBlock` call on the popped FIFO head: the FIFO stays the
popped tail, the travelling sets and id counter survive, outstanding ids
stay pending, and no live pending node outside the tail remains. -/
theorem flushBlock_pack (s1 : Sys) (i : Nat) (rest : List Nat)
    (hpf1 : s1.stream.prefetch = rest)
    (hq1 : queuedPending s1) (hp1 : pendingInList s1 (i :: rest)) :
    (flushBlock s1 i).stream.prefetch = rest ∧
    (flushBlock s1 i).resultQ = s1.resultQ ∧
    (flushBlock s1 i).inFlight = s1.inFlight ∧
    (flushBlock s1 i).nextId = s1.nextId ∧
    queuedPending (flushBlock s1 i) ∧ pendingInList (flushBlock s1 i) rest := by
  rcases hgi : getNode s1 i with _ | r
  · have hfb : flushBlock s1 i = s1 := by simp only [flushBlock, hgi]
    rw [hfb]
    refine ⟨hpf1, rfl, rfl, rfl, hq1, ?_⟩
    intro j hj hlv
    rcases List.mem_cons.mp (hp1 j hj hlv) with hh | hh
    · subst hh
      rw [hgi] at hlv
      simp [pendingLive] at hlv
    · exact hh
  · rcases hrst : r.state with _ | _ | _
    · have hfb : flushBlock s1 i =
          { setNode s1 i { r with bytesCopied := DISCARDED } with
              stream := { s1.stream with waiting := sub64 s1.stream.waiting 1 } } := by
        simp only [flushBlock, hgi, hrst]
        rfl
      rw [hfb]
      refine ⟨hpf1, rfl, rfl, rfl, ?_, ?_⟩
      · exact queuedPending_mark s1 _ i _ hq1 rfl rfl rfl (Or.inl (by rw [hgi]; rfl))
      · refine pendingInList_mark s1 _ i _ (i :: rest) rest hp1 rfl ?_ ?_
        · intro j hj hne
          rcases List.mem_cons.mp hj with hh | hh
          · exact absurd hh hne
          · exact hh
        · intro hlv
          rw [pendingLive_some_iff] at hlv
          exact absurd hlv.2 (by simp [isDiscarded])
    · have hfb : flushBlock s1 i = releaseNode s1 i := by
        simp only [flushBlock, hgi, hrst]
      have hplrest : pendingInList s1 rest := by
        intro j hj hlv
        rcases List.mem_cons.mp (hp1 j hj hlv) with hh | hh
        · subst hh
          rw [hgi] at hlv
          have hpd := ((pendingLive_some_iff r).mp hlv).1
          rw [hrst] at hpd
          cases hpd
        · exact hh
      rw [hfb]
      refine ⟨?_, (releaseNode_effect s1 i).2.2.1, (releaseNode_effect s1 i).2.2.2.1,
        (releaseNode_effect s1 i).2.2.2.2, ?_, ?_⟩
      · rw [congrArg StreamSt.prefetch (releaseNode_effect s1 i).1]
        exact hpf1
      · exact queuedPending_congr s1 _ (releaseNode_effect s1 i).2.1
          (releaseNode_effect s1 i).2.2.1 (releaseNode_effect s1 i).2.2.2.1 hq1
      · exact pendingInList_congr s1 _ rest (releaseNode_effect s1 i).2.1 hplrest
    · have hfb : flushBlock s1 i = freeReq s1 i := by
        simp only [flushBlock, hgi, hrst]
      have hplrest : pendingInList s1 rest := by
        intro j hj hlv
        rcases List.mem_cons.mp (hp1 j hj hlv) with hh | hh
        · subst hh
          rw [hgi] at hlv
          have hpd := ((pendingLive_some_iff r).mp hlv).1
          rw [hrst] at hpd
          cases hpd
        · exact hh
      rw [hfb]
      refine ⟨hpf1, rfl, rfl, rfl, ?_, ?_⟩
      · exact queuedPending_congr s1 _ rfl rfl rfl hq1
      · exact pendingInList_congr s1 _ rest rfl hplrest

theorem flushLoop_cons (n : Nat) (s : Sys) (i : Nat) (rest : List Nat)
    (hpf : s.stream.prefetch = i :: rest) :
    flushLoop (n + 1) s =
      flushLoop n (flushBlock { s with stream := { s.stream with prefetch := rest } } i) := by
  simp only [flushLoop, hpf]

/-- The flush loop empties the FIFO, leaves the travelling sets and the id
counter alone, keeps outstanding ids pending, and leaves no live pending
node behind (every pending FIFO node was marked discarded). -/
theorem flushLoop_pack (n : Nat) : ∀ s : Sys, s.stream.prefetch.length = n →
    queuedPending s → pendingInList s s.stream.prefetch →
    (flushLoop n s).stream.prefetch = [] ∧
    (flushLoop n s).resultQ = s.resultQ ∧ (flushLoop n s).inFlight = s.inFlight ∧
    (flushLoop n s).nextId = s.nextId ∧
    queuedPending (flushLoop n s) ∧ pendingInList (flushLoop n s) [] := by
  induction n with
  | zero =>
    intro s hl hq hp
    have hpf : s.stream.prefetch = [] := List.length_eq_zero.mp hl
    refine ⟨hpf, rfl, rfl, rfl, hq, ?_⟩
    rw [hpf] at hp
    exact hp
  | succ m ih =>
    intro s hl hq hp
    rcases hpf : s.stream.prefetch with _ | ⟨i, rest⟩
    · rw [hpf] at hl
      simp at hl
    · have hlen : rest.length = m := by
        rw [hpf] at hl
        simpa using hl
      rw [hpf] at hp
      rw [flushLoop_cons m s i rest hpf]
      obtain ⟨f1, f2, f3, f4, f5, f6⟩ :=
        flushBlock_pack { s with stream := { s.stream with prefetch := rest } } i rest rfl hq hp
      obtain ⟨e1, e2, e3, e4, q5, p6⟩ :=
        ih (flushBlock { s with stream := { s.stream with prefetch := rest } } i)
          (by rw [f1]; exact hlen) f5 (by rw [f1]; exact f6)
      exact ⟨e1, e2.trans (f2.trans rfl), e3.trans (f3.trans rfl),
        e4.trans (f4.trans rfl), q5, p6⟩

theorem flushPrefetchQueue_pack (s : Sys) (hq : queuedPending s)
    (hp : pendingInList s s.stream.prefetch) :
    (flushPrefetchQueue s).stream.prefetch = [] ∧
    (flushPrefetchQueue s).resultQ = s.resultQ ∧
    (flushPrefetchQueue s).inFlight = s.inFlight ∧
    (flushPrefetchQueue s).nextId = s.nextId ∧
    queuedPending (flushPrefetchQueue s) ∧ pendingInList (flushPrefetchQueue s) [] :=
  flushLoop_pack s.stream.prefetch.length s rfl hq hp

/-- The body of `seek`'s prefetch loop keeps the C4 invariant: each round
links one fresh pending request, and the epilogue (or the pool-exhaustion
bailout) re-establishes the state/FIFO shape clauses. -/
theorem seekLoop_fifoInv (k : Nat) : ∀ s : Sys,
    invPack s s.stream.prefetch s.nextId →
    prefetchIdsBound s → s.stream.prefetch ≠ [] →
    fifoInv (seekLoop k s).2 := by
  induction k with
  | zero =>
    intro s hpk hpb hne
    simp only [seekLoop]
    refine ⟨?_, fun _ => hne, hpk.1, hpk.2.1, hpk.2.2.1, hpk.2.2.2, hpb⟩
    intro hst
    rcases hst with hh | hh <;> simp [setStreamState] at hh
  | succ m ih =>
    intro s hpk hpb hne
    simp only [seekLoop]
    split
    · refine ⟨?_, fun _ => hne, hpk.1, hpk.2.1, hpk.2.2.1, hpk.2.2.2, hpb⟩
      intro hst
      rcases hst with hh | hh <;> simp [setStreamState] at hh
    · rename_i i s1 heq
      simp only [allocReq] at heq
      split at heq
      · cases heq
      · cases heq
        apply ih
        · rw [(initLink_effect _ _).2.1, (initLink_effect _ _).2.2.2.1]
          exact initLink_inv { s with freeNodes := s.freeNodes - 1, nextId := s.nextId + 1 }
            s.nextId (invPack_transfer s _ _ _ hpk rfl rfl rfl)
        · intro j hj
          rw [(initLink_effect _ _).2.1] at hj
          rw [(initLink_effect _ _).2.2.2.1]
          rcases List.mem_append.mp hj with hh | hh
          · exact Nat.lt_succ_of_lt (hpb j hh)
          · have hji : j = s.nextId := by simpa using hh
            rw [hji]
            exact Nat.lt_succ_self _
        · rw [(initLink_effect _ _).2.1]
          simp


/-- `seek` preserves the C4 invariant, whether it succeeds (ending in
`OPEN_BUFFERING` with a fully linked FIFO) or fails on pool exhaustion
(ending in `ERROR`, possibly with the first fresh request already
linked). -/
theorem seek_fifoInv (s : Sys) (pos : Nat) (h : fifoInv s) : fifoInv (seek s pos).2 := by
  obtain ⟨h1, h2, h3, h4, h5, h6, h7⟩ := h
  simp only [seek]
  split
  · exact ⟨h1, h2, h3, h4, h5, h6, h7⟩
  · obtain ⟨f1, f2, f3, f4, f5, f6⟩ := flushPrefetchQueue_pack s h3 h4
    have ho : outstanding (flushPrefetchQueue s) = outstanding s := by
      simp only [outstanding, f2, f3]
    split
    · -- pool exhausted on the first alloc: ERROR with the flushed FIFO
      refine ⟨?_, ?_, f5, ?_, ?_, ?_, ?_⟩
      · intro hst
        rcases hst with hh | hh <;> simp [setStreamState] at hh
      · intro hst
        rcases hst with hh | hh | hh <;> simp [setStreamState] at hh
      · have hpf : (setStreamState (flushPrefetchQueue s) StreamState.error).stream.prefetch
            = [] := f1
        rw [hpf]
        exact f6
      · show (outstanding (flushPrefetchQueue s)).Nodup
        rw [ho]
        exact h5
      · intro j hj
        have hj' : j ∈ outstanding (flushPrefetchQueue s) := hj
        rw [ho] at hj'
        show j < (flushPrefetchQueue s).nextId
        rw [f4]
        exact h6 j hj'
      · intro j hj
        have hj' : j ∈ (flushPrefetchQueue s).stream.prefetch := hj
        rw [f1] at hj'
        simp at hj'
    · rename_i i s2 heq
      simp only [allocReq] at heq
      split at heq
      · cases heq
      · cases heq
        apply seekLoop_fifoInv
        · -- invPack for the state right after the first block request is sent
          rw [(sendBlock_effect _ _).2.1, (sendBlock_effect _ _).2.2.2.1]
          have hni : (flushPrefetchQueue s).nextId ∉ outstanding s := fun hm => by
            have hlt := h6 _ hm
            rw [← f4] at hlt
            exact lt_irrefl _ hlt
          refine sendBlock_inv _ _
            { initAcquire (roundDownToBlockSizeAlignedPosition (flushPrefetchQueue s).blockBytes pos)
              with bytesCopied :=
                pos - roundDownToBlockSizeAlignedPosition (flushPrefetchQueue s).blockBytes pos }
            _ (getNode_setNode _ _ _) rfl ⟨?_, ?_, ?_, ?_⟩ ?_
          · refine queuedPending_mark (flushPrefetchQueue s) _ _ _ f5 rfl rfl rfl (Or.inr ?_)
            intro hm
            have hm' : (flushPrefetchQueue s).nextId ∈ outstanding (flushPrefetchQueue s) := hm
            rw [ho] at hm'
            exact hni hm'
          · refine pendingInList_mark (flushPrefetchQueue s) _ _ _ [] _ f6 rfl ?_ ?_
            · intro j hj _
              exact absurd hj (List.not_mem_nil j)
            · intro _
              exact List.mem_singleton.mpr rfl
          · show (outstanding (flushPrefetchQueue s)).Nodup
            rw [ho]
            exact h5
          · intro j hj
            have hj' : j ∈ outstanding (flushPrefetchQueue s) := hj
            rw [ho] at hj'
            have hlt := h6 j hj'
            rw [← f4] at hlt
            exact hlt
          · exact List.mem_singleton.mpr rfl
        · -- prefetch ids bound after the send
          intro j hj
          rw [(sendBlock_effect _ _).2.1] at hj
          rw [(sendBlock_effect _ _).2.2.2.1]
          have hj' : j = (flushPrefetchQueue s).nextId := by
            have hj2 : j ∈ [(flushPrefetchQueue s).nextId] := hj
            simpa using hj2
          rw [hj']
          exact Nat.lt_succ_self _
        · rw [(sendBlock_effect _ _).2.1]
          show ([(flushPrefetchQueue s).nextId] : List Nat) ≠ []
          simp

/-- `poll_state` preserves the C4 invariant: the `OPENING` transitions pop
the open reply (no `READ_BLOCK` travels yet), and outside `OPENING` it
defers to `receiveOneBlock`. -/
theorem pollState_fifoInv (s : Sys) (h : fifoInv s) : fifoInv (pollState s).2 := by
  obtain ⟨h1, h2, h3, h4, h5, h6, h7⟩ := h
  rcases hq : s.resultQ with _ | ⟨item, rest⟩
  · simp only [pollState, hq]
    split
    · split
      · exact ⟨h1, h2, h3, h4, h5, h6, h7⟩
      · exact receiveOneBlock_fifoInv s ⟨h1, h2, h3, h4, h5, h6, h7⟩
    · exact ⟨h1, h2, h3, h4, h5, h6, h7⟩
  · rcases item with stat | i
    · simp only [pollState, hq]
      split
      · split
        · rename_i hop
          obtain ⟨hpf, hbi, hfl⟩ := h1 (Or.inl hop)
          have hbi2 : blockIds rest = [] := by
            rw [hq, blockIds_cons_open] at hbi
            exact hbi
          split
          · -- open succeeded: OPEN_IDLE
            refine ⟨?_, ?_, ?_, ?_, ?_, ?_, ?_⟩
            · intro _
              exact ⟨hpf, hbi2, hfl⟩
            · intro hst
              rcases hst with hh | hh | hh <;> simp [setStreamState] at hh
            · intro j hj
              have hj2 : j ∈ blockIds rest ++ s.inFlight := hj
              rw [hbi2, hfl] at hj2
              simp at hj2
            · exact h4
            · show (blockIds rest ++ s.inFlight).Nodup
              rw [hbi2, hfl]
              simp
            · intro j hj
              have hj2 : j ∈ blockIds rest ++ s.inFlight := hj
              rw [hbi2, hfl] at hj2
              simp at hj2
            · exact h7
          · -- open failed: ERROR, error slot written
            refine ⟨?_, ?_, ?_, ?_, ?_, ?_, ?_⟩
            · intro hst
              rcases hst with hh | hh <;> simp at hh
            · intro hst
              rcases hst with hh | hh | hh <;> simp at hh
            · intro j hj
              have hj2 : j ∈ blockIds rest ++ s.inFlight := hj
              rw [hbi2, hfl] at hj2
              simp at hj2
            · exact h4
            · show (blockIds rest ++ s.inFlight).Nodup
              rw [hbi2, hfl]
              simp
            · intro j hj
              have hj2 : j ∈ blockIds rest ++ s.inFlight := hj
              rw [hbi2, hfl] at hj2
              simp at hj2
            · exact h7
        · exact receiveOneBlock_fifoInv s ⟨h1, h2, h3, h4, h5, h6, h7⟩
      · exact ⟨h1, h2, h3, h4, h5, h6, h7⟩
    · simp only [pollState, hq]
      split
      · split
        · rename_i hop
          exfalso
          obtain ⟨_, hbi, _⟩ := h1 (Or.inl hop)
          rw [hq, blockIds_cons_block] at hbi
          simp at hbi
        · exact receiveOneBlock_fifoInv s ⟨h1, h2, h3, h4, h5, h6, h7⟩
      · exact ⟨h1, h2, h3, h4, h5, h6, h7⟩

theorem receiveOneBlock_streaming (s : Sys) (h : s.stream.state = StreamState.openStreaming) :
    (receiveOneBlock s).2.stream.state = StreamState.openStreaming := by
  rcases receiveOneBlock_state_or s with hh | hh
  · rw [hh, h]
  · exact hh

theorem drainResultQueue_fifoInv (n : Nat) : ∀ s : Sys, fifoInv s →
    fifoInv (drainResultQueue n s) := by
  induction n with
  | zero => intro s h; exact h
  | succ m ih =>
    intro s h
    simp only [drainResultQueue]
    split
    · rename_i s1 heq
      have hh := receiveOneBlock_fifoInv s h
      rw [heq] at hh
      exact hh
    · rename_i s1 heq
      apply ih
      have hh := receiveOneBlock_fifoInv s h
      rw [heq] at hh
      exact hh

theorem drainWhileHeadPending_fifoInv (frontId n : Nat) : ∀ s : Sys, fifoInv s →
    fifoInv (drainWhileHeadPending frontId n s) := by
  induction n with
  | zero => intro s h; exact h
  | succ m ih =>
    intro s h
    simp only [drainWhileHeadPending]
    split
    · exact h
    · split
      · split
        · rename_i s1 heq
          have hh := receiveOneBlock_fifoInv s h
          rw [heq] at hh
          exact hh
        · rename_i s1 heq
          apply ih
          have hh := receiveOneBlock_fifoInv s h
          rw [heq] at hh
          exact hh
      · exact h

theorem drainWhileHeadPending_streaming (frontId n : Nat) : ∀ s : Sys,
    s.stream.state = StreamState.openStreaming →
    (drainWhileHeadPending frontId n s).stream.state = StreamState.openStreaming := by
  induction n with
  | zero => intro s h; exact h
  | succ m ih =>
    intro s h
    simp only [drainWhileHeadPending]
    split
    · exact h
    · split
      · split
        · rename_i s1 heq
          have hh := receiveOneBlock_streaming s h
          rw [heq] at hh
          exact hh
        · rename_i s1 heq
          apply ih
          have hh := receiveOneBlock_streaming s h
          rw [heq] at hh
          exact hh
      · exact h

theorem drainWhileHeadPending_prefetch (frontId n : Nat) : ∀ s : Sys,
    (drainWhileHeadPending frontId n s).stream.prefetch = s.stream.prefetch := by
  induction n with
  | zero => intro s; rfl
  | succ m ih =>
    intro s
    simp only [drainWhileHeadPending]
    split
    · rfl
    · split
      · split
        · rename_i s1 heq
          have hh := receiveOneBlock_prefetch s
          rw [heq] at hh
          exact hh
        · rename_i s1 heq
          rw [ih]
          have hh := receiveOneBlock_prefetch s
          rw [heq] at hh
          exact hh
      · rfl

theorem getNode_serveBlock_ne (s : Sys) (i j : Nat) (h : j ≠ i) :
    getNode (serveBlock s i) j = getNode s j := by
  simp only [serveBlock]
  split
  · rfl
  · exact getNode_setNode_ne _ _ _ _ h

theorem getNode_sendBlock_ne (s : Sys) (i j : Nat) (h : j ≠ i) :
    getNode (sendBlockRequestToServer s i) j = getNode s j := by
  simp only [sendBlockRequestToServer]
  split
  · exact getNode_serveBlock_ne _ _ _ h
  · rfl

theorem getNode_initLink_ne (s : Sys) (i j : Nat) (h : j ≠ i) :
    getNode (initLinkAndSendSequentialBlockRequest s i) j = getNode s j := by
  show getNode (sendBlockRequestToServer
    { setNode s i (initAcquire (tailPos s + s.blockBytes)) with
        stream := { s.stream with prefetch := s.stream.prefetch ++ [i] } } i) j = getNode s j
  rw [getNode_sendBlock_ne _ _ _ h]
  exact getNode_setNode_ne _ _ _ _ h

/-- Popping a non-live front off a non-degenerate FIFO keeps the C4
invariant. -/
theorem popFront_fifoInv (s : Sys) (h : fifoInv s) (frontId : Nat) (tl : List Nat)
    (hpf : s.stream.prefetch = frontId :: tl)
    (hfront : pendingLive (getNode s frontId) = false)
    (htl : tl ≠ []) :
    fifoInv (popFront s) := by
  obtain ⟨h1, h2, h3, h4, h5, h6, h7⟩ := h
  have hpt : (popFront s).stream.prefetch = tl := by
    show s.stream.prefetch.tail = tl
    rw [hpf]
    rfl
  refine ⟨?_, ?_, h3, ?_, h5, h6, ?_⟩
  · intro hst
    obtain ⟨hp, _, _⟩ := h1 hst
    rw [hpf] at hp
    cases hp
  · intro _
    rw [hpt]
    exact htl
  · rw [hpt]
    intro j hj hl
    have hl2 : pendingLive (getNode s j) = true := hl
    have hmem : j ∈ frontId :: tl := by
      rw [← hpf]
      exact h4 j hj hl2
    rcases List.mem_cons.mp hmem with hh | hh
    · subst hh
      rw [hfront] at hl2
      cases hl2
    · exact hh
  · intro j hj
    rw [hpt] at hj
    exact h7 j (by rw [hpf]; exact List.mem_cons_of_mem _ hj)

theorem copyBlockData_state (r : FileIoRequest) (m : Nat) :
    (copyBlockData r m).2.1.state = r.state := rfl

/-- One block-boundary step of the streaming loop (link a fresh sequential
request, pop and release the consumed front, receive one reply) preserves
the C4 invariant and keeps the stream in `OPEN_STREAMING`. -/
theorem readLoop_step_fifoInv (s2 : Sys) (frontId : Nat) (rest : List Nat)
    (front2 : FileIoRequest)
    (h2 : fifoInv s2) (hst2 : s2.stream.state = StreamState.openStreaming)
    (hpf2 : s2.stream.prefetch = frontId :: rest)
    (hg2 : getNode s2 frontId = some front2)
    (hf2 : front2.state = BlockState.ready) :
    fifoInv (receiveOneBlock (flushBlock (popFront
      (initLinkAndSendSequentialBlockRequest
        { s2 with freeNodes := s2.freeNodes - 1, nextId := s2.nextId + 1 } s2.nextId))
      frontId)).2 ∧
    (receiveOneBlock (flushBlock (popFront
      (initLinkAndSendSequentialBlockRequest
        { s2 with freeNodes := s2.freeNodes - 1, nextId := s2.nextId + 1 } s2.nextId))
      frontId)).2.stream.state = StreamState.openStreaming := by
  obtain ⟨g1, g2, g3, g4, g5, g6, g7⟩ := h2
  have hfrlt : frontId < s2.nextId :=
    g7 frontId (by rw [hpf2]; exact List.mem_cons_self _ _)
  have hfrne : frontId ≠ s2.nextId := Nat.ne_of_lt hfrlt
  have pack : invPack { s2 with freeNodes := s2.freeNodes - 1, nextId := s2.nextId + 1 }
      ({ s2 with freeNodes := s2.freeNodes - 1, nextId := s2.nextId + 1 }).stream.prefetch
      s2.nextId := ⟨g3, g4, g5, g6⟩
  have packed4 := initLink_inv { s2 with freeNodes := s2.freeNodes - 1, nextId := s2.nextId + 1 }
    s2.nextId pack
  have hpf4 : (initLinkAndSendSequentialBlockRequest
      { s2 with freeNodes := s2.freeNodes - 1, nextId := s2.nextId + 1 } s2.nextId).stream.prefetch
      = frontId :: (rest ++ [s2.nextId]) := by
    rw [(initLink_effect _ _).2.1]
    show s2.stream.prefetch ++ [s2.nextId] = _
    rw [hpf2]
    rfl
  have hst4 : (initLinkAndSendSequentialBlockRequest
      { s2 with freeNodes := s2.freeNodes - 1, nextId := s2.nextId + 1 } s2.nextId).stream.state
      = StreamState.openStreaming := by
    rw [(initLink_effect _ _).2.2.2.2.2.1]
    exact hst2
  have hnext4 : (initLinkAndSendSequentialBlockRequest
      { s2 with freeNodes := s2.freeNodes - 1, nextId := s2.nextId + 1 } s2.nextId).nextId
      = s2.nextId + 1 := by
    rw [(initLink_effect _ _).2.2.2.1]
  have hinv4 : fifoInv (initLinkAndSendSequentialBlockRequest
      { s2 with freeNodes := s2.freeNodes - 1, nextId := s2.nextId + 1 } s2.nextId) := by
    refine ⟨?_, ?_, packed4.1, ?_, packed4.2.2.1, ?_, ?_⟩
    · intro hcon
      rcases hcon with hh | hh <;> (rw [hst4] at hh; cases hh)
    · intro _
      rw [hpf4]
      simp
    · rw [(initLink_effect _ _).2.1]
      exact packed4.2.1
    · intro j hj
      rw [hnext4]
      exact packed4.2.2.2 j hj
    · intro j hj
      rw [hpf4] at hj
      rw [hnext4]
      rcases List.mem_cons.mp hj with hh | hh
      · rw [hh]
        exact Nat.lt_succ_of_lt hfrlt
      · rcases List.mem_append.mp hh with hh2 | hh2
        · exact Nat.lt_succ_of_lt
            (g7 j (by rw [hpf2]; exact List.mem_cons_of_mem _ hh2))
        · have hji : j = s2.nextId := by simpa using hh2
          rw [hji]
          exact Nat.lt_succ_self _
  have hg4 : getNode (initLinkAndSendSequentialBlockRequest
      { s2 with freeNodes := s2.freeNodes - 1, nextId := s2.nextId + 1 } s2.nextId) frontId
      = some front2 := by
    rw [getNode_initLink_ne _ _ _ hfrne]
    exact hg2
  have hlive4 : pendingLive (getNode (initLinkAndSendSequentialBlockRequest
      { s2 with freeNodes := s2.freeNodes - 1, nextId := s2.nextId + 1 } s2.nextId) frontId)
      = false := by
    rw [hg4]
    simp [pendingLive, hf2]
  have hinv5 := popFront_fifoInv _ hinv4 frontId (rest ++ [s2.nextId]) hpf4 hlive4 (by simp)
  have hg5 : getNode (popFront (initLinkAndSendSequentialBlockRequest
      { s2 with freeNodes := s2.freeNodes - 1, nextId := s2.nextId + 1 } s2.nextId)) frontId
      = some front2 := hg4
  have hfb : flushBlock (popFront (initLinkAndSendSequentialBlockRequest
      { s2 with freeNodes := s2.freeNodes - 1, nextId := s2.nextId + 1 } s2.nextId)) frontId
      = releaseNode (popFront (initLinkAndSendSequentialBlockRequest
        { s2 with freeNodes := s2.freeNodes - 1, nextId := s2.nextId + 1 } s2.nextId)) frontId := by
    simp only [flushBlock, hg5, hf2]
  have hinv6 : fifoInv (flushBlock (popFront (initLinkAndSendSequentialBlockRequest
      { s2 with freeNodes := s2.freeNodes - 1, nextId := s2.nextId + 1 } s2.nextId)) frontId) := by
    rw [hfb]
    exact releaseNode_fifoInv _ _ hinv5
  have hst6 : (flushBlock (popFront (initLinkAndSendSequentialBlockRequest
      { s2 with freeNodes := s2.freeNodes - 1, nextId := s2.nextId + 1 } s2.nextId))
      frontId).stream.state = StreamState.openStreaming := by
    rw [hfb, releaseNode_stream]
    exact hst4
  exact ⟨receiveOneBlock_fifoInv _ hinv6, receiveOneBlock_streaming _ hst6⟩

/-- The streaming loop preserves the C4 invariant. -/
theorem readLoop_fifoInv (itemSize itemCount fuel : Nat) :
    ∀ (soFar : Nat) (acc : List Nat) (s : Sys), fifoInv s →
    s.stream.state = StreamState.openStreaming →
    fifoInv (readLoop itemSize itemCount fuel soFar acc s).2.2 := by
  induction fuel with
  | zero => intro _ _ s h _; exact h
  | succ n ih =>
    intro soFar acc s h hst
    rcases hpf : s.stream.prefetch with _ | ⟨frontId, rest⟩
    · simp only [readLoop, hpf]
      split <;> exact h
    · simp only [readLoop, hpf]
      split
      · have h1 : fifoInv (drainWhileHeadPending frontId s.resultQ.length s) :=
          drainWhileHeadPending_fifoInv frontId s.resultQ.length s h
        have hst1 : (drainWhileHeadPending frontId s.resultQ.length s).stream.state
            = StreamState.openStreaming :=
          drainWhileHeadPending_streaming frontId s.resultQ.length s hst
        have hpf1 : (drainWhileHeadPending frontId s.resultQ.length s).stream.prefetch
            = frontId :: rest := by
          rw [drainWhileHeadPending_prefetch]
          exact hpf
        split
        · exact h1
        · rename_i front heqfront
          split
          · rename_i hready
            have hf2state : (copyBlockData front (itemSize * itemCount - soFar)).2.1.state
                = BlockState.ready := by
              rw [copyBlockData_state]
              exact hready
            have h2 : fifoInv (setNode (drainWhileHeadPending frontId s.resultQ.length s)
                frontId (copyBlockData front (itemSize * itemCount - soFar)).2.1) :=
              setNode_nonpending_fifoInv (drainWhileHeadPending frontId s.resultQ.length s)
                _ frontId front _ h1 heqfront
                (by intro hpd; rw [hready] at hpd; cases hpd)
                (by intro hpd; rw [hf2state] at hpd; cases hpd)
                rfl rfl rfl rfl rfl
            have hst2 : (setNode (drainWhileHeadPending frontId s.resultQ.length s)
                frontId (copyBlockData front (itemSize * itemCount - soFar)).2.1).stream.state
                = StreamState.openStreaming := hst1
            have hpf2 : (setNode (drainWhileHeadPending frontId s.resultQ.length s)
                frontId (copyBlockData front (itemSize * itemCount - soFar)).2.1).stream.prefetch
                = frontId :: rest := hpf1
            split
            · -- AT_BLOCK_END: refill
              split
              · exact setStreamState_error_fifoInv _ h2
              · rename_i i s3 heqalloc
                simp only [allocReq] at heqalloc
                split at heqalloc
                · cases heqalloc
                · cases heqalloc
                  have hstep := readLoop_step_fifoInv
                    (setNode (drainWhileHeadPending frontId s.resultQ.length s) frontId
                      (copyBlockData front (itemSize * itemCount - soFar)).2.1)
                    frontId rest _ h2 hst2 hpf2 (getNode_setNode _ _ _) hf2state
                  exact ih _ _ _ hstep.1 hstep.2
            · -- AT_FINAL_BLOCK_END: OPEN_EOF
              refine setStreamState_nonempty_fifoInv _ _ h2 (by decide) (by decide) ?_
              rw [hpf2]
              simp
            · -- CAN_CONTINUE
              exact ih _ _ _ h2 hst2
          · split
            · exact setStreamState_error_fifoInv _ h1
            · refine setStreamState_nonempty_fifoInv _ _ h1 (by decide) (by decide) ?_
              rw [hpf1]
              simp
      · exact h

/-- Serving a pending request (whose id is no longer in any travelling set)
preserves the C4 invariant. -/
theorem serveBlock_fifoInv (s : Sys) (i : Nat) (r : FileIoRequest)
    (h : fifoInv s) (hg : getNode s i = some r) (hrp : r.state = BlockState.pending)
    (hni : i ∉ outstanding s)
    (hnotopen : ¬ (s.stream.state = StreamState.opening ∨
      s.stream.state = StreamState.openIdle))
    (hib : i < s.nextId) :
    fifoInv (serveBlock s i) := by
  obtain ⟨h1, h2, h3, h4, h5, h6, h7⟩ := h
  rw [serveBlock_shape s i r hg]
  have hbc := handleReadBlockRequest_bytesCopied s.blockBytes
    (pureOutcome s.file s.blockBytes r.filePosition) r
  have hbs := handleReadBlockRequest_state_eq s.blockBytes
    (pureOutcome s.file s.blockBytes r.filePosition) r
  have hget : ∀ j, getNode { setNode s i
      (handleReadBlockRequest s.blockBytes (pureOutcome s.file s.blockBytes r.filePosition) r).1
      with resultQ := s.resultQ ++ [RQItem.blockReply i] } j =
      if i = j then
        some (handleReadBlockRequest s.blockBytes
          (pureOutcome s.file s.blockBytes r.filePosition) r).1
      else getNode s j := fun j => by
    simp [getNode, setNode, assocFind]
  have hosplit : ∀ j, j ∈ blockIds (s.resultQ ++ [RQItem.blockReply i]) ++ s.inFlight →
      j = i ∨ j ∈ outstanding s := by
    intro j hj
    rw [blockIds_append] at hj
    rw [show blockIds [RQItem.blockReply i] = [i] from rfl] at hj
    rcases List.mem_append.mp hj with hh | hh
    · rcases List.mem_append.mp hh with hh2 | hh2
      · exact Or.inr (List.mem_append_left _ hh2)
      · exact Or.inl (by simpa using hh2)
    · exact Or.inr (List.mem_append_right _ hh)
  have hperm : List.Perm (blockIds (s.resultQ ++ [RQItem.blockReply i]) ++ s.inFlight)
      (i :: outstanding s) := by
    rw [blockIds_append]
    rw [show blockIds [RQItem.blockReply i] = [i] from rfl, List.append_assoc]
    exact List.perm_middle
  refine ⟨?_, ?_, ?_, ?_, ?_, ?_, h7⟩
  · intro hst
    exact absurd hst hnotopen
  · intro hst
    exact h2 hst
  · intro j hj
    have hj2 : j ∈ blockIds (s.resultQ ++ [RQItem.blockReply i]) ++ s.inFlight := hj
    rw [hget j]
    by_cases hji : i = j
    · rw [if_pos hji]
      simp [hbs, hrp]
    · rw [if_neg hji]
      rcases hosplit j hj2 with hh | hh
      · exact absurd hh fun he => hji he.symm
      · exact h3 j hh
  · show pendingInList
      { setNode s i
          (handleReadBlockRequest s.blockBytes (pureOutcome s.file s.blockBytes r.filePosition) r).1
        with resultQ := s.resultQ ++ [RQItem.blockReply i] } s.stream.prefetch
    refine pendingInList_mark s _ i
      (handleReadBlockRequest s.blockBytes (pureOutcome s.file s.blockBytes r.filePosition) r).1
      s.stream.prefetch s.stream.prefetch h4 rfl (fun j hj _ => hj) ?_
    intro hlv
    rw [pendingLive_some_iff] at hlv
    have hdd : isDiscarded
        (handleReadBlockRequest s.blockBytes
          (pureOutcome s.file s.blockBytes r.filePosition) r).1 = isDiscarded r := by
      simp [isDiscarded, hbc]
    rw [hdd] at hlv
    exact h4 i (getNode_mem_fst s i r hg)
      (by rw [hg]; exact (pendingLive_some_iff r).mpr ⟨hrp, hlv.2⟩)
  · show (blockIds (s.resultQ ++ [RQItem.blockReply i]) ++ s.inFlight).Nodup
    exact hperm.nodup_iff.mpr (List.nodup_cons.mpr ⟨hni, h5⟩)
  · intro j hj
    have hj2 : j ∈ blockIds (s.resultQ ++ [RQItem.blockReply i]) ++ s.inFlight := hj
    rcases hosplit j hj2 with hh | hh
    · rw [hh]
      exact hib
    · exact h6 j hh

theorem serverStepOpen_fifoInv (stat : Nat) (s : Sys) (h : fifoInv s) :
    fifoInv (serverStepOpen stat s) := by
  obtain ⟨h1, h2, h3, h4, h5, h6, h7⟩ := h
  simp only [serverStepOpen]
  split
  · have hb1 : blockIds [RQItem.openReply stat] = [] := rfl
    refine ⟨?_, h2, ?_, h4, ?_, ?_, h7⟩
    · intro hst
      obtain ⟨hpp, hbb, hff⟩ := h1 hst
      refine ⟨hpp, ?_, hff⟩
      show blockIds (s.resultQ ++ [RQItem.openReply stat]) = []
      rw [blockIds_append, hbb, hb1]
      rfl
    · intro j hj
      have hj2 : j ∈ blockIds (s.resultQ ++ [RQItem.openReply stat]) ++ s.inFlight := hj
      rw [blockIds_append, hb1, List.append_nil] at hj2
      exact h3 j hj2
    · show (blockIds (s.resultQ ++ [RQItem.openReply stat]) ++ s.inFlight).Nodup
      rw [blockIds_append, hb1, List.append_nil]
      exact h5
    · intro j hj
      have hj2 : j ∈ blockIds (s.resultQ ++ [RQItem.openReply stat]) ++ s.inFlight := hj
      rw [blockIds_append, hb1, List.append_nil] at hj2
      exact h6 j hj2
  · exact ⟨h1, h2, h3, h4, h5, h6, h7⟩

theorem serverStepBlock_fifoInv (s : Sys) (h : fifoInv s) :
    fifoInv (serverStepBlock s) := by
  obtain ⟨h1, h2, h3, h4, h5, h6, h7⟩ := h
  rcases hf : s.inFlight with _ | ⟨i, restF⟩
  · simp only [serverStepBlock, hf]
    exact ⟨h1, h2, h3, h4, h5, h6, h7⟩
  · simp only [serverStepBlock, hf]
    have houts : outstanding s = blockIds s.resultQ ++ (i :: restF) := by
      simp only [outstanding]
      rw [hf]
    have himem : i ∈ outstanding s := by
      rw [houts]
      exact List.mem_append_right _ (List.mem_cons_self _ _)
    have hnodup2 : (i :: (blockIds s.resultQ ++ restF)).Nodup := by
      rw [houts] at h5
      exact List.perm_middle.nodup_iff.mp h5
    have hnotopen : ¬ (s.stream.state = StreamState.opening ∨
        s.stream.state = StreamState.openIdle) := by
      intro hst
      obtain ⟨_, _, hff⟩ := h1 hst
      rw [hf] at hff
      cases hff
    rcases hgo : getNode s i with _ | r
    · exfalso
      have hh := h3 i himem
      rw [hgo] at hh
      simp at hh
    · have hrp : r.state = BlockState.pending := by
        have hh := h3 i himem
        rw [hgo] at hh
        simpa using hh
      have hS' : fifoInv { s with inFlight := restF } := by
        refine fifoInv_shrink s _ ⟨h1, h2, h3, h4, h5, h6, h7⟩ rfl rfl rfl ?_
        show (blockIds s.resultQ ++ restF).Sublist (outstanding s)
        rw [houts]
        exact List.Sublist.append_left (List.sublist_cons_self i restF) _
      refine serveBlock_fifoInv { s with inFlight := restF } i r hS' hgo hrp ?_ ?_ ?_
      · intro hm
        have hm2 : i ∈ blockIds s.resultQ ++ restF := hm
        exact (List.nodup_cons.mp hnodup2).1 hm2
      · exact hnotopen
      · exact h6 i himem

theorem serverStepN_fifoInv (n : Nat) : ∀ s : Sys, fifoInv s → fifoInv (serverStepN n s) := by
  induction n with
  | zero => intro s h; exact h
  | succ m ih =>
    intro s h
    exact ih _ (serverStepBlock_fifoInv s h)

theorem mkSys_fifoInv (blockBytes capacity : Nat) (file : List Nat) (inst : Bool) :
    fifoInv (mkSys blockBytes file capacity inst) := by
  refine ⟨?_, ?_, ?_, ?_, ?_, ?_, ?_⟩
  · intro _
    exact ⟨rfl, rfl, rfl⟩
  · intro hst
    rcases hst with hh | hh | hh <;> simp [mkSys] at hh
  · intro j hj
    exact absurd hj (List.not_mem_nil j)
  · intro j hj _
    exact absurd hj (List.not_mem_nil j)
  · exact List.nodup_nil
  · intro j hj
    exact absurd hj (List.not_mem_nil j)
  · intro j hj
    exact absurd hj (List.not_mem_nil j)

theorem read_or_write_fifoInv (s : Sys) (itemSize itemCount : Nat) (h : fifoInv s) :
    fifoInv (read_or_write s itemSize itemCount).2.2 := by
  have hp := pollState_fifoInv s h
  simp only [read_or_write]
  split
  · exact hp
  · exact hp
  · exact hp
  · exact hp
  · split
    · rename_i hstr
      exact readLoop_fifoInv _ _ _ _ _ _ (drainResultQueue_fifoInv _ _ hp) hstr
    · exact drainResultQueue_fifoInv _ _ hp
  · rename_i hstr
    exact readLoop_fifoInv _ _ _ _ _ _ hp hstr

/-- Claim C4 (amended): the original claim is refuted by
`c4_error_state_with_nonempty_fifo` (a reachable `ERROR` state whose
prefetch FIFO is non-empty) and its `OPEN_EOF` clause is likewise wrong
(`OPEN_EOF` is entered at `AT_FINAL_BLOCK_END` with the FIFO still
populated).  The invariant that actually holds over all reachable states —
established here at the initial system and preserved by `seek`,
`poll_state`, `read`, and both server steps — is `fifoInv`: the FIFO is
empty in `OPENING` and `OPEN_IDLE` (where no `READ_BLOCK` travels at all),
non-empty in `OPEN_BUFFERING`, `OPEN_STREAMING` and `OPEN_EOF`, and
unconstrained in `ERROR`. -/
theorem c4_fifo_state_invariant (s : Sys) (h : fifoInv s)
    (pos itemSize itemCount n stat blockBytes capacity : Nat)
    (file : List Nat) (inst : Bool) :
    fifoInv (mkSys blockBytes file capacity inst) ∧
    fifoInv (seek s pos).2 ∧
    fifoInv (pollState s).2 ∧
    fifoInv (read_or_write s itemSize itemCount).2.2 ∧
    fifoInv (serverStepOpen stat s) ∧
    fifoInv (serverStepN n s) :=
  ⟨mkSys_fifoInv blockBytes capacity file inst, seek_fifoInv s pos h,
   pollState_fifoInv s h, read_or_write_fifoInv s itemSize itemCount h,
   serverStepOpen_fifoInv stat s h, serverStepN_fifoInv n s h⟩

/-- Claim C4 witness: the invariant holds at a freshly opened idle stream
and is carried through a seek, a poll, a read and a server step. -/
theorem c4_fifo_state_invariant_witness :
    fifoInv (mkSys 4 traceFile 10 false) ∧
    fifoInv (seek (openedIdle 4 traceFile 10 false) 5).2 ∧
    fifoInv (pollState (openedIdle 4 traceFile 10 false)).2 ∧
    fifoInv (read_or_write (openedIdle 4 traceFile 10 false) 1 1).2.2 ∧
    fifoInv (serverStepOpen 0 (openedIdle 4 traceFile 10 false)) ∧
    fifoInv (serverStepN 1 (openedIdle 4 traceFile 10 false)) :=
  c4_fifo_state_invariant (openedIdle 4 traceFile 10 false)
    (by simp only [fifoInv, queuedPending, pendingInList, prefetchIdsBound]; decide)
    5 1 1 1 0 4 10 traceFile false


/-! ### Claim C8: consecutive file positions along the prefetch FIFO -/

theorem chain_congr_mem {α : Type} {R S : α → α → Prop} :
    ∀ l : List α, (∀ a ∈ l, ∀ b ∈ l, R a b → S a b) → List.Chain' R l → List.Chain' S l := by
  intro l
  induction l with
  | nil => intro _ _; exact List.chain'_nil
  | cons a t ih =>
    rcases t with _ | ⟨b, t2⟩
    · intro _ _
      exact List.chain'_singleton _
    · intro hcong hch
      rw [List.chain'_cons] at hch ⊢
      refine ⟨hcong a (by simp) b (by simp) hch.1, ?_⟩
      exact ih (fun x hx y hy => hcong x (List.mem_cons_of_mem _ hx)
        y (List.mem_cons_of_mem _ hy)) hch.2

/-- The consecutive-positions chain transfers to any state with the same
FIFO, block size, and node positions along the FIFO. -/
theorem consecutive_transfer (s t : Sys) (h : consecutivePrefetch s)
    (hpf : t.stream.prefetch = s.stream.prefetch)
    (hbb : t.blockBytes = s.blockBytes)
    (hpos : ∀ j ∈ s.stream.prefetch, posOf t j = posOf s j) :
    consecutivePrefetch t := by
  simp only [consecutivePrefetch, hpf, hbb]
  exact chain_congr_mem _ (fun a ha b hb hr => by rw [hpos a ha, hpos b hb]; exact hr) h

/-- Appending a node whose position directly follows the FIFO tail keeps
the chain. -/
theorem chain_snoc (s t : Sys) (i : Nat)
    (hpf : t.stream.prefetch = s.stream.prefetch ++ [i])
    (hbb : t.blockBytes = s.blockBytes)
    (hpos : ∀ j ∈ s.stream.prefetch, posOf t j = posOf s j)
    (hposi : posOf t i = tailPos s + s.blockBytes)
    (hch : consecutivePrefetch s) :
    consecutivePrefetch t := by
  simp only [consecutivePrefetch, hpf, hbb]
  rw [List.chain'_append]
  refine ⟨?_, List.chain'_singleton _, ?_⟩
  · exact chain_congr_mem _ (fun a ha b hb hr => by rw [hpos a ha, hpos b hb]; exact hr) hch
  · intro x hx y hy
    have hy2 : i = y := by simpa using hy
    subst hy2
    have hx2 : s.stream.prefetch.getLast? = some x := hx
    have htp : tailPos s = posOf s x := by
      simp only [tailPos]
      rw [hx2]
    obtain ⟨hne, hxe⟩ := List.mem_getLast?_eq_getLast hx
    rw [hposi, htp, hpos x (by rw [hxe]; exact List.getLast_mem hne)]

theorem posOf_setNode_self (s : Sys) (i : Nat) (r : FileIoRequest) :
    posOf (setNode s i r) i = r.filePosition := by
  simp [posOf, getNode_setNode]

theorem posOf_setNode_ne (s : Sys) (i j : Nat) (r : FileIoRequest) (h : j ≠ i) :
    posOf (setNode s i r) j = posOf s j := by
  simp only [posOf]
  rw [getNode_setNode_ne s i j r h]

theorem posOf_congr_nodes (s t : Sys) (j : Nat) (h : t.nodes = s.nodes) :
    posOf t j = posOf s j := by
  simp only [posOf, getNode, h]

theorem posOf_initLink_ne (s : Sys) (i j : Nat) (h : j ≠ i) :
    posOf (initLinkAndSendSequentialBlockRequest s i) j = posOf s j := by
  simp only [posOf]
  rw [getNode_initLink_ne s i j h]

theorem posOf_initLink_self (s : Sys) (i : Nat) :
    posOf (initLinkAndSendSequentialBlockRequest s i) i = tailPos s + s.blockBytes := by
  show posOf (sendBlockRequestToServer
    { setNode s i (initAcquire (tailPos s + s.blockBytes)) with
        stream := { s.stream with prefetch := s.stream.prefetch ++ [i] } } i) i = _
  rw [(sendBlock_effect _ _).2.2.2.2.2.2.2.2.2 i]
  show posOf (setNode s i (initAcquire (tailPos s + s.blockBytes))) i = _
  rw [posOf_setNode_self]
  rfl

theorem releaseNode_blockBytes (s : Sys) (i : Nat) :
    (releaseNode s i).blockBytes = s.blockBytes := by
  simp only [releaseNode]
  split <;> rfl

/-- `receiveOneBlock` keeps the block size, the id counter and every
node's file position. -/
theorem receiveOneBlock_preserve (s : Sys) :
    (receiveOneBlock s).2.blockBytes = s.blockBytes ∧
    (receiveOneBlock s).2.nextId = s.nextId ∧
    ∀ j, posOf (receiveOneBlock s).2 j = posOf s j := by
  rcases hq : s.resultQ with _ | ⟨item, rest⟩
  · have hr : receiveOneBlock s = (false, s) := by
      simp only [receiveOneBlock, hq]
    rw [hr]
    exact ⟨rfl, rfl, fun _ => rfl⟩
  rcases item with stat | i
  · have hr : receiveOneBlock s =
        (true, { s with resultQ := rest, expected := s.expected - 1 }) := by
      simp only [receiveOneBlock, hq]
    rw [hr]
    exact ⟨rfl, rfl, fun j => posOf_congr_nodes _ _ j rfl⟩
  · simp only [receiveOneBlock, hq]
    split
    · exact ⟨rfl, rfl, fun _ => rfl⟩
    · rename_i r heq
      have hgs : getNode s i = some r := heq
      split
      · split
        · refine ⟨(releaseNode_blockBytes _ _).trans rfl,
            (releaseNode_effect _ _).2.2.2.2.trans rfl, fun j => ?_⟩
          have hn : (releaseNode { s with resultQ := rest, expected := s.expected - 1 } i).nodes
              = s.nodes := (releaseNode_effect _ _).2.1.trans rfl
          exact posOf_congr_nodes _ _ j hn
        · exact ⟨rfl, rfl, fun j => rfl⟩
      · split
        · refine ⟨rfl, rfl, fun j => ?_⟩
          by_cases hji : j = i
          · subst hji
            rw [posOf_setNode_self]
            simp only [posOf]
            rw [hgs]
            rfl
          · rw [posOf_setNode_ne _ _ _ _ hji]
            exact posOf_congr_nodes _ _ j rfl
        · refine ⟨rfl, rfl, fun j => ?_⟩
          by_cases hji : j = i
          · subst hji
            rw [posOf_setNode_self]
            simp only [posOf]
            rw [hgs]
            rfl
          · rw [posOf_setNode_ne _ _ _ _ hji]
            exact posOf_congr_nodes _ _ j rfl

theorem drainResultQueue_preserve (n : Nat) : ∀ s : Sys,
    (drainResultQueue n s).stream.prefetch = s.stream.prefetch ∧
    (drainResultQueue n s).blockBytes = s.blockBytes ∧
    (drainResultQueue n s).nextId = s.nextId ∧
    ∀ j, posOf (drainResultQueue n s) j = posOf s j := by
  induction n with
  | zero => intro s; exact ⟨rfl, rfl, rfl, fun _ => rfl⟩
  | succ m ih =>
    intro s
    have hr := receiveOneBlock_prefetch s
    have hp := receiveOneBlock_preserve s
    simp only [drainResultQueue]
    split
    · rename_i s1 heq
      rw [heq] at hr hp
      exact ⟨hr, hp.1, hp.2.1, hp.2.2⟩
    · rename_i s1 heq
      rw [heq] at hr hp
      obtain ⟨e1, e2, e3, e4⟩ := ih s1
      exact ⟨e1.trans hr, e2.trans hp.1, e3.trans hp.2.1,
        fun j => (e4 j).trans (hp.2.2 j)⟩

theorem drainWhileHeadPending_preserve (frontId n : Nat) : ∀ s : Sys,
    (drainWhileHeadPending frontId n s).blockBytes = s.blockBytes ∧
    (drainWhileHeadPending frontId n s).nextId = s.nextId ∧
    ∀ j, posOf (drainWhileHeadPending frontId n s) j = posOf s j := by
  induction n with
  | zero => intro s; exact ⟨rfl, rfl, fun _ => rfl⟩
  | succ m ih =>
    intro s
    have hp := receiveOneBlock_preserve s
    simp only [drainWhileHeadPending]
    split
    · exact ⟨rfl, rfl, fun _ => rfl⟩
    · split
      · split
        · rename_i s1 heq
          rw [heq] at hp
          exact ⟨hp.1, hp.2.1, hp.2.2⟩
        · rename_i s1 heq
          rw [heq] at hp
          obtain ⟨e2, e3, e4⟩ := ih s1
          exact ⟨e2.trans hp.1, e3.trans hp.2.1, fun j => (e4 j).trans (hp.2.2 j)⟩
      · exact ⟨rfl, rfl, fun _ => rfl⟩

theorem pollState_preserve (s : Sys) :
    (pollState s).2.stream.prefetch = s.stream.prefetch ∧
    (pollState s).2.blockBytes = s.blockBytes ∧
    (pollState s).2.nextId = s.nextId ∧
    ∀ j, posOf (pollState s).2 j = posOf s j := by
  rcases hq : s.resultQ with _ | ⟨item, rest⟩
  · simp only [pollState, hq]
    split
    · split
      · exact ⟨rfl, rfl, rfl, fun _ => rfl⟩
      · have hr := receiveOneBlock_prefetch s
        have hp := receiveOneBlock_preserve s
        exact ⟨hr, hp.1, hp.2.1, hp.2.2⟩
    · exact ⟨rfl, rfl, rfl, fun _ => rfl⟩
  · rcases item with stat | i
    · simp only [pollState, hq]
      split
      · split
        · split
          · exact ⟨rfl, rfl, rfl, fun j => posOf_congr_nodes _ _ j rfl⟩
          · exact ⟨rfl, rfl, rfl, fun j => posOf_congr_nodes _ _ j rfl⟩
        · have hr := receiveOneBlock_prefetch s
          have hp := receiveOneBlock_preserve s
          exact ⟨hr, hp.1, hp.2.1, hp.2.2⟩
      · exact ⟨rfl, rfl, rfl, fun _ => rfl⟩
    · simp only [pollState, hq]
      split
      · split
        · exact ⟨rfl, rfl, rfl, fun j => posOf_congr_nodes _ _ j rfl⟩
        · have hr := receiveOneBlock_prefetch s
          have hp := receiveOneBlock_preserve s
          exact ⟨hr, hp.1, hp.2.1, hp.2.2⟩
      · exact ⟨rfl, rfl, rfl, fun _ => rfl⟩

theorem copyBlockData_filePosition (r : FileIoRequest) (m : Nat) :
    (copyBlockData r m).2.1.filePosition = r.filePosition := rfl

theorem flushLoop_light (n : Nat) : ∀ s : Sys, s.stream.prefetch.length = n →
    (flushLoop n s).stream.prefetch = [] ∧
    (flushLoop n s).blockBytes = s.blockBytes ∧
    (flushLoop n s).nextId = s.nextId := by
  induction n with
  | zero =>
    intro s hl
    exact ⟨List.length_eq_zero.mp hl, rfl, rfl⟩
  | succ m ih =>
    intro s hl
    rcases hpf : s.stream.prefetch with _ | ⟨i, rest⟩
    · rw [hpf] at hl
      simp at hl
    · have hlen : rest.length = m := by
        rw [hpf] at hl
        simpa using hl
      rw [flushLoop_cons m s i rest hpf]
      have hffb := flushBlock_effect { s with stream := { s.stream with prefetch := rest } } i
      obtain ⟨e1, e2, e3⟩ := ih (flushBlock { s with stream := { s.stream with prefetch := rest } } i)
        (by rw [hffb.2.2.2.2.2.2]; exact hlen)
      refine ⟨e1, e2.trans (hffb.2.2.1.trans rfl), e3.trans (hffb.2.1.trans rfl)⟩

/-- The `seek` prefetch loop keeps the chain: each round's fresh request
sits one block past the FIFO tail. -/
theorem seekLoop_chain (k : Nat) : ∀ s : Sys,
    consecutivePrefetch s → prefetchIdsBound s →
    consecutivePrefetch (seekLoop k s).2 ∧ prefetchIdsBound (seekLoop k s).2 := by
  induction k with
  | zero =>
    intro s hch hbd
    exact ⟨consecutive_transfer s _ hch rfl rfl (fun j _ => rfl), hbd⟩
  | succ m ih =>
    intro s hch hbd
    simp only [seekLoop]
    split
    · exact ⟨consecutive_transfer s _ hch rfl rfl (fun j _ => rfl), hbd⟩
    · rename_i i s1 heq
      simp only [allocReq] at heq
      split at heq
      · cases heq
      · cases heq
        apply ih
        · refine chain_snoc { s with freeNodes := s.freeNodes - 1, nextId := s.nextId + 1 }
            _ s.nextId ((initLink_effect _ _).2.1) ((initLink_effect _ _).2.2.2.2.1) ?_
            (posOf_initLink_self _ _) ?_
          · intro j hj
            exact posOf_initLink_ne _ _ _ (Nat.ne_of_lt (hbd j hj))
          · exact consecutive_transfer s _ hch rfl rfl (fun j _ => rfl)
        · intro j hj
          rw [(initLink_effect _ _).2.1] at hj
          rw [(initLink_effect _ _).2.2.2.1]
          rcases List.mem_append.mp hj with hh | hh
          · exact Nat.lt_succ_of_lt (hbd j hh)
          · have hji : j = s.nextId := by simpa using hh
            rw [hji]
            exact Nat.lt_succ_self _

/-- `seek` rebuilds the FIFO with consecutive block positions. -/
theorem seek_chain (s : Sys) (pos : Nat)
    (hch : consecutivePrefetch s) (hbd : prefetchIdsBound s) :
    consecutivePrefetch (seek s pos).2 ∧ prefetchIdsBound (seek s pos).2 := by
  simp only [seek]
  split
  · exact ⟨hch, hbd⟩
  · obtain ⟨f1, f2, f3⟩ := flushLoop_light s.stream.prefetch.length s rfl
    split
    · constructor
      · have f1e : (setStreamState (flushPrefetchQueue s) StreamState.error).stream.prefetch
            = [] := f1
        simp only [consecutivePrefetch]
        rw [f1e]
        exact List.chain'_nil
      · intro j hj
        have f1e : (setStreamState (flushPrefetchQueue s) StreamState.error).stream.prefetch
            = [] := f1
        rw [f1e] at hj
        simp at hj
    · rename_i i s2 heq
      simp only [allocReq] at heq
      split at heq
      · cases heq
      · cases heq
        apply seekLoop_chain
        · simp only [consecutivePrefetch]
          rw [(sendBlock_effect _ _).2.1]
          show List.Chain' _ [(flushPrefetchQueue s).nextId]
          exact List.chain'_singleton _
        · intro j hj
          rw [(sendBlock_effect _ _).2.1] at hj
          rw [(sendBlock_effect _ _).2.2.2.1]
          have hji : j = (flushPrefetchQueue s).nextId := by
            have hj2 : j ∈ [(flushPrefetchQueue s).nextId] := hj
            simpa using hj2
          rw [hji]
          exact Nat.lt_succ_self _

/-- One block-boundary step of the streaming loop keeps the chain and the
FIFO id bound. -/
theorem readLoop_step_chain (s2 : Sys) (frontId : Nat) (rest : List Nat)
    (front2 : FileIoRequest)
    (hch : consecutivePrefetch s2) (hbd : prefetchIdsBound s2)
    (hpf2 : s2.stream.prefetch = frontId :: rest)
    (hg2 : getNode s2 frontId = some front2)
    (hf2 : front2.state = BlockState.ready) :
    consecutivePrefetch (receiveOneBlock (flushBlock (popFront
      (initLinkAndSendSequentialBlockRequest
        { s2 with freeNodes := s2.freeNodes - 1, nextId := s2.nextId + 1 } s2.nextId))
      frontId)).2 ∧
    prefetchIdsBound (receiveOneBlock (flushBlock (popFront
      (initLinkAndSendSequentialBlockRequest
        { s2 with freeNodes := s2.freeNodes - 1, nextId := s2.nextId + 1 } s2.nextId))
      frontId)).2 := by
  have hfrlt : frontId < s2.nextId :=
    hbd frontId (by rw [hpf2]; exact List.mem_cons_self _ _)
  have hfrne : frontId ≠ s2.nextId := Nat.ne_of_lt hfrlt
  have hch4 : consecutivePrefetch (initLinkAndSendSequentialBlockRequest
      { s2 with freeNodes := s2.freeNodes - 1, nextId := s2.nextId + 1 } s2.nextId) := by
    refine chain_snoc { s2 with freeNodes := s2.freeNodes - 1, nextId := s2.nextId + 1 }
      _ s2.nextId ((initLink_effect _ _).2.1) ((initLink_effect _ _).2.2.2.2.1) ?_
      (posOf_initLink_self _ _) ?_
    · intro j hj
      exact posOf_initLink_ne _ _ _ (Nat.ne_of_lt (hbd j hj))
    · exact consecutive_transfer s2 _ hch rfl rfl (fun j _ => rfl)
  have hpf4 : (initLinkAndSendSequentialBlockRequest
      { s2 with freeNodes := s2.freeNodes - 1, nextId := s2.nextId + 1 } s2.nextId).stream.prefetch
      = frontId :: (rest ++ [s2.nextId]) := by
    rw [(initLink_effect _ _).2.1]
    show s2.stream.prefetch ++ [s2.nextId] = _
    rw [hpf2]
    rfl
  have hbd4 : prefetchIdsBound (initLinkAndSendSequentialBlockRequest
      { s2 with freeNodes := s2.freeNodes - 1, nextId := s2.nextId + 1 } s2.nextId) := by
    intro j hj
    rw [(initLink_effect _ _).2.1] at hj
    rw [(initLink_effect _ _).2.2.2.1]
    rcases List.mem_append.mp hj with hh | hh
    · exact Nat.lt_succ_of_lt (hbd j hh)
    · have hji : j = s2.nextId := by simpa using hh
      rw [hji]
      exact Nat.lt_succ_self _
  have hch5 : consecutivePrefetch (popFront (initLinkAndSendSequentialBlockRequest
      { s2 with freeNodes := s2.freeNodes - 1, nextId := s2.nextId + 1 } s2.nextId)) := by
    simp only [consecutivePrefetch] at hch4 ⊢
    exact hch4.tail
  have hbd5 : prefetchIdsBound (popFront (initLinkAndSendSequentialBlockRequest
      { s2 with freeNodes := s2.freeNodes - 1, nextId := s2.nextId + 1 } s2.nextId)) := by
    intro j hj
    exact hbd4 j (List.mem_of_mem_tail hj)
  have hg5 : getNode (popFront (initLinkAndSendSequentialBlockRequest
      { s2 with freeNodes := s2.freeNodes - 1, nextId := s2.nextId + 1 } s2.nextId)) frontId
      = some front2 := by
    show getNode (initLinkAndSendSequentialBlockRequest
      { s2 with freeNodes := s2.freeNodes - 1, nextId := s2.nextId + 1 } s2.nextId) frontId
      = some front2
    rw [getNode_initLink_ne _ _ _ hfrne]
    exact hg2
  have hfb : flushBlock (popFront (initLinkAndSendSequentialBlockRequest
      { s2 with freeNodes := s2.freeNodes - 1, nextId := s2.nextId + 1 } s2.nextId)) frontId
      = releaseNode (popFront (initLinkAndSendSequentialBlockRequest
        { s2 with freeNodes := s2.freeNodes - 1, nextId := s2.nextId + 1 } s2.nextId)) frontId := by
    simp only [flushBlock, hg5, hf2]
  have hch6 : consecutivePrefetch (flushBlock (popFront (initLinkAndSendSequentialBlockRequest
      { s2 with freeNodes := s2.freeNodes - 1, nextId := s2.nextId + 1 } s2.nextId)) frontId) := by
    rw [hfb]
    refine consecutive_transfer _ _ hch5 (congrArg StreamSt.prefetch (releaseNode_effect _ _).1)
      (releaseNode_blockBytes _ _) ?_
    intro j _
    exact posOf_congr_nodes _ _ j (releaseNode_effect _ _).2.1
  have hbd6 : prefetchIdsBound (flushBlock (popFront (initLinkAndSendSequentialBlockRequest
      { s2 with freeNodes := s2.freeNodes - 1, nextId := s2.nextId + 1 } s2.nextId)) frontId) := by
    intro j hj
    rw [hfb] at hj ⊢
    rw [congrArg StreamSt.prefetch (releaseNode_effect _ _).1] at hj
    rw [(releaseNode_effect _ _).2.2.2.2]
    exact hbd5 j hj
  constructor
  · refine consecutive_transfer _ _ hch6 (receiveOneBlock_prefetch _)
      (receiveOneBlock_preserve _).1 ?_
    intro j _
    exact (receiveOneBlock_preserve _).2.2 j
  · intro j hj
    rw [receiveOneBlock_prefetch] at hj
    rw [(receiveOneBlock_preserve _).2.1]
    exact hbd6 j hj

/-- The streaming loop keeps the chain and the FIFO id bound. -/
theorem readLoop_chain (itemSize itemCount fuel : Nat) :
    ∀ (soFar : Nat) (acc : List Nat) (s : Sys),
    consecutivePrefetch s → prefetchIdsBound s →
    consecutivePrefetch (readLoop itemSize itemCount fuel soFar acc s).2.2 ∧
    prefetchIdsBound (readLoop itemSize itemCount fuel soFar acc s).2.2 := by
  induction fuel with
  | zero => intro _ _ s hch hbd; exact ⟨hch, hbd⟩
  | succ n ih =>
    intro soFar acc s hch hbd
    rcases hpf : s.stream.prefetch with _ | ⟨frontId, rest⟩
    · simp only [readLoop, hpf]
      split <;> exact ⟨hch, hbd⟩
    · simp only [readLoop, hpf]
      split
      · have hd := drainWhileHeadPending_preserve frontId s.resultQ.length s
        have hdp := drainWhileHeadPending_prefetch frontId s.resultQ.length s
        have hch1 : consecutivePrefetch (drainWhileHeadPending frontId s.resultQ.length s) :=
          consecutive_transfer s _ hch hdp hd.1 (fun j _ => hd.2.2 j)
        have hbd1 : prefetchIdsBound (drainWhileHeadPending frontId s.resultQ.length s) := by
          intro j hj
          rw [hdp] at hj
          rw [hd.2.1]
          exact hbd j hj
        have hpf1 : (drainWhileHeadPending frontId s.resultQ.length s).stream.prefetch
            = frontId :: rest := by
          rw [hdp]
          exact hpf
        split
        · exact ⟨hch1, hbd1⟩
        · rename_i front heqfront
          split
          · rename_i hready
            have hposfront : posOf (drainWhileHeadPending frontId s.resultQ.length s) frontId
                = front.filePosition := by
              simp only [posOf]
              rw [heqfront]
              rfl
            have hch2 : consecutivePrefetch
                (setNode (drainWhileHeadPending frontId s.resultQ.length s) frontId
                  (copyBlockData front (itemSize * itemCount - soFar)).2.1) := by
              refine consecutive_transfer _ _ hch1 rfl rfl ?_
              intro j _
              by_cases hji : j = frontId
              · subst hji
                rw [posOf_setNode_self, copyBlockData_filePosition, hposfront]
              · rw [posOf_setNode_ne _ _ _ _ hji]
            have hbd2 : prefetchIdsBound
                (setNode (drainWhileHeadPending frontId s.resultQ.length s) frontId
                  (copyBlockData front (itemSize * itemCount - soFar)).2.1) := hbd1
            have hpf2 : (setNode (drainWhileHeadPending frontId s.resultQ.length s) frontId
                (copyBlockData front (itemSize * itemCount - soFar)).2.1).stream.prefetch
                = frontId :: rest := hpf1
            have hf2state : (copyBlockData front (itemSize * itemCount - soFar)).2.1.state
                = BlockState.ready := by
              rw [copyBlockData_state]
              exact hready
            split
            · split
              · exact ⟨consecutive_transfer _ _ hch2 rfl rfl (fun j _ => rfl), hbd2⟩
              · rename_i i s3 heqalloc
                simp only [allocReq] at heqalloc
                split at heqalloc
                · cases heqalloc
                · cases heqalloc
                  have hstep := readLoop_step_chain
                    (setNode (drainWhileHeadPending frontId s.resultQ.length s) frontId
                      (copyBlockData front (itemSize * itemCount - soFar)).2.1)
                    frontId rest _ hch2 hbd2 hpf2 (getNode_setNode _ _ _) hf2state
                  exact ih _ _ _ hstep.1 hstep.2
            · exact ⟨consecutive_transfer _ _ hch2 rfl rfl (fun j _ => rfl), hbd2⟩
            · exact ih _ _ _ hch2 hbd2
          · split
            · exact ⟨consecutive_transfer _ _ hch1 rfl rfl (fun j _ => rfl), hbd1⟩
            · exact ⟨consecutive_transfer _ _ hch1 rfl rfl (fun j _ => rfl), hbd1⟩
      · exact ⟨hch, hbd⟩

/-- `read_or_write` keeps the chain and the FIFO id bound. -/
theorem read_or_write_chain (s : Sys) (itemSize itemCount : Nat)
    (hch : consecutivePrefetch s) (hbd : prefetchIdsBound s) :
    consecutivePrefetch (read_or_write s itemSize itemCount).2.2 ∧
    prefetchIdsBound (read_or_write s itemSize itemCount).2.2 := by
  have hpp := pollState_preserve s
  have hchp : consecutivePrefetch (pollState s).2 :=
    consecutive_transfer s _ hch hpp.1 hpp.2.1 (fun j _ => hpp.2.2.2 j)
  have hbdp : prefetchIdsBound (pollState s).2 := by
    intro j hj
    rw [hpp.1] at hj
    rw [hpp.2.2.1]
    exact hbd j hj
  simp only [read_or_write]
  split
  · exact ⟨hchp, hbdp⟩
  · exact ⟨hchp, hbdp⟩
  · exact ⟨hchp, hbdp⟩
  · exact ⟨hchp, hbdp⟩
  · have hdq := drainResultQueue_preserve (pollState s).2.resultQ.length (pollState s).2
    have hchd : consecutivePrefetch
        (drainResultQueue (pollState s).2.resultQ.length (pollState s).2) :=
      consecutive_transfer _ _ hchp hdq.1 hdq.2.1 (fun j _ => hdq.2.2.2 j)
    have hbdd : prefetchIdsBound
        (drainResultQueue (pollState s).2.resultQ.length (pollState s).2) := by
      intro j hj
      rw [hdq.1] at hj
      rw [hdq.2.2.1]
      exact hbdp j hj
    split
    · exact readLoop_chain _ _ _ _ _ _ hchd hbdd
    · exact ⟨hchd, hbdd⟩
  · exact readLoop_chain _ _ _ _ _ _ hchp hbdp

/-- Claim C8: for every adjacent pair of nodes H followed by N in the
prefetch FIFO, `filePosition(N) = filePosition(H) + BLOCK_BYTES`, and this
is preserved by every stream operation (`seek`, `read`, `poll_state`).
The auxiliary conjunct — FIFO ids are below the id counter, so a freshly
allocated request never aliases a linked node — is itself preserved and
makes the chain clause inductive. -/
theorem c8_consecutive_prefetch (s : Sys) (pos itemSize itemCount : Nat)
    (hch : consecutivePrefetch s) (hbd : prefetchIdsBound s) :
    (consecutivePrefetch (seek s pos).2 ∧ prefetchIdsBound (seek s pos).2) ∧
    (consecutivePrefetch (pollState s).2 ∧ prefetchIdsBound (pollState s).2) ∧
    (consecutivePrefetch (read_or_write s itemSize itemCount).2.2 ∧
      prefetchIdsBound (read_or_write s itemSize itemCount).2.2) := by
  have hpp := pollState_preserve s
  refine ⟨seek_chain s pos hch hbd, ⟨?_, ?_⟩, read_or_write_chain s itemSize itemCount hch hbd⟩
  · exact consecutive_transfer s _ hch hpp.1 hpp.2.1 (fun j _ => hpp.2.2.2 j)
  · intro j hj
    rw [hpp.1] at hj
    rw [hpp.2.2.1]
    exact hbd j hj

/-- Claim C8 witness: the chain invariant carried through a seek, a poll
and a read on a freshly opened stream. -/
theorem c8_consecutive_prefetch_witness :
    (consecutivePrefetch (seek (openedIdle 4 traceFile 30 false) 5).2 ∧
      prefetchIdsBound (seek (openedIdle 4 traceFile 30 false) 5).2) ∧
    (consecutivePrefetch (pollState (openedIdle 4 traceFile 30 false)).2 ∧
      prefetchIdsBound (pollState (openedIdle 4 traceFile 30 false)).2) ∧
    (consecutivePrefetch (read_or_write (openedIdle 4 traceFile 30 false) 1 1).2.2 ∧
      prefetchIdsBound (read_or_write (openedIdle 4 traceFile 30 false) 1 1).2.2) :=
  c8_consecutive_prefetch (openedIdle 4 traceFile 30 false) 5 1 1
    (by simp only [consecutivePrefetch]; decide)
    (by simp only [prefetchIdsBound]; decide)

/-! ### Claim C1: streaming delivery -/

/-- The server's valid-byte count for the block at `p` is the block
capacity capped by the bytes remaining in the file. -/
theorem mkValid_min (file : List Nat) (B p : Nat) :
    mkValid file B p = min B (file.length - p) := by
  simp [mkValid, List.length_take, List.length_drop]

/-- Two adjacent chunks of a file suffix concatenate to one chunk. -/
theorem take_chunk (xs : List Nat) (a n d : Nat) :
    (xs.drop a).take n ++ (xs.drop (a + n)).take d = (xs.drop a).take (n + d) := by
  rw [List.take_add, List.drop_drop]

/-- The reply the server builds (under the pure in-memory outcome) for a
request at position `p` with client cursor `c`, once marked ready by
`receiveOneBlock`, is exactly the ready node of the streaming
configuration. -/
theorem served_mark_eq (file : List Nat) (B p c : Nat) :
    { (handleReadBlockRequest B (pureOutcome file B p)
        { initAcquire p with bytesCopied := c }).1 with state := BlockState.ready } =
      readyNode file B p c := by
  by_cases hle : B ≤ file.length - p
  · have h : ((file.drop p).take B).length = B := by
      rw [List.length_take, List.length_drop]; omega
    simp [handleReadBlockRequest, pureOutcome, h, hle, readyNode, mkBlock, mkValid, initAcquire]
  · have h : ¬ ((file.drop p).take B).length = B := by
      rw [List.length_take, List.length_drop]; omega
    simp [handleReadBlockRequest, pureOutcome, h, hle, readyNode, mkBlock, mkValid, initAcquire]

/-- `getD` on an append, inside the left part. -/
theorem getD_append_left (l l' : List Nat) (k d : Nat) (h : k < l.length) :
    (l ++ l').getD k d = l.getD k d := by
  unfold List.getD
  rw [List.get?_append h]

/-- `getD` on an append, at the first index of a one-element right part. -/
theorem getD_concat_length (l : List Nat) (i d : Nat) :
    (l ++ [i]).getD l.length d = i := by
  unfold List.getD
  rw [List.get?_append_right (Nat.le_refl _)]
  simp

/-- An in-bounds `getD` value is a member. -/
theorem getD_mem_of_lt (l : List Nat) (k : Nat) (h : k < l.length) : l.getD k 0 ∈ l := by
  rw [List.getD_eq_getElem l 0 h]
  exact List.getElem_mem h

/-- `copyBlockData` on a ready node of the streaming configuration: the
copied bytes are real file bytes from the cursor's absolute position, the
cursor advances by the copied count, and the status reports a block end
exactly when the block is exhausted (final when the block is partial). -/
theorem copy_readyNode (file : List Nat) (B p c m : Nat) (hBM : B < M64)
    (hc : c ≤ mkValid file B p) :
    copyBlockData (readyNode file B p c) m =
      ((file.drop (p + c)).take (min (mkValid file B p - c) m),
       readyNode file B p (c + min (mkValid file B p - c) m),
       if mkValid file B p - c - min (mkValid file B p - c) m = 0 then
         (if mkValid file B p = B then CopyStatus.atBlockEnd else CopyStatus.atFinalBlockEnd)
       else CopyStatus.canContinue) := by
  have hv := mkValid_min file B p
  have hsub : sub64 (mkValid file B p) c = mkValid file B p - c := by
    simp [sub64, hc]
  have hmod : (c + min (mkValid file B p - c) m) % M64
      = c + min (mkValid file B p - c) m := by
    apply Nat.mod_eq_of_lt
    omega
  simp only [copyBlockData, readyNode, Option.getD_some]
  have hvc : (mkBlock file B p).validCountBytes = mkValid file B p := rfl
  rw [hvc, hsub, hmod]
  refine Prod.ext ?_ (Prod.ext ?_ ?_)
  · show memcpyBytes (mkBlock file B p).data c (min (mkValid file B p - c) m) = _
    apply List.ext_getElem
    · simp only [memcpyBytes, List.length_map, List.length_range, List.length_take,
        List.length_drop]
      omega
    · intro k h1 h2
      simp only [memcpyBytes, List.length_map, List.length_range] at h1
      simp only [memcpyBytes, List.getElem_map, List.getElem_range, mkBlock]
      have hck : c + k < ((file.drop p).take B).length := by
        rw [List.length_take, List.length_drop]
        omega
      rw [getD_append_left _ _ _ _ hck, List.getD_eq_getElem _ 0 hck, List.getElem_take,
        List.getElem_drop, List.getElem_take, List.getElem_drop]
      congr 1
      omega
  · show ({ readyNode file B p c with bytesCopied := c + min (mkValid file B p - c) m }
        : FileIoRequest) = _
    simp [readyNode]
  · show (if mkValid file B p - c - min (mkValid file B p - c) m = 0 then
        if (readyNode file B p c).isAtEof = true then CopyStatus.atFinalBlockEnd
        else CopyStatus.atBlockEnd
      else CopyStatus.canContinue) = _
    by_cases hrem : mkValid file B p - c - min (mkValid file B p - c) m = 0
    · rw [if_pos hrem, if_pos hrem]
      by_cases hvB : mkValid file B p = B
      · simp [readyNode, hvB]
      · simp [readyNode, hvB]
    · rw [if_neg hrem, if_neg hrem]

/-- Against the pure in-memory outcome the server always replies success
to a `READ_BLOCK` request. -/
theorem handle_pure_resultStatus (file : List Nat) (cap pos : Nat) (r : FileIoRequest) :
    (handleReadBlockRequest cap (pureOutcome file cap pos) r).1.resultStatus = NOERROR := by
  by_cases h : ((file.drop pos).take cap).length = cap <;>
    simp [handleReadBlockRequest, pureOutcome, h] <;> split <;> rfl

/-- One block-boundary refill step of the streaming loop under the
instant-server schedule, starting from a quiescent streaming state whose
front node is ready: link and send a fresh sequential request (served at
once), pop the front, release it, and receive the fresh reply.  The
resulting state is quiescent again, with the fresh node ready one block
past the old tail and every other node untouched. -/
theorem initAcquire_filePosition (p : Nat) : (initAcquire p).filePosition = p := rfl

theorem initAcquire_bytesCopied (p : Nat) : (initAcquire p).bytesCopied = 0 := rfl

theorem refill_step (s2 : Sys) (frontId : Nat) (rest : List Nat) (front2 : FileIoRequest)
    (lastId : Nat) (lastNode : FileIoRequest)
    (hpf : s2.stream.prefetch = frontId :: rest)
    (hlastq : s2.stream.prefetch.getLast? = some lastId)
    (hglast : getNode s2 lastId = some lastNode)
    (hg : getNode s2 frontId = some front2) (hready : front2.state = BlockState.ready)
    (hq : s2.resultQ = []) (hin : s2.instant = true)
    (hst : s2.stream.state = StreamState.openStreaming)
    (hexp : s2.expected = 0) (hfree : 1 ≤ s2.freeNodes) (hfr : frontId ≠ s2.nextId) :
    ∀ t, t = (receiveOneBlock (flushBlock (popFront (initLinkAndSendSequentialBlockRequest
        { s2 with freeNodes := s2.freeNodes - 1, nextId := s2.nextId + 1 } s2.nextId))
      frontId)).2 →
      t.stream.prefetch = rest ++ [s2.nextId] ∧
      t.stream.state = StreamState.openStreaming ∧
      t.resultQ = [] ∧ t.expected = 0 ∧ t.inFlight = s2.inFlight ∧
      t.instant = true ∧ t.blockBytes = s2.blockBytes ∧ t.file = s2.file ∧
      t.freeNodes = s2.freeNodes ∧ t.nextId = s2.nextId + 1 ∧
      getNode t s2.nextId =
        some (readyNode s2.file s2.blockBytes (lastNode.filePosition + s2.blockBytes) 0) ∧
      (∀ j, j ≠ s2.nextId → getNode t j = getNode s2 j) := by
  intro t ht
  have hni : ¬ s2.nextId = frontId := fun h => hfr h.symm
  rw [hpf] at hlastq
  simp only [getNode] at hglast hg
  simp only [initLinkAndSendSequentialBlockRequest, sendBlockRequestToServer, serveBlock,
    getNode, setNode, assocFind, popFront, flushBlock, releaseNode, freeReq, receiveOneBlock,
    setStreamState, hpf, hlastq, hglast, hg, hq, hin, hst, hready, hni,
    handle_pure_resultStatus, handleReadBlockRequest_bytesCopied, isDiscarded,
    initAcquire_filePosition, initAcquire_bytesCopied,
    Option.getD_some, List.cons_append, List.nil_append, List.tail_cons, DISCARDED, M64,
    if_true, if_false, eq_self_iff_true, ite_self] at ht
  rw [show (decide ((0 : Nat) = 18446744073709551616 - 1)) = false from by decide] at ht
  simp only [Bool.false_eq_true, if_false] at ht
  subst ht
  refine ⟨?_, ?_, ?_, ?_, ?_, ?_, ?_, ?_, ?_, ?_, ?_, ?_⟩
  · rfl
  · rfl
  · rfl
  · show s2.expected + 1 - 1 = 0
    omega
  · rfl
  · rfl
  · rfl
  · rfl
  · show s2.freeNodes - 1 + 1 = s2.freeNodes
    omega
  · rfl
  · have hdb : (handleReadBlockRequest s2.blockBytes
        (pureOutcome s2.file s2.blockBytes (lastNode.filePosition + s2.blockBytes))
        (initAcquire (lastNode.filePosition + s2.blockBytes))).1.dataBlock =
          some (mkBlock s2.file s2.blockBytes (lastNode.filePosition + s2.blockBytes)) :=
      congrArg FileIoRequest.dataBlock
        (served_mark_eq s2.file s2.blockBytes (lastNode.filePosition + s2.blockBytes) 0)
    have heof : (handleReadBlockRequest s2.blockBytes
        (pureOutcome s2.file s2.blockBytes (lastNode.filePosition + s2.blockBytes))
        (initAcquire (lastNode.filePosition + s2.blockBytes))).1.isAtEof =
          (if mkValid s2.file s2.blockBytes (lastNode.filePosition + s2.blockBytes)
              = s2.blockBytes then false else true) :=
      congrArg FileIoRequest.isAtEof
        (served_mark_eq s2.file s2.blockBytes (lastNode.filePosition + s2.blockBytes) 0)
    simp only [getNode, assocFind, eq_self_iff_true, if_true,
      handleReadBlockRequest_filePosition, initAcquire_filePosition, hdb, heof]
    rfl
  · intro j hj
    have hnj : ¬ s2.nextId = j := fun h => hj h.symm
    simp only [getNode, assocFind, hnj, if_false]

theorem readyNode_state (file : List Nat) (B p c : Nat) :
    (readyNode file B p c).state = BlockState.ready := rfl

theorem readyNode_filePosition (file : List Nat) (B p c : Nat) :
    (readyNode file B p c).filePosition = p := rfl

/-- Appending a fresh element keeps a list duplicate-free. -/
theorem nodup_concat (l : List Nat) (i : Nat) (h : l.Nodup) (hi : i ∉ l) :
    (l ++ [i]).Nodup := by
  simp [List.nodup_append, h, hi]

/-- Reassembly of the quiescent streaming configuration after one refill
step: given the step's effect on an abstract resulting state `t` (fresh
node ready one block past the old tail, other nodes untouched, counters
quiet), `t` is a streaming configuration one block further on with the
head cursor reset. -/
theorem refill_ready (s2 t : Sys) (frontId : Nat) (rest : List Nat) (file : List Nat)
    (B p c2 lastNodePos : Nat) (hB : 0 < B)
    (hlastpos : lastNodePos = p + rest.length * B)
    (hnd : (frontId :: rest).Nodup)
    (hboundS : ∀ x ∈ frontId :: rest, x < s2.nextId)
    (hfam2 : ∀ k, k < (frontId :: rest).length →
      getNode s2 ((frontId :: rest).getD k 0) =
        some (readyNode file B (p + k * B) (if k = 0 then c2 else 0)))
    (hs2inf : s2.inFlight = []) (hs2bb : s2.blockBytes = B) (hs2file : s2.file = file)
    (hs2free : 1 ≤ s2.freeNodes)
    (t1 : t.stream.prefetch = rest ++ [s2.nextId])
    (t2 : t.stream.state = StreamState.openStreaming)
    (t3 : t.resultQ = []) (t4 : t.expected = 0)
    (t5 : t.inFlight = s2.inFlight) (t6 : t.instant = true)
    (t7 : t.blockBytes = s2.blockBytes) (t8 : t.file = s2.file)
    (t9 : t.freeNodes = s2.freeNodes) (t10 : t.nextId = s2.nextId + 1)
    (t11 : getNode t s2.nextId =
      some (readyNode s2.file s2.blockBytes (lastNodePos + s2.blockBytes) 0))
    (t12 : ∀ j, j ≠ s2.nextId → getNode t j = getNode s2 j) :
    streamReady t file B (rest ++ [s2.nextId]) (p + B) 0 := by
  have hiNot : s2.nextId ∉ rest := fun hmem =>
    absurd (hboundS s2.nextId (List.mem_cons_of_mem _ hmem)) (by omega)
  have t11a : getNode t s2.nextId =
      some (readyNode file B (p + B + rest.length * B) 0) := by
    rw [t11, hs2file, hs2bb, hlastpos,
      show p + rest.length * B + B = p + B + rest.length * B from by ring]
  refine ⟨t1, by simp, nodup_concat rest s2.nextId (List.nodup_cons.mp hnd).2 hiNot, ?_,
    hB, Nat.zero_le _, ?_, t3, t4, by rw [t5]; exact hs2inf, t6, by rw [t7]; exact hs2bb,
    by rw [t8]; exact hs2file, t2, by rw [t9]; exact hs2free⟩
  · intro x hx
    rw [t1] at hx
    rw [t10]
    rcases List.mem_append.mp hx with hx2 | hx2
    · exact Nat.lt_succ_of_lt (hboundS x (List.mem_cons_of_mem _ hx2))
    · have hxe : x = s2.nextId := by simpa using hx2
      omega
  · intro k hk
    rw [ite_self]
    by_cases hkr : k < rest.length
    · rw [getD_append_left _ _ _ _ hkr]
      have hmem : rest.getD k 0 ∈ rest := getD_mem_of_lt rest k hkr
      have hnei : rest.getD k 0 ≠ s2.nextId := fun hh => hiNot (hh ▸ hmem)
      rw [t12 _ hnei]
      have hk3 := hfam2 (k + 1) (by simp [Nat.succ_lt_succ hkr])
      rw [List.getD_cons_succ] at hk3
      rw [hk3, show p + (k + 1) * B = p + B + k * B from by ring]
      simp
    · have hkeq : k = rest.length := by
        have hk4 : k < rest.length + 1 := by simpa using hk
        omega
      subst hkeq
      rw [getD_concat_length, t11a]

/-- The streaming loop, started on a quiescent streaming state, delivers
exactly the file's bytes from the cursor's absolute position truncated at
end of file, and ends either in a quiescent streaming state at the
advanced position or in `OPEN_EOF` with everything up to end of file
delivered. -/
theorem readLoop_delivers (file : List Nat) (B : Nat) (hB : 0 < B) (hBM : B < M64)
    (itemCount : Nat) :
    ∀ (fuel soFar : Nat) (acc : List Nat) (s : Sys) (l : List Nat) (p c : Nat),
      streamReady s file B l p c →
      soFar ≤ itemCount →
      itemCount - soFar + 2 ≤ fuel →
      (readLoop 1 itemCount fuel soFar acc s).2.1 =
        acc ++ (file.drop (p + c)).take
          (min (itemCount - soFar) (file.length - (p + c))) ∧
      ((∃ l2 p2 c2,
          streamReady (readLoop 1 itemCount fuel soFar acc s).2.2 file B l2 p2 c2 ∧
          p2 + c2 = p + c + min (itemCount - soFar) (file.length - (p + c))) ∨
       ((readLoop 1 itemCount fuel soFar acc s).2.2.stream.state = StreamState.openEof ∧
        (readLoop 1 itemCount fuel soFar acc s).2.2.resultQ = [] ∧
        (readLoop 1 itemCount fuel soFar acc s).2.2.expected = 0 ∧
        file.length ≤ p + c + min (itemCount - soFar) (file.length - (p + c)))) := by
  intro fuel
  induction fuel with
  | zero =>
    intro soFar acc s l p c _ _ hfuel
    exact absurd hfuel (by omega)
  | succ f ih =>
    intro soFar acc s l p c hsr hso hfuel
    have hsrKeep := hsr
    obtain ⟨hpf, hne, hnd, hbound, hcB, hcv, hfam, hq, hexp, hinf, hin, hbb, hfile, hst,
      hfree⟩ := hsr
    by_cases hlt : soFar < itemCount
    case neg =>
      have hno : ¬ soFar < 1 * itemCount := by omega
      have hz : itemCount - soFar = 0 := by omega
      simp only [readLoop, if_neg hno]
      exact ⟨by simp [hz], Or.inl ⟨l, p, c, hsrKeep, by omega⟩⟩
    case pos =>
    obtain ⟨j0, rest, rfl⟩ : ∃ j0 rest, l = j0 :: rest := by
      cases l with
      | nil => exact absurd rfl hne
      | cons a tl => exact ⟨a, tl, rfl⟩
    have hv := mkValid_min file B p
    have hg0 : getNode s j0 = some (readyNode file B p c) := by
      have h0 := hfam 0 (by simp)
      simpa using h0
    have hdrain : drainWhileHeadPending j0 s.resultQ.length s = s := by
      rw [hq]
      rfl
    have hcp := copy_readyNode file B p c (itemCount - soFar) hBM hcv
    have hfam2 : ∀ k, k < (j0 :: rest).length →
        getNode (setNode s j0 (readyNode file B p
            (c + min (mkValid file B p - c) (itemCount - soFar))))
          ((j0 :: rest).getD k 0) =
        some (readyNode file B (p + k * B)
          (if k = 0 then c + min (mkValid file B p - c) (itemCount - soFar) else 0)) := by
      intro k hk
      cases k with
      | zero =>
        simpa using getNode_setNode s j0 (readyNode file B p
          (c + min (mkValid file B p - c) (itemCount - soFar)))
      | succ k2 =>
        have hk2 : k2 < rest.length := by simpa using hk
        have hmem : rest.getD k2 0 ∈ rest := getD_mem_of_lt rest k2 hk2
        have hnej0 : rest.getD k2 0 ≠ j0 := fun hh =>
          (List.nodup_cons.mp hnd).1 (hh ▸ hmem)
        rw [List.getD_cons_succ, getNode_setNode_ne _ _ _ _ hnej0]
        have hk3 := hfam (k2 + 1) hk
        rw [List.getD_cons_succ] at hk3
        simpa using hk3
    simp only [readLoop, one_mul, hlt, if_true, hpf, hdrain, hg0, readyNode_state,
      eq_self_iff_true, hcp]
    by_cases hrem :
        mkValid file B p - c - min (mkValid file B p - c) (itemCount - soFar) = 0
    case pos =>
      by_cases hvB : mkValid file B p = B
      case pos =>
        -- at block end: refill one sequential request and recurse
        have hn1 : 1 ≤ min (mkValid file B p - c) (itemCount - soFar) := by omega
        have hlenout : ((file.drop (p + c)).take
            (min (mkValid file B p - c) (itemCount - soFar))).length =
            min (mkValid file B p - c) (itemCount - soFar) := by
          rw [List.length_take, List.length_drop]
          omega
        have hlastq : s.stream.prefetch.getLast? =
            some ((j0 :: rest).getD ((j0 :: rest).length - 1) 0) := by
          rw [hpf, List.getLast?_eq_getLast _ hne, List.getLast_eq_getElem,
            List.getD_eq_getElem _ 0 (by simp)]
        have hglast2 := hfam2 ((j0 :: rest).length - 1) (by simp)
        have hg2 := getNode_setNode s j0 (readyNode file B p
          (c + min (mkValid file B p - c) (itemCount - soFar)))
        have hfreene : ¬ (setNode s j0 (readyNode file B p
            (c + min (mkValid file B p - c) (itemCount - soFar)))).freeNodes = 0 := by
          show ¬ s.freeNodes = 0
          omega
        have hfr : j0 ≠ s.nextId :=
          Nat.ne_of_lt (hbound j0 (by rw [hpf]; exact List.mem_cons_self _ _))
        obtain ⟨t1, t2, t3, t4, t5, t6, t7, t8, t9, t10, t11, t12⟩ :=
          refill_step (setNode s j0 (readyNode file B p
              (c + min (mkValid file B p - c) (itemCount - soFar)))) j0 rest _ _ _
            hpf hlastq hglast2 hg2 rfl hq hin hst hexp hfree hfr _ rfl
        have hsr7 := refill_ready
          (setNode s j0 (readyNode file B p
            (c + min (mkValid file B p - c) (itemCount - soFar)))) _ j0 rest file B p
          (c + min (mkValid file B p - c) (itemCount - soFar))
          ((readyNode file B (p + ((j0 :: rest).length - 1) * B)
            (if (j0 :: rest).length - 1 = 0 then
              c + min (mkValid file B p - c) (itemCount - soFar) else 0)).filePosition)
          hB (by rw [readyNode_filePosition]; simp) hnd
          (by
            intro x hx
            exact hbound x (by rw [hpf]; exact hx))
          hfam2 hinf hbb hfile hfree t1 t2 t3 t4 t5 t6 t7 t8 t9 t10 t11 t12
        clear t1 t2 t3 t4 t5 t6 t7 t8 t9 t10 t11 t12 hlastq hglast2 hg2
        simp only [if_pos hrem, if_pos hvB, allocReq, if_neg hfreene, hlenout]
        clear hfreene
        have e1 : p + B + 0 = p + c + min (mkValid file B p - c) (itemCount - soFar) := by
          omega
        have e2 : min (mkValid file B p - c) (itemCount - soFar) +
            min (itemCount - (soFar + min (mkValid file B p - c) (itemCount - soFar)))
              (file.length - (p + c + min (mkValid file B p - c) (itemCount - soFar))) =
            min (itemCount - soFar) (file.length - (p + c)) := by
          omega
        have e5 : soFar + min (mkValid file B p - c) (itemCount - soFar) ≤ itemCount := by
          omega
        have e6 : itemCount - (soFar + min (mkValid file B p - c) (itemCount - soFar)) + 2
            ≤ f := by
          omega
        obtain ⟨ih1, ih2⟩ := ih
          (soFar + min (mkValid file B p - c) (itemCount - soFar))
          (acc ++ (file.drop (p + c)).take (min (mkValid file B p - c) (itemCount - soFar)))
          _ (rest ++ [s.nextId]) (p + B) 0 hsr7 e5 e6
        constructor
        · exact ih1.trans (by rw [List.append_assoc, e1, take_chunk, e2])
        · rcases ih2 with ⟨l2, p2, c2, hsr3, he⟩ | ⟨ha, hb, hc2, hd⟩
          · refine Or.inl ⟨l2, p2, c2, hsr3, ?_⟩
            rw [he, e1]
            omega
          · refine Or.inr ⟨ha, hb, hc2, ?_⟩
            rw [e1] at hd
            omega
      case neg =>
        -- at the final block's end: everything up to end of file delivered
        simp only [if_pos hrem, if_neg hvB]
        constructor
        · rw [show min (mkValid file B p - c) (itemCount - soFar)
              = min (itemCount - soFar) (file.length - (p + c)) from by omega]
        · exact Or.inr ⟨rfl, hq, hexp, by omega⟩
    case neg =>
      -- mid-block: the whole request is satisfied inside the current block
      simp only [if_neg hrem]
      have hnm : min (mkValid file B p - c) (itemCount - soFar) = itemCount - soFar := by
        omega
      have hlenout : ((file.drop (p + c)).take
          (min (mkValid file B p - c) (itemCount - soFar))).length = itemCount - soFar := by
        rw [List.length_take, List.length_drop]
        omega
      have hsr2 : streamReady (setNode s j0 (readyNode file B p
          (c + min (mkValid file B p - c) (itemCount - soFar)))) file B (j0 :: rest) p
          (c + min (mkValid file B p - c) (itemCount - soFar)) :=
        ⟨hpf, hne, hnd, hbound, by omega, by omega, hfam2, hq, hexp, hinf, hin, hbb,
          hfile, hst, hfree⟩
      have e3 : itemCount - (soFar + (itemCount - soFar)) = 0 := by omega
      have e4 : min (mkValid file B p - c) (itemCount - soFar)
          = min (itemCount - soFar) (file.length - (p + c)) := by omega
      have e5 : soFar + (itemCount - soFar) ≤ itemCount := by omega
      have e6 : itemCount - (soFar + (itemCount - soFar)) + 2 ≤ f := by omega
      have e7 : p + (c + min (mkValid file B p - c) (itemCount - soFar))
          = p + c + min (itemCount - soFar) (file.length - (p + c)) := by omega
      rw [hlenout]
      obtain ⟨ih1, ih2⟩ := ih (soFar + (itemCount - soFar))
        (acc ++ (file.drop (p + c)).take (min (mkValid file B p - c) (itemCount - soFar)))
        (setNode s j0 (readyNode file B p
          (c + min (mkValid file B p - c) (itemCount - soFar))))
        (j0 :: rest) p (c + min (mkValid file B p - c) (itemCount - soFar))
        hsr2 e5 e6
      constructor
      · rw [ih1, e3]
        simp only [Nat.zero_min, List.take_zero, List.append_nil]
        rw [e4]
      · rcases ih2 with ⟨l2, p2, c2, hsr3, he⟩ | ⟨ha, hb, hc2, hd⟩
        · refine Or.inl ⟨l2, p2, c2, hsr3, ?_⟩
          rw [he, e3]
          simp only [Nat.zero_min, Nat.add_zero]
          exact e7
        · refine Or.inr ⟨ha, hb, hc2, ?_⟩
          rw [e3] at hd
          simp only [Nat.zero_min, Nat.add_zero] at hd
          rw [e7] at hd
          exact hd

/-- With no result outstanding, `pollState` is a pure observation. -/
theorem pollState_quiescent (s : Sys) (h : s.expected = 0) :
    pollState s = (s.stream.state, s) := by
  unfold pollState
  rw [if_neg (by omega)]

/-- A read on a quiescent `OPEN_EOF` stream delivers nothing and leaves
the system untouched. -/
theorem read_quiescent_noop (s : Sys) (itemSize itemCount : Nat)
    (hst : s.stream.state = StreamState.openEof) (hexp : s.expected = 0) :
    read_or_write s itemSize itemCount = (0, [], s) := by
  simp only [read_or_write, pollState_quiescent s hexp, hst]

/-- One `read` call on a quiescent streaming state delivers exactly the
requested bytes, truncated at end of file. -/
theorem read_delivers (file : List Nat) (B : Nat) (hB : 0 < B) (hBM : B < M64)
    (s : Sys) (l : List Nat) (p c n : Nat) (hsr : streamReady s file B l p c) :
    (read_or_write s 1 n).2.1 =
      (file.drop (p + c)).take (min n (file.length - (p + c))) ∧
    ((∃ l2 p2 c2, streamReady (read_or_write s 1 n).2.2 file B l2 p2 c2 ∧
        p2 + c2 = p + c + min n (file.length - (p + c))) ∨
     ((read_or_write s 1 n).2.2.stream.state = StreamState.openEof ∧
      (read_or_write s 1 n).2.2.expected = 0 ∧
      file.length ≤ p + c + min n (file.length - (p + c)))) := by
  have hexp : s.expected = 0 := hsr.2.2.2.2.2.2.2.2.1
  have hst : s.stream.state = StreamState.openStreaming :=
    hsr.2.2.2.2.2.2.2.2.2.2.2.2.2.1
  have hfuel : n - 0 + 2 ≤ readFuel s (1 * n) := by
    unfold readFuel
    omega
  obtain ⟨h1, h2⟩ := readLoop_delivers file B hB hBM n (readFuel s (1 * n)) 0 [] s l p c
    hsr (Nat.zero_le n) hfuel
  simp only [Nat.sub_zero, List.nil_append] at h1 h2
  simp only [read_or_write, pollState_quiescent s hexp, hst]
  refine ⟨h1, ?_⟩
  rcases h2 with ⟨l2, p2, c2, hsr2, he⟩ | ⟨ha, _, hc2, hd⟩
  · exact Or.inl ⟨l2, p2, c2, hsr2, he⟩
  · exact Or.inr ⟨ha, hc2, hd⟩

/-- Reads after a quiescent `OPEN_EOF` state deliver nothing. -/
theorem runReads_quiescent (ns : List Nat) : ∀ s : Sys,
    s.stream.state = StreamState.openEof → s.expected = 0 →
    (runReads s ns).1.flatten = [] := by
  induction ns with
  | nil => intro s _ _; rfl
  | cons n rest ihq =>
    intro s hst hexp
    simp only [runReads, read_quiescent_noop s 1 n hst hexp]
    exact ihq s hst hexp

/-- A run of reads from a quiescent streaming state delivers the file's
bytes from the cursor's absolute position, truncated at end of file. -/
theorem runReads_delivers (file : List Nat) (B : Nat) (hB : 0 < B) (hBM : B < M64) :
    ∀ (ns : List Nat) (s : Sys) (l : List Nat) (p c : Nat),
      streamReady s file B l p c →
      (runReads s ns).1.flatten =
        (file.drop (p + c)).take (min ns.sum (file.length - (p + c))) := by
  intro ns
  induction ns with
  | nil =>
    intro s l p c _
    simp [runReads]
  | cons n rest ihr =>
    intro s l p c hsr
    obtain ⟨h1, h2⟩ := read_delivers file B hB hBM s l p c n hsr
    simp only [runReads, List.flatten_cons, h1, List.sum_cons]
    rcases h2 with ⟨l2, p2, c2, hsr2, he⟩ | ⟨ha, hc2, hd⟩
    · have hrec := ihr (read_or_write s 1 n).2.2 l2 p2 c2 hsr2
      rw [hrec, he, take_chunk]
      congr 1
      omega
    · rw [runReads_quiescent rest _ ha hc2, List.append_nil]
      congr 1
      omega

/-- Claim C1 counterexample: seek to position 7 of a six-byte file (block
size 4, instant server schedule) and read one byte.  The claim demands the
delivered byte stream equal the file's bytes from offset 7 truncated at
end of file — the empty stream — but the code delivers the junk byte 0:
the `size_t` cursor arithmetic `validCountBytes - bytesCopied` in
`copyBlockData` wraps around (the pre-roll cursor `7 - 4 = 3` exceeds the
final block's two valid bytes), so a byte beyond the block's valid data is
copied out. -/
theorem c1_counterexample :
    (runReads (startStream 4 traceFile6 30 7) [1]).1.flatten = [0] ∧
    (traceFile6.drop 7).take 1 = [] := by
  exact ⟨by decide, by decide⟩

/-- Claim C1 (amended): on a stream standing in the quiescent streaming
configuration (reached under the instant-server schedule after a seek to a
position *at most the file length*, `streamReady`: ready prefetched blocks
at consecutive positions from `p`, head bytes-copied cursor `c` within the
head block's valid bytes), the bytes delivered by any sequence of `read`
calls, concatenated, equal the file's bytes starting at absolute offset
`p + c`, truncated at end of file.  In particular, for a seek position
that is not block-aligned the pre-roll bytes are skipped via the
bytes-copied cursor (`c = pos - aligned_pos`, so delivery starts exactly
at `pos = p + c`). -/
theorem c1_monotone_consumption (file : List Nat) (B : Nat) (s : Sys) (l : List Nat)
    (p c : Nat) (ns : List Nat) (hB : 0 < B) (hBM : B < M64)
    (hsr : streamReady s file B l p c) :
    (runReads s ns).1.flatten =
      (file.drop (p + c)).take (min ns.sum (file.length - (p + c))) :=
  runReads_delivers file B hB hBM ns s l p c hsr

/-- The amended claim C1 is not vacuous: open a five-byte file with block
size 4 and a pool of 30, seek to the unaligned position 1, read one byte
(which buffers and advances the cursor to absolute offset 2), and then run
two more reads of 2 and 10 bytes: they deliver `[3, 4]` and `[5]` — the
file's bytes from offset 2 truncated at end of file. -/
theorem c1_monotone_consumption_witness :
    (runReads ((read_or_write (startStream 4 traceFile 30 1) 1 1).2.2) [2, 10]).1.flatten =
      (traceFile.drop (0 + 2)).take
        (min ([2, 10] : List Nat).sum (traceFile.length - (0 + 2))) :=
  c1_monotone_consumption traceFile 4 ((read_or_write (startStream 4 traceFile 30 1) 1 1).2.2)
    (List.range 20) 0 2 [2, 10] (by decide) (by decide)
    (by
      simp only [streamReady, prefetchIdsBound, mkValid, readyNode, mkBlock]
      decide)
